import Mathlib

/-!
Dense matrix / transpose sparse matrix multiplication.

A shallow embedding of `blaze/math/expressions/DMatTSMatMultExpr.h`: the product
expression node of a row-major dense matrix and a column-major sparse matrix, its
assignment kernels and the multiplication operator that builds the node.

Conventions of the embedding.

* Element types are exact: every element is an `Int`.
* A matrix is its shape together with an accessor; the compile-time type traits the
  code consults (`IsUpper<MT>`, `IsRowMajorMatrix<MT>`, ...) are fields of the operand.
* A `for` loop is `whileLoop cond body fuel init`: the body includes the increment,
  `fuel` bounds the number of iterations and a run that needs more ends in
  `Fault.outOfFuel`. A kernel hands the same budget to each of its loops.
* Loop counters and cursors are natural numbers; `size_t` arithmetic is made explicit
  where the code depends on it (`end - element` and the mask `size_t(-4)`).
* `BLAZE_INTERNAL_ASSERT`, the two `BLAZE_THROW_*` macros and a cursor dereferenced
  outside the stored entries end a run in the corresponding `Fault`.
-/

namespace blaze

/-! ## Data model -/

/-- Ways in which a run of the embedded code ends without a result. -/
inductive Fault where
  | outOfFuel
  | internalAssert
  | invalidArgument
  | outOfRange
  | invalidAccess
  deriving DecidableEq, Repr

/-- Compile-time structural traits of an operand type, as consumed by the expression
node (`IsDiagonal<MT>`, `IsUpper<MT>`, `IsSymmetric<MT>`, `MT::smpAssignable`, ...). -/
structure Traits where
  isDiagonal : Bool := false
  isUpper : Bool := false
  isUniUpper : Bool := false
  isStrictlyUpper : Bool := false
  isLower : Bool := false
  isUniLower : Bool := false
  isStrictlyLower : Bool := false
  isSymmetric : Bool := false
  isComputation : Bool := false
  requiresEvaluation : Bool := false
  smpAssignable : Bool := true
  isResizableElement : Bool := false
  deriving DecidableEq, Repr

/-- A dense matrix: shape, element accessor `elem i j` for `(i,j)`, storage order
(`IsRowMajorMatrix`), the answers of `isAligned()` and of `isAliased( alias )` (an alias
identity is an address, a natural number here) and traits. -/
structure DenseMatrix where
  rows : Nat
  columns : Nat
  elem : Nat → Nat → Int
  rowMajor : Bool := true
  aligned : Bool := false
  isAliased : Nat → Bool := fun _ => false
  traits : Traits := {}

/-- A stored entry of a sparse column: `index()` and `value()`. -/
structure SparseElement where
  index : Nat
  value : Int
  deriving DecidableEq, Repr

/-- A column-major sparse matrix: shape, and for every column the list of its stored
entries in storage order, the answer of `isAliased( alias )` and traits. A cursor
(`ConstIterator`) into column `j` is a position in `column j`. -/
structure SparseMatrix where
  rows : Nat
  columns : Nat
  column : Nat → List SparseElement
  isAliased : Nat → Bool := fun _ => false
  traits : Traits := {}

/-- Modelled from the spec: the sparse container's `begin(j)`, which is not part of the
sources at hand; the cursor at the first stored entry of column `j`. -/
def SparseMatrix.begin_ (_B : SparseMatrix) (_j : Nat) : Nat := 0

/-- Modelled from the spec: the sparse container's `end(j)`; the cursor one past the
last stored entry of column `j`. -/
def SparseMatrix.end_ (B : SparseMatrix) (j : Nat) : Nat := (B.column j).length

/-- Modelled from the spec: the sparse container's `lowerBound(i,j)`; the cursor at the
first entry of column `j` with index `≥ i` (`end(j)` when there is none). -/
def SparseMatrix.lowerBound (B : SparseMatrix) (i j : Nat) : Nat :=
  (B.column j).findIdx (fun e => decide (i ≤ e.index))

/-- Modelled from the spec: the sparse container's `upperBound(i,j)`; the cursor at the
first entry of column `j` with index `> i` (`end(j)` when there is none). -/
def SparseMatrix.upperBound (B : SparseMatrix) (i j : Nat) : Nat :=
  (B.column j).findIdx (fun e => decide (i < e.index))

/-- Dereferencing the cursor at position `pos` of column `j`; `none` outside the
stored entries. -/
def SparseMatrix.deref (B : SparseMatrix) (j pos : Nat) : Option SparseElement :=
  (B.column j)[pos]?

/-- Modelled from the spec: the sparse container's element access `B(p,j)`; the value
of the stored entry of column `j` with index `p`, the additive identity when no entry
is stored there. -/
def SparseMatrix.get (B : SparseMatrix) (p j : Nat) : Int :=
  match (B.column j).find? (fun e => e.index == p) with
  | some e => e.value
  | none => 0

/-- The contract of a sparse operand: in every column the stored indices are strictly
increasing and smaller than the number of rows. -/
def SparseMatrix.WellFormed (B : SparseMatrix) : Prop :=
  ∀ j, j < B.columns →
    (B.column j).Pairwise (fun a b => a.index < b.index) ∧
    ∀ e ∈ B.column j, e.index < B.rows

/-- The assignment `C(i,j) = v`. -/
def DenseMatrix.set (C : DenseMatrix) (i j : Nat) (v : Int) : DenseMatrix :=
  { C with elem := fun x y => if x = i ∧ y = j then v else C.elem x y }

/-- The call `reset( C )` on a whole matrix: every element of `C`, that is every cell
inside its shape, becomes the additive identity. -/
def reset (C : DenseMatrix) : DenseMatrix :=
  { C with elem := fun x y => if x < C.rows ∧ y < C.columns then 0 else C.elem x y }

/-- The number of values of `size_t`. -/
def sizeT : Nat := 2 ^ 64

/-! ## Loops -/

/-- A loop `for( ; cond; ) body` over the state `σ` (the increment is part of `body`).
Every iteration uses one unit of fuel; with none left the run ends in
`Fault.outOfFuel`. -/
def whileLoop {σ : Type} (cond : σ → Bool) (body : σ → Except Fault σ) :
    Nat → σ → Except Fault σ
  | 0, _ => .error .outOfFuel
  | fuel + 1, s =>
    if cond s then
      match body s with
      | .ok s' => whileLoop cond body fuel s'
      | .error e => .error e
    else .ok s

/-- The macro `BLAZE_INTERNAL_ASSERT( b, .. )`. -/
def internalAssert (b : Bool) : Except Fault Unit :=
  if b then .ok () else .error .internalAssert

/-! ## Cursor ranges of the kernels -/

/-- The initial cursor of every kernel,
`IsUpper<MT4> ? ( IsStrictlyUpper<MT4> ? B.upperBound(i,j) : B.lowerBound(i,j) ) : B.begin(j)`. -/
def cursorBegin (A : DenseMatrix) (B : SparseMatrix) (i j : Nat) : Nat :=
  if A.traits.isUpper then
    (if A.traits.isStrictlyUpper then B.upperBound i j else B.lowerBound i j)
  else B.begin_ j

/-- The final cursor of every kernel,
`IsLower<MT4> ? ( IsStrictlyLower<MT4> ? B.lowerBound(iend,j) : B.upperBound(iend,j) ) : B.end(j)`,
where the source passes `iend = i+4` in the 4-row groups, `i+2` in the 2-row groups and
`i` in the single remainder rows. -/
def cursorEnd (A : DenseMatrix) (B : SparseMatrix) (iend j : Nat) : Nat :=
  if A.traits.isLower then
    (if A.traits.isStrictlyLower then B.lowerBound iend j else B.upperBound iend j)
  else B.end_ j

/-- The statements of one row group: `C(i+t,j) = f (i+t) (C(i+t,j))` for
`t = 0, .., r-1`, in this order (`r` is 4, 2 or 1 in the source). -/
def updateRows (f : Nat → Int → Int) (i r j : Nat) (C : DenseMatrix) : DenseMatrix :=
  (List.range' i r).foldl (fun D x => D.set x j (f x (D.elem x j))) C

/-- The loop `for( ; element!=end; ++element ) stmt`, from the cursor `element` of
column `j`; `stmt` receives the entry under the cursor. -/
def elementLoop (B : SparseMatrix) (j end_ : Nat)
    (stmt : SparseElement → DenseMatrix → DenseMatrix)
    (fuel element : Nat) (C : DenseMatrix) : Except Fault (Nat × DenseMatrix) :=
  whileLoop (fun s => s.1 != end_)
    (fun s => match B.deref j s.1 with
      | none => .error .invalidAccess
      | some e => .ok (s.1 + 1, stmt e s.2))
    fuel (element, C)

/-! ## The statements executed for one row group and one column -/

/-- Default overwrite kernel, the body of `for( size_t j=jj; j<jend; ++j )` for the row
group `i, .., i+r-1`: an empty cursor range resets the cells (`continue`); otherwise the
first entry is assigned and the remaining ones are added. -/
def assignGroup (fuel : Nat) (A : DenseMatrix) (B : SparseMatrix) (i r iend j : Nat)
    (C : DenseMatrix) : Except Fault DenseMatrix :=
  let element := cursorBegin A B i j
  let end_ := cursorEnd A B iend j
  if element = end_ then
    .ok (updateRows (fun _ _ => 0) i r j C)
  else
    match B.deref j element with
    | none => .error .invalidAccess
    | some e =>
      let C1 := updateRows (fun x _ => A.elem x e.index * e.value) i r j C
      match elementLoop B j end_
          (fun e D => updateRows (fun x c => c + A.elem x e.index * e.value) i r j D)
          fuel (element + 1) C1 with
      | .ok s => .ok s.2
      | .error err => .error err

/-- Default addition kernel, the body of the column loop for one row group:
`C(x,j) += A(x,element->index()) * element->value()` over the cursor range. -/
def addAssignGroup (fuel : Nat) (A : DenseMatrix) (B : SparseMatrix) (i r iend j : Nat)
    (C : DenseMatrix) : Except Fault DenseMatrix :=
  let element := cursorBegin A B i j
  let end_ := cursorEnd A B iend j
  match elementLoop B j end_
      (fun e D => updateRows (fun x c => c + A.elem x e.index * e.value) i r j D)
      fuel element C with
  | .ok s => .ok s.2
  | .error err => .error err

/-- Default subtraction kernel, the body of the column loop for one row group:
`C(x,j) -= A(x,element->index()) * element->value()` over the cursor range. -/
def subAssignGroup (fuel : Nat) (A : DenseMatrix) (B : SparseMatrix) (i r iend j : Nat)
    (C : DenseMatrix) : Except Fault DenseMatrix :=
  let element := cursorBegin A B i j
  let end_ := cursorEnd A B iend j
  match elementLoop B j end_
      (fun e D => updateRows (fun x c => c - A.elem x e.index * e.value) i r j D)
      fuel element C with
  | .ok s => .ok s.2
  | .error err => .error err

/-- State of the unrolled loop `for( size_t k=0UL; k<kpos; k+=4UL )` of the optimized
kernels: the counter `k`, the cursor `element` and the target. -/
structure UnrolledState where
  k : Nat
  element : Nat
  C : DenseMatrix

/-- One iteration of the unrolled loop of the optimized kernels: four entries are read,
the cursor advancing after each, the indices are asserted to increase strictly, and
`stmt j1 v1 j2 v2 j3 v3 j4 v4` updates the rows of the group. -/
def unrolledStep (B : SparseMatrix) (j : Nat)
    (stmt : SparseElement → SparseElement → SparseElement → SparseElement →
      DenseMatrix → DenseMatrix)
    (s : UnrolledState) : Except Fault UnrolledState :=
  match B.deref j s.element, B.deref j (s.element + 1), B.deref j (s.element + 2),
      B.deref j (s.element + 3) with
  | some e1, some e2, some e3, some e4 =>
    match internalAssert
        (decide (e1.index < e2.index) && decide (e2.index < e3.index) &&
          decide (e3.index < e4.index)) with
    | .ok _ => .ok ⟨s.k + 4, s.element + 4, stmt e1 e2 e3 e4 s.C⟩
    | .error err => .error err
  | _, _, _, _ => .error .invalidAccess

/-- Optimized kernels, the body of the column loop for one row group, with
`op c t` standing for `c += t` (addition and overwrite kernel) or `c -= t`
(subtraction kernel): the unrolled loop over `kpos` entries, then the remainder loop. -/
def optimizedGroup (op : Int → Int → Int) (fuel : Nat) (A : DenseMatrix) (B : SparseMatrix)
    (i r iend j : Nat) (C : DenseMatrix) : Except Fault DenseMatrix :=
  let element := cursorBegin A B i j
  let end_ := cursorEnd A B iend j
  let nonzeros := (end_ + sizeT - element) % sizeT
  let kpos := nonzeros &&& (sizeT - 4)
  match internalAssert (decide (nonzeros - nonzeros % 4 = kpos)) with
  | .error err => .error err
  | .ok _ =>
    match whileLoop (fun s => decide (s.k < kpos))
        (unrolledStep B j (fun e1 e2 e3 e4 D =>
          updateRows (fun x c => op c
            (A.elem x e1.index * e1.value + A.elem x e2.index * e2.value +
              A.elem x e3.index * e3.value + A.elem x e4.index * e4.value)) i r j D))
        fuel ⟨0, element, C⟩ with
    | .error err => .error err
    | .ok s =>
      match elementLoop B j end_
          (fun e D => updateRows (fun x c => op c (A.elem x e.index * e.value)) i r j D)
          fuel s.element s.C with
      | .ok t => .ok t.2
      | .error err => .error err

/-! ## The traversal shared by the six kernels -/

/-- The loop `for( size_t j=jj; j<jend; ++j )` around the statements `group j` of one
row group. -/
def columnLoop (group : Nat → DenseMatrix → Except Fault DenseMatrix)
    (jj jend fuel : Nat) (C : DenseMatrix) : Except Fault DenseMatrix :=
  match whileLoop (fun s => decide (s.1 < jend))
      (fun s => match group s.1 s.2 with
        | .ok D => .ok (s.1 + 1, D)
        | .error err => .error err)
      fuel ((jj, C) : Nat × DenseMatrix) with
  | .ok s => .ok s.2
  | .error err => .error err

/-- One of the three row loops, `for( ; cond i; i+=r )` around the column loop; the
state is the row counter `i`, which the three loops share, and the target. -/
def rowLoop (cond : Nat → Bool) (r : Nat)
    (group : Nat → Nat → DenseMatrix → Except Fault DenseMatrix)
    (jj jend fuel : Nat) (s : Nat × DenseMatrix) : Except Fault (Nat × DenseMatrix) :=
  whileLoop (fun t => cond t.1)
    (fun t => match columnLoop (group t.1) jj jend fuel t.2 with
      | .ok D => .ok (t.1 + r, D)
      | .error err => .error err)
    fuel s

/-- The body of the block loop `for( size_t jj=0UL; jj<B.columns(); jj+=block )` of
every kernel, the increment included: with `jend = min( jj+block, B.columns() )` and
`i` starting at `0`, the rows in groups of four (`(i+4UL) <= A.rows()`), then of two
(`(i+2UL) <= A.rows()`), then single rows (`i<A.rows()`). `group i r iend j` stands for
the statements of the kernel for the rows `i, .., i+r-1` and column `j`, the end cursor
being taken at row `iend`. -/
def blockBody (group : Nat → Nat → Nat → Nat → DenseMatrix → Except Fault DenseMatrix)
    (fuel : Nat) (A : DenseMatrix) (B : SparseMatrix) (block : Nat)
    (s : Nat × DenseMatrix) : Except Fault (Nat × DenseMatrix) :=
  let jj := s.1
  let jend := min (jj + block) B.columns
  match rowLoop (fun i => decide (i + 4 ≤ A.rows)) 4
      (fun i j => group i 4 (i + 4) j) jj jend fuel (0, s.2) with
  | .error err => .error err
  | .ok s4 =>
    match rowLoop (fun i => decide (i + 2 ≤ A.rows)) 2
        (fun i j => group i 2 (i + 2) j) jj jend fuel s4 with
    | .error err => .error err
    | .ok s2 =>
      match rowLoop (fun i => decide (i < A.rows)) 1
          (fun i j => group i 1 i j) jj jend fuel s2 with
      | .error err => .error err
      | .ok s1 => .ok (jj + block, s1.2)

/-- The traversal of every kernel: the block loop over column blocks of
`block = IsRowMajorMatrix<MT3>::value ? B.columns() : 256UL` columns. -/
def kernelLoops (group : Nat → Nat → Nat → Nat → DenseMatrix → Except Fault DenseMatrix)
    (fuel : Nat) (C A : DenseMatrix) (B : SparseMatrix) : Except Fault DenseMatrix :=
  let block := if C.rowMajor then B.columns else 256
  match whileLoop (fun s => decide (s.1 < B.columns)) (blockBody group fuel A B block)
      fuel ((0, C) : Nat × DenseMatrix) with
  | .ok s => .ok s.2
  | .error err => .error err

/-! ## The kernels -/

/-- Default assignment kernel `selectAssignKernel` (selected when
`UseOptimizedKernel` is false). -/
def selectAssignKernelDefault (fuel : Nat) (C A : DenseMatrix) (B : SparseMatrix) :
    Except Fault DenseMatrix :=
  kernelLoops (assignGroup fuel A B) fuel C A B

/-- Optimized assignment kernel `selectAssignKernel` (selected when
`UseOptimizedKernel` is true): `reset( C )`, then the traversal with `+=`. -/
def selectAssignKernelOptimized (fuel : Nat) (C A : DenseMatrix) (B : SparseMatrix) :
    Except Fault DenseMatrix :=
  kernelLoops (optimizedGroup (fun c t => c + t) fuel A B) fuel (reset C) A B

/-- Default addition assignment kernel `selectAddAssignKernel`. -/
def selectAddAssignKernelDefault (fuel : Nat) (C A : DenseMatrix) (B : SparseMatrix) :
    Except Fault DenseMatrix :=
  kernelLoops (addAssignGroup fuel A B) fuel C A B

/-- Optimized addition assignment kernel `selectAddAssignKernel`. -/
def selectAddAssignKernelOptimized (fuel : Nat) (C A : DenseMatrix) (B : SparseMatrix) :
    Except Fault DenseMatrix :=
  kernelLoops (optimizedGroup (fun c t => c + t) fuel A B) fuel C A B

/-- Default subtraction assignment kernel `selectSubAssignKernel`. -/
def selectSubAssignKernelDefault (fuel : Nat) (C A : DenseMatrix) (B : SparseMatrix) :
    Except Fault DenseMatrix :=
  kernelLoops (subAssignGroup fuel A B) fuel C A B

/-- Optimized subtraction assignment kernel `selectSubAssignKernel`. -/
def selectSubAssignKernelOptimized (fuel : Nat) (C A : DenseMatrix) (B : SparseMatrix) :
    Except Fault DenseMatrix :=
  kernelLoops (optimizedGroup (fun c t => c - t) fuel A B) fuel C A B

/-- The cell `(i,j)` of the result of a run, `none` when the run ended in a fault. -/
def cellOf (r : Except Fault DenseMatrix) (i j : Nat) : Option Int :=
  match r with
  | .ok C => some (C.elem i j)
  | .error _ => none

/-- The reference product: cell `(i,j)` of `A * B` as the sum over all `p` of
`A(i,p) * B(p,j)`. -/
def refProduct (A : DenseMatrix) (B : SparseMatrix) (i j : Nat) : Int :=
  ∑ p in Finset.range A.columns, A.elem i p * B.get p j

/-! ## Regions of cells -/

/-- The matrix `D` arises from `C` by applying `g x y` to the cell `(x,y)` for the cells
in the region `P`, every other cell keeping its value. -/
def Acts (g : Nat → Nat → Int → Int) (P : Nat → Nat → Prop) (C D : DenseMatrix) : Prop :=
  (∀ x y, P x y → D.elem x y = g x y (C.elem x y)) ∧
  (∀ x y, ¬ P x y → D.elem x y = C.elem x y)

/-! ## The traversal visits every cell once -/

/-- The row groups the traversal visits for a left operand of `m` rows: `(i, r, iend)`
is a group of four rows starting at a multiple of four, the group of two rows after
them, or the single remainder row. -/
def IsRowGroup (m i r iend : Nat) : Prop :=
  (r = 4 ∧ iend = i + 4 ∧ i % 4 = 0 ∧ i + 4 ≤ m) ∨
  (r = 2 ∧ iend = i + 2 ∧ i = 4 * (m / 4) ∧ i + 2 ≤ m) ∨
  (r = 1 ∧ iend = i ∧ i = 2 * (m / 2) ∧ i < m)

/-- The statements `group` of a kernel run without fault on every visited row group and
column `j < n`, apply `g` to the cells of the group in column `j` and touch no other
cell. -/
def GroupSpec (group : Nat → Nat → Nat → Nat → DenseMatrix → Except Fault DenseMatrix)
    (g : Nat → Nat → Int → Int) (m n : Nat) : Prop :=
  ∀ i r iend j, IsRowGroup m i r iend → j < n → ∀ C : DenseMatrix,
    ∃ D, group i r iend j C = .ok D ∧ Acts g (fun x y => y = j ∧ i ≤ x ∧ x < i + r) C D

/-! ## Sums over cursor ranges -/

/-- The entries of column `j` under the cursors `lo, .., hi-1`. -/
def cursorRange (B : SparseMatrix) (j lo hi : Nat) : List SparseElement :=
  ((B.column j).drop lo).take (hi - lo)

/-- The sum of `A(x,index) * value` over the entries of column `j` under the cursors
`lo, .., hi-1`. -/
def rangeSum (A : DenseMatrix) (B : SparseMatrix) (j lo hi x : Nat) : Int :=
  ((cursorRange B j lo hi).map (fun e => A.elem x e.index * e.value)).sum

/-! ## The kernels, cell by cell -/

/-- The first row of the row group that contains row `x`, for a left operand of `m`
rows. -/
def rowGroupStart (m x : Nat) : Nat :=
  if x < 4 * (m / 4) then 4 * (x / 4) else if x < 2 * (m / 2) then 4 * (m / 4) else x

/-- The row at which the end cursor of the row group that contains row `x` is taken:
`i+4`, `i+2` or `i` for a group starting at row `i`. -/
def rowGroupEnd (m x : Nat) : Nat :=
  if x < 4 * (m / 4) then 4 * (x / 4) + 4 else if x < 2 * (m / 2) then 4 * (m / 4) + 2 else x

/-- The sum a kernel accumulates for cell `(x,j)`: `A(x,index) * value` over the
entries of column `j` in the cursor range of the row group that contains `x`. -/
def kernelSum (A : DenseMatrix) (B : SparseMatrix) (x j : Nat) : Int :=
  rangeSum A B j (cursorBegin A B (rowGroupStart A.rows x) j)
    (cursorEnd A B (rowGroupEnd A.rows x) j) x

/-- In every visited row group and column the initial cursor is not behind the final
cursor. -/
def CursorsOrdered (A : DenseMatrix) (B : SparseMatrix) : Prop :=
  ∀ i r iend j, IsRowGroup A.rows i r iend → j < B.columns →
    cursorBegin A B i j ≤ cursorEnd A B iend j

/-- The iteration budget covers the rows of `A`, the columns of `B` and the stored
entries of every column of `B`. -/
def EnoughFuel (fuel : Nat) (A : DenseMatrix) (B : SparseMatrix) : Prop :=
  A.rows < fuel ∧ B.columns < fuel ∧ ∀ j, j < B.columns → (B.column j).length < fuel

/-- The operand type is flagged strictly upper and strictly lower at once (no matrix
type of the library is). -/
def DenseMatrix.StrictlyUpperAndLower (A : DenseMatrix) : Prop :=
  A.traits.isUpper = true ∧ A.traits.isStrictlyUpper = true ∧
    A.traits.isLower = true ∧ A.traits.isStrictlyLower = true

/-- Every column of the sparse operand stores its entries in strictly increasing index
order and holds fewer than `2^64` of them. -/
def SparseMatrix.SortedColumns (B : SparseMatrix) : Prop :=
  ∀ j, j < B.columns →
    (B.column j).Pairwise (fun a b => a.index < b.index) ∧ (B.column j).length < sizeT

/-! ## The cursor-range sum is the reference product -/

/-- The entries of the operand agree with the triangular flags of its type: an upper
operand is zero below the diagonal, a lower one above it, and an upper (lower) operand
that is strictly so is zero on the diagonal as well. -/
def DenseMatrix.TraitsSound (A : DenseMatrix) : Prop :=
  (A.traits.isUpper = true → ∀ x p, x < A.rows → p < A.columns → p < x → A.elem x p = 0) ∧
  (A.traits.isUpper = true → A.traits.isStrictlyUpper = true →
    ∀ x, x < A.rows → x < A.columns → A.elem x x = 0) ∧
  (A.traits.isLower = true → ∀ x p, x < A.rows → p < A.columns → x < p → A.elem x p = 0) ∧
  (A.traits.isLower = true → A.traits.isStrictlyLower = true →
    ∀ x, x < A.rows → x < A.columns → A.elem x x = 0)

/-! ## The expression node and the multiplication operator -/

/-- The expression node `DMatTSMatMultExpr<MT1,MT2>`: its two operands `lhs_` and
`rhs_`. -/
structure DMatTSMatMultExpr where
  lhs_ : DenseMatrix
  rhs_ : SparseMatrix

/-- The constructor of the node: it stores the operands after
`BLAZE_INTERNAL_ASSERT( lhs.columns() == rhs.rows(), "Invalid matrix sizes" )`. -/
def DMatTSMatMultExpr.construct (lhs : DenseMatrix) (rhs : SparseMatrix) :
    Except Fault DMatTSMatMultExpr :=
  match internalAssert (decide (lhs.columns = rhs.rows)) with
  | .ok _ => .ok ⟨lhs, rhs⟩
  | .error err => .error err

/-- The multiplication operator `operator*( lhs, rhs )` of a row-major dense and a
column-major sparse matrix: `BLAZE_THROW_INVALID_ARGUMENT` when
`lhs.columns() != rhs.rows()`, otherwise the node over the two operands. -/
def operatorMul (lhs : DenseMatrix) (rhs : SparseMatrix) : Except Fault DMatTSMatMultExpr :=
  if lhs.columns ≠ rhs.rows then .error .invalidArgument
  else DMatTSMatMultExpr.construct lhs rhs

/-! ## The worked scenario -/

/-- The dense operand `[[1,2,3],[4,5,6]]` of the worked scenario. -/
def scenarioLeft : DenseMatrix :=
  { rows := 2, columns := 3,
    elem := fun i j =>
      if i = 0 then (if j = 0 then 1 else if j = 1 then 2 else if j = 2 then 3 else 0)
      else if i = 1 then (if j = 0 then 4 else if j = 1 then 5 else if j = 2 then 6 else 0)
      else 0 }

/-- The sparse operand `[[1,0],[0,2],[3,0]]` of the worked scenario: column 0 stores
`(0,1), (2,3)`, column 1 stores `(1,2)`. -/
def scenarioRight : SparseMatrix :=
  { rows := 3, columns := 2,
    column := fun j =>
      if j = 0 then [⟨0, 1⟩, ⟨2, 3⟩] else if j = 1 then [⟨1, 2⟩] else [] }

/-- A 2x2 target filled with `v`, in row-major or column-major storage order. -/
def constantTarget (v : Int) (rowMajor : Bool) : DenseMatrix :=
  { rows := 2, columns := 2, elem := fun _ _ => v, rowMajor := rowMajor }

/-- A dense operand with seven rows and three columns, `A(i,j) = i + j + 1`: one group
of four rows, one of two and a single remainder row. -/
def sevenRowLeft : DenseMatrix :=
  { rows := 7, columns := 3, elem := fun i j => (i : Int) + (j : Int) + 1 }

/-- A sparse operand with three rows and two columns whose column 1 stores no entry;
column 0 stores `(0,1), (2,3)`. -/
def emptyColumnRight : SparseMatrix :=
  { rows := 3, columns := 2, column := fun j => if j = 0 then [⟨0, 1⟩, ⟨2, 3⟩] else [] }

/-! ## Element access and queries of the expression node -/

/-- Modelled from the spec: the trait `IsTriangular<MT>`, which is not part of the
sources at hand; an operand is triangular when it is lower or upper. -/
def Traits.isTriangular (t : Traits) : Bool := t.isLower || t.isUpper

/-- The member `rows()`: `lhs_.rows()`. -/
def DMatTSMatMultExpr.rows (e : DMatTSMatMultExpr) : Nat := e.lhs_.rows

/-- The member `columns()`: `rhs_.columns()`. -/
def DMatTSMatMultExpr.columns (e : DMatTSMatMultExpr) : Nat := e.rhs_.columns

/-- Modelled from the spec: the product `row( lhs_, i ) * column( rhs_, j )` of the row
and column views, which are not part of the sources at hand; the full dot product of
row `i` of the left operand and column `j` of the right operand. -/
def rowTimesColumn (lhs : DenseMatrix) (rhs : SparseMatrix) (i j : Nat) : Int :=
  ∑ p in Finset.range lhs.columns, lhs.elem i p * rhs.get p j

/-- Modelled from the spec: the product
`subvector( row( lhs_, i ), begin, n ) * subvector( column( rhs_, j ), begin, n )` of the
subvector views, which are not part of the sources at hand; the dot product restricted
to the `n` positions from `begin` on. -/
def subvectorProduct (lhs : DenseMatrix) (rhs : SparseMatrix) (i j begin_ n : Nat) : Int :=
  ∑ q in Finset.range n, lhs.elem i (begin_ + q) * rhs.get (begin_ + q) j

/-- The local `begin` of the triangular branch of `operator()`. -/
def DMatTSMatMultExpr.accessBegin (e : DMatTSMatMultExpr) (i j : Nat) : Nat :=
  if e.lhs_.traits.isUpper then
    (if e.rhs_.traits.isLower then
      max (if e.lhs_.traits.isStrictlyUpper then i + 1 else i)
        (if e.rhs_.traits.isStrictlyLower then j + 1 else j)
    else (if e.lhs_.traits.isStrictlyUpper then i + 1 else i))
  else
    (if e.rhs_.traits.isLower then
      (if e.rhs_.traits.isStrictlyLower then j + 1 else j)
    else 0)

/-- The local `end` of the triangular branch of `operator()`. -/
def DMatTSMatMultExpr.accessEnd (e : DMatTSMatMultExpr) (i j : Nat) : Nat :=
  if e.lhs_.traits.isLower then
    (if e.rhs_.traits.isUpper then
      min (if e.lhs_.traits.isStrictlyLower then i else i + 1)
        (if e.rhs_.traits.isStrictlyUpper then j else j + 1)
    else (if e.lhs_.traits.isStrictlyLower then i else i + 1))
  else
    (if e.rhs_.traits.isUpper then
      (if e.rhs_.traits.isStrictlyUpper then j else j + 1)
    else e.lhs_.columns)

/-- The access operator `operator()( i, j )`: the two index assertions, then the
left-diagonal branch, the right-diagonal branch, the triangular branch over
`[begin, end)` (the additive identity `ElementType()` when `begin >= end`), and the full
dot product otherwise. -/
def DMatTSMatMultExpr.operatorCall (e : DMatTSMatMultExpr) (i j : Nat) : Except Fault Int :=
  match internalAssert (decide (i < e.lhs_.rows)) with
  | .error err => .error err
  | .ok _ =>
    match internalAssert (decide (j < e.rhs_.columns)) with
    | .error err => .error err
    | .ok _ =>
      if e.lhs_.traits.isDiagonal then
        .ok (e.lhs_.elem i i * e.rhs_.get i j)
      else if e.rhs_.traits.isDiagonal then
        .ok (e.lhs_.elem i j * e.rhs_.get j j)
      else if e.lhs_.traits.isTriangular || e.rhs_.traits.isTriangular then
        if e.accessBegin i j ≥ e.accessEnd i j then .ok 0
        else
          .ok (subvectorProduct e.lhs_ e.rhs_ i j (e.accessBegin i j)
            (e.accessEnd i j - e.accessBegin i j))
      else
        .ok (rowTimesColumn e.lhs_ e.rhs_ i j)

/-- The checked access `at( i, j )`: `BLAZE_THROW_OUT_OF_RANGE` when
`i >= lhs_.rows()`, then when `j >= rhs_.columns()`, otherwise `(*this)(i,j)`. -/
def DMatTSMatMultExpr.at_ (e : DMatTSMatMultExpr) (i j : Nat) : Except Fault Int :=
  if i ≥ e.lhs_.rows then .error .outOfRange
  else if j ≥ e.rhs_.columns then .error .outOfRange
  else e.operatorCall i j

/-- The member `canAlias( alias )`: `lhs_.isAliased( alias ) || rhs_.isAliased( alias )`. -/
def DMatTSMatMultExpr.canAlias (e : DMatTSMatMultExpr) (address : Nat) : Bool :=
  e.lhs_.isAliased address || e.rhs_.isAliased address

/-- The member `isAliased( alias )`: `lhs_.isAliased( alias ) || rhs_.isAliased( alias )`. -/
def DMatTSMatMultExpr.isAliased (e : DMatTSMatMultExpr) (address : Nat) : Bool :=
  e.lhs_.isAliased address || e.rhs_.isAliased address

/-- The member `isAligned()`: `lhs_.isAligned()`. -/
def DMatTSMatMultExpr.isAligned (e : DMatTSMatMultExpr) : Bool := e.lhs_.aligned

/-- The switch `evaluateLeft = IsComputation<MT1>::value || RequiresEvaluation<MT1>::value`. -/
def DMatTSMatMultExpr.evaluateLeft (e : DMatTSMatMultExpr) : Bool :=
  e.lhs_.traits.isComputation || e.lhs_.traits.requiresEvaluation

/-- The switch `evaluateRight = IsComputation<MT2>::value || RequiresEvaluation<MT2>::value`. -/
def DMatTSMatMultExpr.evaluateRight (e : DMatTSMatMultExpr) : Bool :=
  e.rhs_.traits.isComputation || e.rhs_.traits.requiresEvaluation

/-- The compilation flag
`smpAssignable = !evaluateLeft && MT1::smpAssignable && !evaluateRight && MT2::smpAssignable`. -/
def DMatTSMatMultExpr.smpAssignable (e : DMatTSMatMultExpr) : Bool :=
  !e.evaluateLeft && e.lhs_.traits.smpAssignable &&
    !e.evaluateRight && e.rhs_.traits.smpAssignable

/-- The member `canSMPAssign()`: `rows() > SMP_DMATTSMATMULT_THRESHOLD`; the threshold is
a configuration constant outside the sources at hand and a parameter here. -/
def DMatTSMatMultExpr.canSMPAssign (e : DMatTSMatMultExpr) (threshold : Nat) : Bool :=
  decide (e.rows > threshold)

/-- The helper `CanExploitSymmetry<T1,T2,T3>`: `IsSymmetric<T2>::value`. -/
def CanExploitSymmetry (_t1 t2 _t3 : Traits) : Bool := t2.isSymmetric

/-- The condition `CanExploitSymmetry<MT,MT1,MT2>` under which the overloads of
`assign`, `addAssign` and `subAssign` are enabled or disabled: `MT` is the type of the
target, `MT1` that of the left operand and `MT2` that of the right operand. -/
def DMatTSMatMultExpr.canExploitSymmetry (e : DMatTSMatMultExpr) (target : Traits) : Bool :=
  CanExploitSymmetry target e.lhs_.traits e.rhs_.traits

/-- The two ways an assignment of the node to a dense target is carried out: the
restructuring overload, which assigns `trans( rhs.lhs_ ) * rhs.rhs_`, or the overload
that evaluates the operands and runs a kernel. -/
inductive AssignPath where
  | restructuring
  | kernel
  deriving DecidableEq, Repr

/-- The overload of `assign` (likewise of `addAssign` and `subAssign`) that overload
resolution selects for a dense target: the restructuring one is declared with
`EnableIf_< CanExploitSymmetry<MT,MT1,MT2> >`, the kernel one with
`DisableIf_< CanExploitSymmetry<MT,MT1,MT2> >`. -/
def DMatTSMatMultExpr.assignPath (e : DMatTSMatMultExpr) (target : Traits) : AssignPath :=
  if e.canExploitSymmetry target then .restructuring else .kernel

/-- Modelled from the spec: the transpose `trans( A )` of a dense matrix, which is not
part of the sources at hand; the shape is swapped, `trans(A)(i,j) = A(j,i)`, the storage
order is the opposite one and a lower operand becomes an upper one and conversely. -/
def trans (A : DenseMatrix) : DenseMatrix :=
  { rows := A.columns
    columns := A.rows
    elem := fun i j => A.elem j i
    rowMajor := !A.rowMajor
    aligned := A.aligned
    isAliased := A.isAliased
    traits :=
      { A.traits with
        isUpper := A.traits.isLower
        isUniUpper := A.traits.isUniLower
        isStrictlyUpper := A.traits.isStrictlyLower
        isLower := A.traits.isUpper
        isUniLower := A.traits.isUniUpper
        isStrictlyLower := A.traits.isStrictlyUpper } }

/-- Modelled from the spec: cell `(i,j)` of the product `trans( rhs.lhs_ ) * rhs.rhs_`
that the restructuring overloads assign; the product of a column-major dense and a
column-major sparse matrix is another expression class, not part of the sources at
hand, and its value is the reference product of its operands. -/
def restructuredProduct (e : DMatTSMatMultExpr) (i j : Nat) : Int :=
  refProduct (trans e.lhs_) e.rhs_ i j

/-- The entries of the sparse operand agree with the triangular flags of its type: a
lower operand is zero above the diagonal, an upper one below it, and a lower (upper)
operand that is strictly so is zero on the diagonal as well. -/
def SparseMatrix.TraitsSound (B : SparseMatrix) : Prop :=
  (B.traits.isLower = true → ∀ p j, p < B.rows → j < B.columns → p < j → B.get p j = 0) ∧
  (B.traits.isLower = true → B.traits.isStrictlyLower = true →
    ∀ j, j < B.rows → j < B.columns → B.get j j = 0) ∧
  (B.traits.isUpper = true → ∀ p j, p < B.rows → j < B.columns → j < p → B.get p j = 0) ∧
  (B.traits.isUpper = true → B.traits.isStrictlyUpper = true →
    ∀ j, j < B.rows → j < B.columns → B.get j j = 0)

/-- The dense matrix is square and all its off-diagonal entries are zero. -/
def DenseMatrix.IsDiagonalMatrix (A : DenseMatrix) : Prop :=
  A.rows = A.columns ∧ ∀ x p, x < A.rows → p < A.columns → x ≠ p → A.elem x p = 0

/-- The sparse matrix is square and all its off-diagonal entries are zero. -/
def SparseMatrix.IsDiagonalMatrix (B : SparseMatrix) : Prop :=
  B.rows = B.columns ∧ ∀ p j, p < B.rows → j < B.columns → p ≠ j → B.get p j = 0

/-- A diagonal 2x2 dense operand `[[2,0],[0,3]]`, flagged diagonal. -/
def diagonalLeft : DenseMatrix :=
  { rows := 2, columns := 2,
    elem := fun i j => if i = 0 ∧ j = 0 then 2 else if i = 1 ∧ j = 1 then 3 else 0,
    traits := { isDiagonal := true, isUpper := true, isLower := true } }

/-- A general 2x2 sparse operand `[[1,2],[3,4]]`. -/
def generalRight : SparseMatrix :=
  { rows := 2, columns := 2,
    column := fun j =>
      if j = 0 then [⟨0, 1⟩, ⟨1, 3⟩] else if j = 1 then [⟨0, 2⟩, ⟨1, 4⟩] else [] }

/-- A general 2x2 dense operand `[[1,2],[3,4]]`. -/
def generalLeft : DenseMatrix :=
  { rows := 2, columns := 2,
    elem := fun i j =>
      if i = 0 then (if j = 0 then 1 else if j = 1 then 2 else 0)
      else if i = 1 then (if j = 0 then 3 else if j = 1 then 4 else 0)
      else 0 }

/-- A diagonal 2x2 sparse operand `[[5,0],[0,7]]`, flagged diagonal. -/
def diagonalRight : SparseMatrix :=
  { rows := 2, columns := 2,
    column := fun j => if j = 0 then [⟨0, 5⟩] else if j = 1 then [⟨1, 7⟩] else [],
    traits := { isDiagonal := true, isUpper := true, isLower := true } }

/-- An upper triangular 2x2 dense operand `[[1,2],[0,3]]`, flagged upper. -/
def upperLeft : DenseMatrix :=
  { rows := 2, columns := 2,
    elem := fun i j =>
      if i = 0 then (if j = 0 then 1 else if j = 1 then 2 else 0)
      else if i = 1 then (if j = 1 then 3 else 0)
      else 0,
    traits := { isUpper := true } }

/-- A lower triangular 2x2 sparse operand `[[1,0],[4,5]]`, flagged lower. -/
def lowerRight : SparseMatrix :=
  { rows := 2, columns := 2,
    column := fun j => if j = 0 then [⟨0, 1⟩, ⟨1, 4⟩] else if j = 1 then [⟨1, 5⟩] else [],
    traits := { isLower := true } }

/-- The dense matrix is square and equal to its transpose. -/
def DenseMatrix.IsSymmetricMatrix (A : DenseMatrix) : Prop :=
  A.rows = A.columns ∧ ∀ x p, x < A.rows → p < A.columns → A.elem x p = A.elem p x

/-- The sparse matrix is square and equal to its transpose. -/
def SparseMatrix.IsSymmetricMatrix (B : SparseMatrix) : Prop :=
  B.rows = B.columns ∧ ∀ p j, p < B.rows → j < B.columns → B.get p j = B.get j p

/-- The scenario's left operand seen as a pending computation that is not
SMP-assignable, multiplied with the scenario's right operand. -/
def computationLeftNode : DMatTSMatMultExpr :=
  ⟨{ scenarioLeft with traits := { isComputation := true, smpAssignable := false } },
    scenarioRight⟩

/-- The 2x2 sparse identity matrix, flagged symmetric. -/
def identityRight : SparseMatrix :=
  { rows := 2, columns := 2,
    column := fun j => if j = 0 then [⟨0, 1⟩] else if j = 1 then [⟨1, 1⟩] else [],
    traits := { isSymmetric := true } }

/-- The 2x2 dense matrix `[[0,1],[0,0]]`, which is not symmetric. -/
def shiftLeft : DenseMatrix :=
  { rows := 2, columns := 2, elem := fun i j => if i = 0 ∧ j = 1 then 1 else 0 }

/-- The symmetric 2x2 dense matrix `[[1,2],[2,1]]`, flagged symmetric. -/
def symmetricLeft : DenseMatrix :=
  { rows := 2, columns := 2,
    elem := fun i j =>
      if i = 0 then (if j = 0 then 1 else if j = 1 then 2 else 0)
      else if i = 1 then (if j = 0 then 2 else if j = 1 then 1 else 0)
      else 0,
    traits := { isSymmetric := true } }

/-! ## Selection of overloads and kernels -/

/-- The three assignment operations the node specializes for a dense target: `assign`,
`addAssign` and `subAssign` (for the SMP overloads: `smpAssign`, `smpAddAssign` and
`smpSubAssign`). -/
inductive AssignOp where
  | assign
  | addAssign
  | subAssign
  deriving DecidableEq, Repr

/-- Whether the restructuring overload of the operation is enabled for a target of type
`MT`: each of the three is declared with `EnableIf_< CanExploitSymmetry<MT,MT1,MT2> >`. -/
def DMatTSMatMultExpr.restructuringOverloadEnabled (e : DMatTSMatMultExpr) (op : AssignOp)
    (target : Traits) : Bool :=
  match op with
  | .assign => CanExploitSymmetry target e.lhs_.traits e.rhs_.traits
  | .addAssign => CanExploitSymmetry target e.lhs_.traits e.rhs_.traits
  | .subAssign => CanExploitSymmetry target e.lhs_.traits e.rhs_.traits

/-- Whether the overload of the operation that evaluates the operands and runs a kernel
is enabled for a dense target of type `MT`: each of the three is declared with
`DisableIf_< CanExploitSymmetry<MT,MT1,MT2> >`. -/
def DMatTSMatMultExpr.kernelOverloadEnabled (e : DMatTSMatMultExpr) (op : AssignOp)
    (target : Traits) : Bool :=
  match op with
  | .assign => !CanExploitSymmetry target e.lhs_.traits e.rhs_.traits
  | .addAssign => !CanExploitSymmetry target e.lhs_.traits e.rhs_.traits
  | .subAssign => !CanExploitSymmetry target e.lhs_.traits e.rhs_.traits

/-- The helper `UseOptimizedKernel<T1,T2,T3>`, which the kernels instantiate as
`UseOptimizedKernel<MT3,MT4,MT5>` with `MT3` the type of the target `C`, `MT4` that of
the left operand `A` and `MT5` that of the right operand `B`:
`useOptimizedKernels && !IsDiagonal<T2>::value && !IsResizable< ElementType_<T1> >::value
&& !IsResizable<ET2>::value`, `ET2` being the element type of the right operand. The
global switch `useOptimizedKernels` is a configuration constant outside the sources at
hand and a parameter here. -/
def UseOptimizedKernel (useOptimizedKernels : Bool) (C A : DenseMatrix) (B : SparseMatrix) :
    Bool :=
  useOptimizedKernels && !A.traits.isDiagonal && !C.traits.isResizableElement &&
    !B.traits.isResizableElement

/-- The call `selectAssignKernel( C, A, B )`: the optimized kernel is enabled by
`EnableIf_< UseOptimizedKernel<MT3,MT4,MT5> >`, the default one by `DisableIf_` of it. -/
def selectAssignKernel (useOptimizedKernels : Bool) (fuel : Nat) (C A : DenseMatrix)
    (B : SparseMatrix) : Except Fault DenseMatrix :=
  if UseOptimizedKernel useOptimizedKernels C A B then selectAssignKernelOptimized fuel C A B
  else selectAssignKernelDefault fuel C A B

/-- The call `selectAddAssignKernel( C, A, B )`, selected as `selectAssignKernel`. -/
def selectAddAssignKernel (useOptimizedKernels : Bool) (fuel : Nat) (C A : DenseMatrix)
    (B : SparseMatrix) : Except Fault DenseMatrix :=
  if UseOptimizedKernel useOptimizedKernels C A B then
    selectAddAssignKernelOptimized fuel C A B
  else selectAddAssignKernelDefault fuel C A B

/-- The call `selectSubAssignKernel( C, A, B )`, selected as `selectAssignKernel`. -/
def selectSubAssignKernel (useOptimizedKernels : Bool) (fuel : Nat) (C A : DenseMatrix)
    (B : SparseMatrix) : Except Fault DenseMatrix :=
  if UseOptimizedKernel useOptimizedKernels C A B then
    selectSubAssignKernelOptimized fuel C A B
  else selectSubAssignKernelDefault fuel C A B

/-- The two types an operand can have inside an assignment: the result type `RT1` /
`RT2`, an owned temporary the operand is evaluated into, or the composite type `CT1` /
`CT2`, through which the operand is read in place. -/
inductive OperandStorage where
  | resultType
  | compositeType
  deriving DecidableEq, Repr

/-- The type `LT = IfTrue_< evaluateLeft, const RT1, CT1 >` of the left operand inside
an assignment. -/
def DMatTSMatMultExpr.LT (e : DMatTSMatMultExpr) : OperandStorage :=
  if e.evaluateLeft then .resultType else .compositeType

/-- The type `RT = IfTrue_< evaluateRight, const RT2, CT2 >` of the right operand inside
an assignment. -/
def DMatTSMatMultExpr.RT (e : DMatTSMatMultExpr) : OperandStorage :=
  if e.evaluateRight then .resultType else .compositeType

/-- The helper `IsEvaluationRequired<T1,T2,T3>`, instantiated as
`IsEvaluationRequired<MT,MT1,MT2>`:
`( evaluateLeft || evaluateRight ) && !CanExploitSymmetry<T1,T2,T3>::value`. -/
def DMatTSMatMultExpr.isEvaluationRequired (e : DMatTSMatMultExpr) (target : Traits) : Bool :=
  (e.evaluateLeft || e.evaluateRight) &&
    !CanExploitSymmetry target e.lhs_.traits e.rhs_.traits

/-- Whether the SMP overload of the operation that first evaluates the operands
(`smpAssign`, `smpAddAssign`, `smpSubAssign` to a dense target) is enabled: each is
declared with `EnableIf_< IsEvaluationRequired<MT,MT1,MT2> >`. -/
def DMatTSMatMultExpr.smpEvaluatingOverloadEnabled (e : DMatTSMatMultExpr) (op : AssignOp)
    (target : Traits) : Bool :=
  match op with
  | .assign => e.isEvaluationRequired target
  | .addAssign => e.isEvaluationRequired target
  | .subAssign => e.isEvaluationRequired target

/-- Whether the restructuring SMP overload of the operation is enabled: each is declared
with `EnableIf_< CanExploitSymmetry<MT,MT1,MT2> >`. -/
def DMatTSMatMultExpr.smpRestructuringOverloadEnabled (e : DMatTSMatMultExpr)
    (op : AssignOp) (target : Traits) : Bool :=
  match op with
  | .assign => CanExploitSymmetry target e.lhs_.traits e.rhs_.traits
  | .addAssign => CanExploitSymmetry target e.lhs_.traits e.rhs_.traits
  | .subAssign => CanExploitSymmetry target e.lhs_.traits e.rhs_.traits

/-- The specification's view of the optimized overwrite kernel's first step: the whole
target is reset to the additive identity. -/
def zeroTarget (C : DenseMatrix) : DenseMatrix :=
  { C with elem := fun _ _ => 0 }

/-- The specification's view of the optimized overwrite kernel: the optimized addition
kernel run on the target reset to the additive identity. -/
def resetThenAddAssignOptimized (fuel : Nat) (C A : DenseMatrix) (B : SparseMatrix) :
    Except Fault DenseMatrix :=
  selectAddAssignKernelOptimized fuel (zeroTarget C) A B

/-- A lower triangular 6x6 dense operand, flagged lower: `A(i,j) = i + j + 1` on and
below the diagonal and zero above it; one group of four rows and one of two. -/
def lowerSix : DenseMatrix :=
  { rows := 6, columns := 6,
    elem := fun i j => if j ≤ i then (i : Int) + (j : Int) + 1 else 0,
    traits := { isLower := true } }

/-- A sparse operand with six rows and two columns; column 0 stores the rows 0, 2 and
5, column 1 the rows 1 and 4. -/
def sixRight : SparseMatrix :=
  { rows := 6, columns := 2,
    column := fun j =>
      if j = 0 then [⟨0, 1⟩, ⟨2, 2⟩, ⟨5, 3⟩] else if j = 1 then [⟨1, 1⟩, ⟨4, -1⟩] else [] }

/-! ## The loop counters of the traversal -/

/-- The counter values of a loop `for( ; cond k; k+=step )` whose condition and
increment depend on the counter alone: the loop with its body reduced to recording the
counter. The result is the final counter and the recorded values in order. -/
def traceLoop (cond : Nat → Bool) (step fuel k : Nat) : Except Fault (Nat × List Nat) :=
  whileLoop (fun s : Nat × List Nat => cond s.1)
    (fun s => .ok (s.1 + step, s.2 ++ [s.1])) fuel (k, [])

/-- The column ranges `[jj, jend)` of the block loop
`for( size_t jj=0UL; jj<B.columns(); jj+=block )` with
`block = IsRowMajorMatrix<MT3>::value ? B.columns() : 256UL` and
`jend = min( jj+block, B.columns() )`, in the order they are visited. -/
def blockRanges (fuel : Nat) (rowMajor : Bool) (columns : Nat) :
    Except Fault (List (Nat × Nat)) :=
  let block := if rowMajor then columns else 256
  match traceLoop (fun jj => decide (jj < columns)) block fuel 0 with
  | .ok s => .ok (s.2.map (fun jj => (jj, min (jj + block) columns)))
  | .error err => .error err

/-- The row groups `(i, r, iend)` of the three row loops `for( ; (i+4UL) <= A.rows();
i+=4UL )`, `for( ; (i+2UL) <= A.rows(); i+=2UL )` and `for( ; i<A.rows(); ++i )`, which
share the counter `i`, in the order they are visited: `r` is the number of rows of the
group and `iend` the row the end cursor is taken at (`i+4UL`, `i+2UL` and `i`). -/
def rowGroups (fuel rows : Nat) : Except Fault (List (Nat × Nat × Nat)) :=
  match traceLoop (fun i => decide (i + 4 ≤ rows)) 4 fuel 0 with
  | .error err => .error err
  | .ok s4 =>
    match traceLoop (fun i => decide (i + 2 ≤ rows)) 2 fuel s4.1 with
    | .error err => .error err
    | .ok s2 =>
      match traceLoop (fun i => decide (i < rows)) 1 fuel s2.1 with
      | .error err => .error err
      | .ok s1 =>
        .ok (s4.2.map (fun i => (i, 4, i + 4)) ++ s2.2.map (fun i => (i, 2, i + 2)) ++
          s1.2.map (fun i => (i, 1, i)))

/-- Statements of a row group that only count the visit: every cell of the rows
`i, .., i+r-1` in column `j` is incremented by one. -/
def visitGroup (i r _iend j : Nat) (C : DenseMatrix) : Except Fault DenseMatrix :=
  .ok (updateRows (fun _ c => c + 1) i r j C)

/-- A sparse operand with 600 columns and no stored entry. -/
def wideRight : SparseMatrix :=
  { rows := 3, columns := 600, column := fun _ => [] }

/-! ## Structural flags of the expression node -/

/-- The specialization `IsLower< DMatTSMatMultExpr<MT1,MT2> >`:
`IsLower<MT1>::value && IsLower<MT2>::value`. -/
def DMatTSMatMultExpr.isLower (e : DMatTSMatMultExpr) : Bool :=
  e.lhs_.traits.isLower && e.rhs_.traits.isLower

/-- The specialization `IsUniLower< DMatTSMatMultExpr<MT1,MT2> >`:
`IsUniLower<MT1>::value && IsUniLower<MT2>::value`. -/
def DMatTSMatMultExpr.isUniLower (e : DMatTSMatMultExpr) : Bool :=
  e.lhs_.traits.isUniLower && e.rhs_.traits.isUniLower

/-- The specialization `IsStrictlyUpper< DMatTSMatMultExpr<MT1,MT2> >`:
`Or< And< IsStrictlyUpper<MT1>, IsUpper<MT2> >, And< IsStrictlyUpper<MT2>, IsUpper<MT1> > >`. -/
def DMatTSMatMultExpr.isStrictlyUpper (e : DMatTSMatMultExpr) : Bool :=
  (e.lhs_.traits.isStrictlyUpper && e.rhs_.traits.isUpper) ||
    (e.rhs_.traits.isStrictlyUpper && e.lhs_.traits.isUpper)

/-- The dense matrix is square and zero above the diagonal. -/
def DenseMatrix.IsLowerMatrix (A : DenseMatrix) : Prop :=
  A.rows = A.columns ∧ ∀ x p, x < A.rows → p < A.columns → x < p → A.elem x p = 0

/-- The sparse matrix is square and zero above the diagonal. -/
def SparseMatrix.IsLowerMatrix (B : SparseMatrix) : Prop :=
  B.rows = B.columns ∧ ∀ p j, p < B.rows → j < B.columns → p < j → B.get p j = 0

/-- The dense matrix is square and zero below the diagonal. -/
def DenseMatrix.IsUpperMatrix (A : DenseMatrix) : Prop :=
  A.rows = A.columns ∧ ∀ x p, x < A.rows → p < A.columns → p < x → A.elem x p = 0

/-- The sparse matrix is square and zero below the diagonal. -/
def SparseMatrix.IsUpperMatrix (B : SparseMatrix) : Prop :=
  B.rows = B.columns ∧ ∀ p j, p < B.rows → j < B.columns → j < p → B.get p j = 0

/-- The dense matrix is upper triangular with a zero diagonal. -/
def DenseMatrix.IsStrictlyUpperMatrix (A : DenseMatrix) : Prop :=
  A.IsUpperMatrix ∧ ∀ x, x < A.rows → A.elem x x = 0

/-- The sparse matrix is upper triangular with a zero diagonal. -/
def SparseMatrix.IsStrictlyUpperMatrix (B : SparseMatrix) : Prop :=
  B.IsUpperMatrix ∧ ∀ j, j < B.columns → B.get j j = 0

/-- The dense matrix is lower triangular with every diagonal entry equal to one. -/
def DenseMatrix.IsUniLowerMatrix (A : DenseMatrix) : Prop :=
  A.IsLowerMatrix ∧ ∀ x, x < A.rows → A.elem x x = 1

/-- The sparse matrix is lower triangular with every diagonal entry equal to one. -/
def SparseMatrix.IsUniLowerMatrix (B : SparseMatrix) : Prop :=
  B.IsLowerMatrix ∧ ∀ j, j < B.columns → B.get j j = 1

/-- A lower triangular 2x2 dense operand `[[1,0],[2,3]]`, flagged lower. -/
def lowerLeft : DenseMatrix :=
  { rows := 2, columns := 2,
    elem := fun i j =>
      if i = 0 then (if j = 0 then 1 else 0)
      else if i = 1 then (if j = 0 then 2 else if j = 1 then 3 else 0)
      else 0,
    traits := { isLower := true } }

/-- A dense operand with three rows and two columns, `[[1,0],[2,3],[4,5]]`, flagged
lower although it is not square. -/
def tallLowerLeft : DenseMatrix :=
  { rows := 3, columns := 2,
    elem := fun i j =>
      if i = 0 then (if j = 0 then 1 else 0)
      else if i = 1 then (if j = 0 then 2 else if j = 1 then 3 else 0)
      else if i = 2 then (if j = 0 then 4 else if j = 1 then 5 else 0)
      else 0,
    traits := { isLower := true } }

/-- A strictly upper triangular 2x2 sparse operand `[[0,7],[0,0]]`, flagged upper and
strictly upper. -/
def strictlyUpperRight : SparseMatrix :=
  { rows := 2, columns := 2,
    column := fun j => if j = 1 then [⟨0, 7⟩] else [],
    traits := { isUpper := true, isStrictlyUpper := true } }

/-- A lower triangular 2x2 dense operand with unit diagonal `[[1,0],[2,1]]`, flagged
lower and uni-lower. -/
def uniLowerLeft : DenseMatrix :=
  { rows := 2, columns := 2,
    elem := fun i j =>
      if i = 0 then (if j = 0 then 1 else 0)
      else if i = 1 then (if j = 0 then 2 else if j = 1 then 1 else 0)
      else 0,
    traits := { isLower := true, isUniLower := true } }

/-- A lower triangular 2x2 sparse operand with unit diagonal `[[1,0],[3,1]]`, flagged
lower and uni-lower. -/
def uniLowerRight : SparseMatrix :=
  { rows := 2, columns := 2,
    column := fun j => if j = 0 then [⟨0, 1⟩, ⟨1, 3⟩] else if j = 1 then [⟨1, 1⟩] else [],
    traits := { isLower := true, isUniLower := true } }

/-! ## Termination and the assertions of the optimized kernels -/

/-- The local `nonzeros( end - element )` of the optimized kernels for the row group
starting at row `i` whose end cursor is taken at row `iend`, in column `j`: the
difference of the two cursors as a `size_t` value. -/
def cursorNonzeros (A : DenseMatrix) (B : SparseMatrix) (i iend j : Nat) : Nat :=
  (cursorEnd A B iend j + sizeT - cursorBegin A B i j) % sizeT

/-- The local `kpos( nonzeros & size_t(-4) )` of the optimized kernels. -/
def cursorKpos (A : DenseMatrix) (B : SparseMatrix) (i iend j : Nat) : Nat :=
  cursorNonzeros A B i iend j &&& (sizeT - 4)

/-- A sparse operand with six rows and one column that stores all six rows. -/
def fullColumnRight : SparseMatrix :=
  { rows := 6, columns := 1,
    column := fun j =>
      if j = 0 then [⟨0, 1⟩, ⟨1, 2⟩, ⟨2, 3⟩, ⟨3, 4⟩, ⟨4, 5⟩, ⟨5, 6⟩] else [] }

/-! ## Lemmas: the loop rule -/

/-- Total correctness of a loop: an invariant `I` that every iteration preserves while
decreasing the measure `μ` holds at exit, where the condition is false, provided the
fuel exceeds the initial measure. -/
theorem whileLoop_spec {σ : Type} (cond : σ → Bool) (body : σ → Except Fault σ)
    (I : σ → Prop) (μ : σ → Nat)
    (hstep : ∀ s, I s → cond s = true → ∃ s', body s = .ok s' ∧ I s' ∧ μ s' < μ s) :
    ∀ (fuel : Nat) (s : σ), I s → μ s < fuel →
      ∃ s', whileLoop cond body fuel s = .ok s' ∧ I s' ∧ cond s' = false := by
  intro fuel
  induction fuel with
  | zero => intro s _ h; omega
  | succ fuel ih =>
    intro s hI hμ
    unfold whileLoop
    by_cases hc : cond s = true
    · obtain ⟨s', hb, hI', hlt⟩ := hstep s hI hc
      simp only [hc, hb, if_true]
      exact ih s' hI' (by omega)
    · simp only [hc]
      exact ⟨s, rfl, hI, by simpa using hc⟩

theorem Acts.empty {g : Nat → Nat → Int → Int} {P : Nat → Nat → Prop} (C : DenseMatrix)
    (h : ∀ x y, ¬ P x y) : Acts g P C C :=
  ⟨fun x y hP => absurd hP (h x y), fun _ _ _ => rfl⟩

theorem Acts.comp {g : Nat → Nat → Int → Int} {P Q R : Nat → Nat → Prop}
    {C D E : DenseMatrix} (h1 : Acts g P C D) (h2 : Acts g Q D E)
    (hdisj : ∀ x y, P x y → ¬ Q x y) (hR : ∀ x y, R x y ↔ P x y ∨ Q x y) :
    Acts g R C E := by
  constructor
  · intro x y hxy
    rcases (hR x y).1 hxy with hP | hQ
    · rw [h2.2 x y (hdisj x y hP), h1.1 x y hP]
    · have hnP : ¬ P x y := fun hP => hdisj x y hP hQ
      rw [h2.1 x y hQ, h1.2 x y hnP]
  · intro x y hxy
    have hnP : ¬ P x y := fun hP => hxy ((hR x y).2 (Or.inl hP))
    have hnQ : ¬ Q x y := fun hQ => hxy ((hR x y).2 (Or.inr hQ))
    rw [h2.2 x y hnQ, h1.2 x y hnP]

theorem Acts.region {g : Nat → Nat → Int → Int} {P R : Nat → Nat → Prop}
    {C D : DenseMatrix} (h : Acts g P C D) (hR : ∀ x y, R x y ↔ P x y) : Acts g R C D :=
  ⟨fun x y hxy => h.1 x y ((hR x y).1 hxy), fun x y hxy => h.2 x y (fun hP => hxy ((hR x y).2 hP))⟩

/-- The cells of a row group after its statements. -/
theorem updateRows_elem (f : Nat → Int → Int) (r : Nat) :
    ∀ (i j : Nat) (C : DenseMatrix) (x y : Nat),
      (updateRows f i r j C).elem x y =
        if y = j ∧ i ≤ x ∧ x < i + r then f x (C.elem x y) else C.elem x y := by
  induction r with
  | zero =>
    intro i j C x y
    have h0 : ¬ (y = j ∧ i ≤ x ∧ x < i + 0) := by omega
    rw [if_neg h0]
    simp [updateRows]
  | succ r ih =>
    intro i j C x y
    have hfold : updateRows f i (r + 1) j C =
        updateRows f (i + 1) r j (C.set i j (f i (C.elem i j))) := by
      simp [updateRows, List.range'_succ]
    rw [hfold, ih]
    by_cases hy : y = j
    · by_cases hx : x = i
      · subst hx; subst hy
        have h1 : ¬ (y = y ∧ x + 1 ≤ x ∧ x < x + 1 + r) := by omega
        have h2 : (y = y ∧ x ≤ x ∧ x < x + (r + 1)) := by omega
        simp [h1, h2, DenseMatrix.set]
      · have hset : (C.set i j (f i (C.elem i j))).elem x y = C.elem x y := by
          simp [DenseMatrix.set, hx]
        rw [hset]
        have : (y = j ∧ i + 1 ≤ x ∧ x < i + 1 + r) ↔ (y = j ∧ i ≤ x ∧ x < i + (r + 1)) := by
          omega
        simp only [this]
    · have hset : (C.set i j (f i (C.elem i j))).elem x y = C.elem x y := by
        simp [DenseMatrix.set, hy]
      rw [hset]
      have h1 : ¬ (y = j ∧ i + 1 ≤ x ∧ x < i + 1 + r) := fun h => hy h.1
      have h2 : ¬ (y = j ∧ i ≤ x ∧ x < i + (r + 1)) := fun h => hy h.1
      simp [h1, h2]

theorem columnLoop_spec (group : Nat → DenseMatrix → Except Fault DenseMatrix)
    (g : Nat → Nat → Int → Int) (R : Nat → Prop) (jj jend fuel : Nat)
    (hg : ∀ j, jj ≤ j → j < jend → ∀ C : DenseMatrix,
      ∃ D, group j C = .ok D ∧ Acts g (fun x y => y = j ∧ R x) C D)
    (hle : jj ≤ jend) (hfuel : jend - jj < fuel) (C : DenseMatrix) :
    ∃ D, columnLoop group jj jend fuel C = .ok D ∧
      Acts g (fun x y => R x ∧ jj ≤ y ∧ y < jend) C D := by
  obtain ⟨s', hrun, hI, hc⟩ := whileLoop_spec
    (fun s : Nat × DenseMatrix => decide (s.1 < jend))
    (fun s => match group s.1 s.2 with
      | .ok D => .ok (s.1 + 1, D)
      | .error err => .error err)
    (fun s => jj ≤ s.1 ∧ s.1 ≤ jend ∧ Acts g (fun x y => R x ∧ jj ≤ y ∧ y < s.1) C s.2)
    (fun s => jend - s.1)
    (by
      rintro ⟨j, D⟩ ⟨h1, h2, h3⟩ hc
      have hj : j < jend := by simpa using hc
      obtain ⟨E, hE, hact⟩ := hg j h1 hj D
      refine ⟨(j + 1, E), by simp only [hE], ⟨by omega, by omega, ?_⟩, by show jend - (j + 1) < jend - j; omega⟩
      refine Acts.comp h3 hact ?_ ?_
      · intro x y hP hQ
        have := hP.2.2
        have := hQ.1
        omega
      · intro x y
        show (R x ∧ jj ≤ y ∧ y < j + 1) ↔ (R x ∧ jj ≤ y ∧ y < j) ∨ (y = j ∧ R x)
        constructor
        · rintro ⟨hR, ha, hb⟩
          by_cases hy : y = j
          · exact Or.inr ⟨hy, hR⟩
          · exact Or.inl ⟨hR, ha, by omega⟩
        · rintro (⟨hR, ha, hb⟩ | ⟨hy, hR⟩)
          · exact ⟨hR, ha, by omega⟩
          · exact ⟨hR, by omega, by omega⟩)
    fuel (jj, C)
    ⟨Nat.le_refl _, hle, Acts.empty C (by intro x y h; have := h.2; omega)⟩
    hfuel
  refine ⟨s'.2, ?_, ?_⟩
  · unfold columnLoop
    rw [hrun]
  · have hj : ¬ s'.1 < jend := by simpa using hc
    have heq : s'.1 = jend := by have := hI.2.1; omega
    have := hI.2.2
    rw [heq] at this
    exact this

theorem rowLoop_spec (cond : Nat → Bool) (r : Nat)
    (group : Nat → Nat → DenseMatrix → Except Fault DenseMatrix)
    (g : Nat → Nat → Int → Int) (J : Nat → Prop) (m jj jend fuel : Nat) (hr : 0 < r)
    (hstep : ∀ i, J i → cond i = true → i + r ≤ m ∧ J (i + r) ∧
      ∀ j, jj ≤ j → j < jend → ∀ C : DenseMatrix,
        ∃ D, group i j C = .ok D ∧ Acts g (fun x y => y = j ∧ i ≤ x ∧ x < i + r) C D)
    (hle : jj ≤ jend) (hfuelc : jend - jj < fuel) (hfuelr : m < fuel)
    (C : DenseMatrix) (i0 : Nat) (D0 : DenseMatrix) (hJ : J i0) (hi0 : i0 ≤ m)
    (h0 : Acts g (fun x y => x < i0 ∧ jj ≤ y ∧ y < jend) C D0) :
    ∃ i1 D1, rowLoop cond r group jj jend fuel (i0, D0) = .ok (i1, D1) ∧ J i1 ∧ i1 ≤ m ∧
      cond i1 = false ∧ Acts g (fun x y => x < i1 ∧ jj ≤ y ∧ y < jend) C D1 := by
  obtain ⟨s', hrun, hI, hc⟩ := whileLoop_spec
    (fun t : Nat × DenseMatrix => cond t.1)
    (fun t => match columnLoop (group t.1) jj jend fuel t.2 with
      | .ok D => .ok (t.1 + r, D)
      | .error err => .error err)
    (fun t => J t.1 ∧ t.1 ≤ m ∧ Acts g (fun x y => x < t.1 ∧ jj ≤ y ∧ y < jend) C t.2)
    (fun t => m - t.1)
    (by
      rintro ⟨i, D⟩ ⟨h1, h2, h3⟩ hc
      obtain ⟨hle', hJ', hgrp⟩ := hstep i h1 hc
      obtain ⟨E, hE, hact⟩ := columnLoop_spec (group i) g (fun x => i ≤ x ∧ x < i + r)
        jj jend fuel hgrp hle hfuelc D
      refine ⟨(i + r, E), by simp only [hE], ⟨hJ', hle', ?_⟩, by show m - (i + r) < m - i; omega⟩
      refine Acts.comp h3 hact ?_ ?_
      · intro x y hP hQ
        have := hP.1
        have := hQ.1.1
        omega
      · intro x y
        show (x < i + r ∧ jj ≤ y ∧ y < jend) ↔
          (x < i ∧ jj ≤ y ∧ y < jend) ∨ ((i ≤ x ∧ x < i + r) ∧ jj ≤ y ∧ y < jend)
        constructor
        · rintro ⟨hx, ha, hb⟩
          by_cases hxi : x < i
          · exact Or.inl ⟨hxi, ha, hb⟩
          · exact Or.inr ⟨⟨by omega, hx⟩, ha, hb⟩
        · rintro (⟨hx, ha, hb⟩ | ⟨⟨_, hx⟩, ha, hb⟩)
          · exact ⟨by omega, ha, hb⟩
          · exact ⟨hx, ha, hb⟩)
    fuel (i0, D0) ⟨hJ, hi0, h0⟩ (by show m - i0 < fuel; omega)
  exact ⟨s'.1, s'.2, hrun, hI.1, hI.2.1, hc, hI.2.2⟩

theorem blockBody_spec
    (group : Nat → Nat → Nat → Nat → DenseMatrix → Except Fault DenseMatrix)
    (g : Nat → Nat → Int → Int) (fuel : Nat) (A : DenseMatrix) (B : SparseMatrix)
    (block jj : Nat) (D : DenseMatrix)
    (hg : GroupSpec group g A.rows B.columns) (hm : A.rows < fuel) (hn : B.columns < fuel)
    (hjj : jj < B.columns) :
    ∃ E, blockBody group fuel A B block (jj, D) = .ok (jj + block, E) ∧
      Acts g (fun x y => x < A.rows ∧ jj ≤ y ∧ y < min (jj + block) B.columns) D E := by
  have hle : jj ≤ min (jj + block) B.columns := by
    rw [Nat.le_min]; exact ⟨Nat.le_add_right _ _, Nat.le_of_lt hjj⟩
  have hjend : min (jj + block) B.columns ≤ B.columns := Nat.min_le_right _ _
  have hfc : min (jj + block) B.columns - jj < fuel := by omega
  obtain ⟨i4, D4, h4, hJ4, hi4, hc4, hA4⟩ := rowLoop_spec
    (fun i => decide (i + 4 ≤ A.rows)) 4 (fun i j => group i 4 (i + 4) j) g
    (fun i => i % 4 = 0) A.rows jj (min (jj + block) B.columns) fuel (by omega)
    (by
      intro i hJ hc
      have hc' : i + 4 ≤ A.rows := by simpa using hc
      refine ⟨hc', by omega, ?_⟩
      intro j _ hj C
      exact hg i 4 (i + 4) j (Or.inl ⟨rfl, rfl, hJ, hc'⟩) (by omega) C)
    hle hfc hm D 0 D (by rfl) (Nat.zero_le _)
    (Acts.empty D (by intro x y h; have := h.1; omega))
  have hc4' : ¬ i4 + 4 ≤ A.rows := by simpa using hc4
  obtain ⟨i2, D2, h2, hJ2, hi2, hc2, hA2⟩ := rowLoop_spec
    (fun i => decide (i + 2 ≤ A.rows)) 2 (fun i j => group i 2 (i + 2) j) g
    (fun i => i % 2 = 0 ∧ 4 * (A.rows / 4) ≤ i) A.rows jj (min (jj + block) B.columns)
    fuel (by omega)
    (by
      intro i hJ hc
      have hc' : i + 2 ≤ A.rows := by simpa using hc
      refine ⟨hc', ⟨by omega, by omega⟩, ?_⟩
      intro j _ hj C
      exact hg i 2 (i + 2) j (Or.inr (Or.inl ⟨rfl, rfl, by omega, hc'⟩)) (by omega) C)
    hle hfc hm D i4 D4 ⟨by omega, by omega⟩ hi4 hA4
  have hc2' : ¬ i2 + 2 ≤ A.rows := by simpa using hc2
  obtain ⟨i1, D1, h1, _, hi1, hc1, hA1⟩ := rowLoop_spec
    (fun i => decide (i < A.rows)) 1 (fun i j => group i 1 i j) g
    (fun i => 2 * (A.rows / 2) ≤ i) A.rows jj (min (jj + block) B.columns)
    fuel (by omega)
    (by
      intro i hJ hc
      have hc' : i < A.rows := by simpa using hc
      refine ⟨hc', by omega, ?_⟩
      intro j _ hj C
      exact hg i 1 i j (Or.inr (Or.inr ⟨rfl, rfl, by omega, hc'⟩)) (by omega) C)
    hle hfc hm D i2 D2 (by omega) hi2 hA2
  have hc1' : ¬ i1 < A.rows := by simpa using hc1
  have hi1' : i1 = A.rows := by omega
  refine ⟨D1, ?_, ?_⟩
  · unfold blockBody
    simp only [h4, h2, h1]
  · rw [hi1'] at hA1
    exact hA1

/-- The traversal applies the cell function `g` of a kernel to every cell
`(x,y)` with `x < A.rows()` and `y < B.columns()`, once, and to no other cell, whatever
the storage order of the target. -/
theorem kernelLoops_spec
    (group : Nat → Nat → Nat → Nat → DenseMatrix → Except Fault DenseMatrix)
    (g : Nat → Nat → Int → Int) (fuel : Nat) (C A : DenseMatrix) (B : SparseMatrix)
    (hg : GroupSpec group g A.rows B.columns) (hm : A.rows < fuel) (hn : B.columns < fuel) :
    ∃ D, kernelLoops group fuel C A B = .ok D ∧
      Acts g (fun x y => x < A.rows ∧ y < B.columns) C D := by
  obtain ⟨s', hrun, hI, hc⟩ := whileLoop_spec
    (fun s : Nat × DenseMatrix => decide (s.1 < B.columns))
    (blockBody group fuel A B (if C.rowMajor then B.columns else 256))
    (fun s => Acts g (fun x y => x < A.rows ∧ y < s.1 ∧ y < B.columns) C s.2)
    (fun s => B.columns - s.1)
    (by
      rintro ⟨jj, D⟩ hI hc
      have hjj : jj < B.columns := by simpa using hc
      have hb : 0 < (if C.rowMajor then B.columns else 256) := by
        split <;> omega
      obtain ⟨E, hE, hact⟩ := blockBody_spec group g fuel A B
        (if C.rowMajor then B.columns else 256) jj D hg hm hn hjj
      refine ⟨_, hE, ?_, by show B.columns - (jj + _) < B.columns - jj; omega⟩
      refine Acts.comp hI hact ?_ ?_
      · intro x y hP hQ
        have := hP.2.1
        have := hQ.2.1
        omega
      · intro x y
        show (x < A.rows ∧ y < jj + _ ∧ y < B.columns) ↔
          (x < A.rows ∧ y < jj ∧ y < B.columns) ∨
            (x < A.rows ∧ jj ≤ y ∧ y < min (jj + _) B.columns)
        rw [Nat.lt_min]
        constructor
        · rintro ⟨hx, ha, hb⟩
          by_cases hy : y < jj
          · exact Or.inl ⟨hx, hy, hb⟩
          · exact Or.inr ⟨hx, by omega, ha, hb⟩
        · rintro (⟨hx, ha, hb⟩ | ⟨hx, _, ha, hb⟩)
          · exact ⟨hx, by omega, hb⟩
          · exact ⟨hx, ha, hb⟩)
    fuel (0, C)
    (Acts.empty C (by intro x y h; have := h.2.1; omega))
    (by show B.columns - 0 < fuel; omega)
  have hjj : ¬ s'.1 < B.columns := by simpa using hc
  refine ⟨s'.2, ?_, ?_⟩
  · unfold kernelLoops
    simp only [hrun]
  · refine Acts.region hI ?_
    intro x y
    constructor
    · rintro ⟨hx, hy⟩
      exact ⟨hx, by omega, hy⟩
    · rintro ⟨hx, _, hy⟩
      exact ⟨hx, hy⟩

theorem cursorRange_append (B : SparseMatrix) (j lo mid hi : Nat) (h1 : lo ≤ mid)
    (h2 : mid ≤ hi) :
    cursorRange B j lo hi = cursorRange B j lo mid ++ cursorRange B j mid hi := by
  unfold cursorRange
  have h : hi - lo = (mid - lo) + (hi - mid) := by omega
  rw [h, List.take_add, List.drop_drop]
  have h' : lo + (mid - lo) = mid := by omega
  rw [h']

theorem cursorRange_single (B : SparseMatrix) (j pos : Nat) (e : SparseElement)
    (h : B.deref j pos = some e) : cursorRange B j pos (pos + 1) = [e] := by
  unfold cursorRange
  unfold SparseMatrix.deref at h
  obtain ⟨hlt, he⟩ := List.getElem?_eq_some_iff.1 h
  rw [List.drop_eq_getElem_cons hlt, he]
  simp

theorem rangeSum_self (A : DenseMatrix) (B : SparseMatrix) (j pos x : Nat) :
    rangeSum A B j pos pos x = 0 := by
  simp [rangeSum, cursorRange]

theorem rangeSum_append (A : DenseMatrix) (B : SparseMatrix) (j lo mid hi x : Nat)
    (h1 : lo ≤ mid) (h2 : mid ≤ hi) :
    rangeSum A B j lo hi x = rangeSum A B j lo mid x + rangeSum A B j mid hi x := by
  unfold rangeSum
  rw [cursorRange_append B j lo mid hi h1 h2, List.map_append, List.sum_append]

theorem rangeSum_single (A : DenseMatrix) (B : SparseMatrix) (j pos x : Nat)
    (e : SparseElement) (h : B.deref j pos = some e) :
    rangeSum A B j pos (pos + 1) x = A.elem x e.index * e.value := by
  unfold rangeSum
  rw [cursorRange_single B j pos e h]
  simp

theorem rangeSum_succ (A : DenseMatrix) (B : SparseMatrix) (j lo pos x : Nat)
    (e : SparseElement) (hlo : lo ≤ pos) (h : B.deref j pos = some e) :
    rangeSum A B j lo (pos + 1) x = rangeSum A B j lo pos x + A.elem x e.index * e.value := by
  rw [rangeSum_append A B j lo pos (pos + 1) x hlo (Nat.le_succ _),
    rangeSum_single A B j pos x e h]

theorem deref_of_lt (B : SparseMatrix) (j pos : Nat) (h : pos < (B.column j).length) :
    B.deref j pos = some ((B.column j)[pos]) := by
  unfold SparseMatrix.deref
  exact List.getElem?_eq_getElem h

theorem Acts.seq {g1 g2 : Nat → Nat → Int → Int} {P : Nat → Nat → Prop}
    {C D E : DenseMatrix} (h1 : Acts g1 P C D) (h2 : Acts g2 P D E) :
    Acts (fun x y c => g2 x y (g1 x y c)) P C E := by
  constructor
  · intro x y hP
    rw [h2.1 x y hP, h1.1 x y hP]
  · intro x y hP
    rw [h2.2 x y hP, h1.2 x y hP]

theorem Acts.congr {g g' : Nat → Nat → Int → Int} {P : Nat → Nat → Prop}
    {C D : DenseMatrix} (h : Acts g P C D)
    (hg : ∀ x y c, P x y → g x y c = g' x y c) : Acts g' P C D :=
  ⟨fun x y hP => by rw [h.1 x y hP, hg x y _ hP], h.2⟩

/-- The statements of a row group act on the cells of the group. -/
theorem updateRows_acts (f : Nat → Int → Int) (i r j : Nat) (C : DenseMatrix) :
    Acts (fun x _ c => f x c) (fun x y => y = j ∧ i ≤ x ∧ x < i + r) C
      (updateRows f i r j C) := by
  constructor
  · intro x y hP
    rw [updateRows_elem, if_pos hP]
  · intro x y hP
    rw [updateRows_elem, if_neg hP]

/-- The loop `for( ; element!=end; ++element )` of the kernels, run from the cursor `lo`
to the cursor `hi`: it ends at `hi` and adds to (for `w = 1`) or subtracts from (for
`w = -1`) every cell of the row group the sum over the cursor range. -/
theorem elementLoop_spec (op : Int → Int → Int) (w : Int) (hop : ∀ c t, op c t = c + w * t)
    (A : DenseMatrix) (B : SparseMatrix) (i r j lo hi fuel : Nat) (C : DenseMatrix)
    (hlo : lo ≤ hi) (hhi : hi ≤ (B.column j).length) (hfuel : hi - lo < fuel) :
    ∃ D, elementLoop B j hi
        (fun e D => updateRows (fun x c => op c (A.elem x e.index * e.value)) i r j D)
        fuel lo C = .ok (hi, D) ∧
      Acts (fun x _ c => c + w * rangeSum A B j lo hi x)
        (fun x y => y = j ∧ i ≤ x ∧ x < i + r) C D := by
  obtain ⟨s', hrun, hI, hc⟩ := whileLoop_spec
    (fun s : Nat × DenseMatrix => s.1 != hi)
    (fun s => match B.deref j s.1 with
      | none => .error .invalidAccess
      | some e => .ok (s.1 + 1,
          updateRows (fun x c => op c (A.elem x e.index * e.value)) i r j s.2))
    (fun s => lo ≤ s.1 ∧ s.1 ≤ hi ∧
      Acts (fun x _ c => c + w * rangeSum A B j lo s.1 x)
        (fun x y => y = j ∧ i ≤ x ∧ x < i + r) C s.2)
    (fun s => hi - s.1)
    (by
      rintro ⟨pos, D⟩ ⟨h1, h2, h3⟩ hc
      have hne : pos ≠ hi := by simpa using hc
      have hlt : pos < (B.column j).length := by omega
      have hd := deref_of_lt B j pos hlt
      refine ⟨(pos + 1, updateRows (fun x c => op c (A.elem x ((B.column j)[pos]).index *
        ((B.column j)[pos]).value)) i r j D), ?_, ⟨?_, ?_, ?_⟩, ?_⟩
      · simp only [hd]
      · show lo ≤ pos + 1
        have : lo ≤ pos := h1
        omega
      · show pos + 1 ≤ hi
        have : pos ≤ hi := h2
        omega
      · show Acts (fun x _ c => c + w * rangeSum A B j lo (pos + 1) x)
          (fun x y => y = j ∧ i ≤ x ∧ x < i + r) C
          (updateRows (fun x c => op c (A.elem x ((B.column j)[pos]).index *
            ((B.column j)[pos]).value)) i r j D)
        refine (Acts.seq h3 (updateRows_acts _ i r j D)).congr ?_
        intro x y c _
        show op (c + w * rangeSum A B j lo pos x) _ = c + w * rangeSum A B j lo (pos + 1) x
        rw [hop, rangeSum_succ A B j lo pos x _ h1 hd]
        ring
      · show hi - (pos + 1) < hi - pos
        have : pos ≤ hi := h2
        omega)
    fuel (lo, C)
    ⟨Nat.le_refl _, hlo, by
      constructor
      · intro x y _
        show C.elem x y = C.elem x y + w * rangeSum A B j lo lo x
        rw [rangeSum_self]; ring
      · intro x y _; rfl⟩
    hfuel
  have hne : s'.1 = hi := by simpa using hc
  refine ⟨s'.2, ?_, ?_⟩
  · unfold elementLoop
    rw [hrun, ← hne]
  · have := hI.2.2
    rw [hne] at this
    exact this

/-! ## The statements of the default kernels -/

/-- The default overwrite kernel on one row group and one column: every cell of the
group becomes the sum over the cursor range, the additive identity for an empty range,
whatever the cell held before. -/
theorem assignGroup_spec (fuel : Nat) (A : DenseMatrix) (B : SparseMatrix)
    (i r iend j : Nat) (C : DenseMatrix)
    (hlo : cursorBegin A B i j ≤ cursorEnd A B iend j)
    (hhi : cursorEnd A B iend j ≤ (B.column j).length)
    (hfuel : (B.column j).length < fuel) :
    ∃ D, assignGroup fuel A B i r iend j C = .ok D ∧
      Acts (fun x _ _ => rangeSum A B j (cursorBegin A B i j) (cursorEnd A B iend j) x)
        (fun x y => y = j ∧ i ≤ x ∧ x < i + r) C D := by
  by_cases heq : cursorBegin A B i j = cursorEnd A B iend j
  · refine ⟨updateRows (fun _ _ => 0) i r j C, ?_, ?_⟩
    · unfold assignGroup
      simp only [heq, if_true]
    · refine (updateRows_acts (fun _ _ => 0) i r j C).congr ?_
      intro x y c _
      show (0 : Int) = rangeSum A B j (cursorBegin A B i j) (cursorEnd A B iend j) x
      rw [heq, rangeSum_self]
  · have hlt : cursorBegin A B i j < (B.column j).length := by omega
    have hd := deref_of_lt B j _ hlt
    obtain ⟨D, hrun, hact⟩ := elementLoop_spec (fun c t => c + t) 1 (by intro c t; ring)
      A B i r j (cursorBegin A B i j + 1) (cursorEnd A B iend j) fuel
      (updateRows (fun x _ => A.elem x ((B.column j)[cursorBegin A B i j]).index *
        ((B.column j)[cursorBegin A B i j]).value) i r j C)
      (by omega) hhi (by omega)
    have hrun' : elementLoop B j (cursorEnd A B iend j)
        (fun e D => updateRows (fun x c => c + A.elem x e.index * e.value) i r j D)
        fuel (cursorBegin A B i j + 1)
        (updateRows (fun x _ => A.elem x ((B.column j)[cursorBegin A B i j]).index *
          ((B.column j)[cursorBegin A B i j]).value) i r j C) =
        .ok (cursorEnd A B iend j, D) := hrun
    refine ⟨D, ?_, ?_⟩
    · unfold assignGroup
      simp only [heq, if_false, hd, hrun']
    · refine (Acts.seq (updateRows_acts _ i r j C) hact).congr ?_
      intro x y c _
      show A.elem x ((B.column j)[cursorBegin A B i j]).index *
          ((B.column j)[cursorBegin A B i j]).value +
          1 * rangeSum A B j (cursorBegin A B i j + 1) (cursorEnd A B iend j) x =
        rangeSum A B j (cursorBegin A B i j) (cursorEnd A B iend j) x
      rw [rangeSum_append A B j (cursorBegin A B i j) (cursorBegin A B i j + 1)
        (cursorEnd A B iend j) x (Nat.le_succ _) (by omega),
        rangeSum_single A B j _ x _ hd]
      ring

/-- The default addition kernel on one row group and one column: the sum over the
cursor range is added to every cell of the group. -/
theorem addAssignGroup_spec (fuel : Nat) (A : DenseMatrix) (B : SparseMatrix)
    (i r iend j : Nat) (C : DenseMatrix)
    (hlo : cursorBegin A B i j ≤ cursorEnd A B iend j)
    (hhi : cursorEnd A B iend j ≤ (B.column j).length)
    (hfuel : (B.column j).length < fuel) :
    ∃ D, addAssignGroup fuel A B i r iend j C = .ok D ∧
      Acts (fun x _ c => c + rangeSum A B j (cursorBegin A B i j) (cursorEnd A B iend j) x)
        (fun x y => y = j ∧ i ≤ x ∧ x < i + r) C D := by
  obtain ⟨D, hrun, hact⟩ := elementLoop_spec (fun c t => c + t) 1 (by intro c t; ring)
    A B i r j (cursorBegin A B i j) (cursorEnd A B iend j) fuel C hlo hhi (by omega)
  have hrun' : elementLoop B j (cursorEnd A B iend j)
      (fun e D => updateRows (fun x c => c + A.elem x e.index * e.value) i r j D)
      fuel (cursorBegin A B i j) C = .ok (cursorEnd A B iend j, D) := hrun
  refine ⟨D, ?_, ?_⟩
  · unfold addAssignGroup
    simp only [hrun']
  · refine hact.congr ?_
    intro x y c _
    show c + 1 * _ = c + _
    ring

/-- The default subtraction kernel on one row group and one column: the sum over the
cursor range is subtracted from every cell of the group. -/
theorem subAssignGroup_spec (fuel : Nat) (A : DenseMatrix) (B : SparseMatrix)
    (i r iend j : Nat) (C : DenseMatrix)
    (hlo : cursorBegin A B i j ≤ cursorEnd A B iend j)
    (hhi : cursorEnd A B iend j ≤ (B.column j).length)
    (hfuel : (B.column j).length < fuel) :
    ∃ D, subAssignGroup fuel A B i r iend j C = .ok D ∧
      Acts (fun x _ c => c - rangeSum A B j (cursorBegin A B i j) (cursorEnd A B iend j) x)
        (fun x y => y = j ∧ i ≤ x ∧ x < i + r) C D := by
  obtain ⟨D, hrun, hact⟩ := elementLoop_spec (fun c t => c - t) (-1) (by intro c t; ring)
    A B i r j (cursorBegin A B i j) (cursorEnd A B iend j) fuel C hlo hhi (by omega)
  have hrun' : elementLoop B j (cursorEnd A B iend j)
      (fun e D => updateRows (fun x c => c - A.elem x e.index * e.value) i r j D)
      fuel (cursorBegin A B i j) C = .ok (cursorEnd A B iend j, D) := hrun
  refine ⟨D, ?_, ?_⟩
  · unfold subAssignGroup
    simp only [hrun']
  · refine hact.congr ?_
    intro x y c _
    show c + (-1) * _ = c - _
    ring

/-! ## The statements of the optimized kernels -/

/-- The mask `nonzeros & size_t(-4)` clears the two low bits of a `size_t` value. -/
theorem land_mask (n : Nat) (h : n < sizeT) : n &&& (sizeT - 4) = n - n % 4 := by
  unfold sizeT at h ⊢
  apply Nat.eq_of_testBit_eq
  intro i
  have h4 : n - n % 4 = 2 ^ 2 * (n / 2 ^ 2) := by omega
  have hm : (2 ^ 64 - 4 : Nat) = 2 ^ 2 * (2 ^ 62 - 1) := by norm_num
  rw [h4, Nat.testBit_and, hm, Nat.testBit_mul_pow_two, Nat.testBit_mul_pow_two,
    Nat.testBit_two_pow_sub_one, ← Nat.shiftRight_eq_div_pow, Nat.testBit_shiftRight]
  by_cases hi : 2 ≤ i
  · have e : 2 + (i - 2) = i := by omega
    rw [e]
    by_cases hi2 : i - 2 < 62
    · simp [hi, hi2]
    · have hlt : n < 2 ^ i :=
        lt_of_lt_of_le h (Nat.pow_le_pow_right (by norm_num) (by omega))
      simp [hi, hi2, Nat.testBit_lt_two_pow hlt]
  · simp [hi]

theorem rangeSum_four (A : DenseMatrix) (B : SparseMatrix) (j lo pos x : Nat)
    (e1 e2 e3 e4 : SparseElement) (hlo : lo ≤ pos)
    (h1 : B.deref j pos = some e1) (h2 : B.deref j (pos + 1) = some e2)
    (h3 : B.deref j (pos + 2) = some e3) (h4 : B.deref j (pos + 3) = some e4) :
    rangeSum A B j lo (pos + 4) x = rangeSum A B j lo pos x +
      (A.elem x e1.index * e1.value + A.elem x e2.index * e2.value +
        A.elem x e3.index * e3.value + A.elem x e4.index * e4.value) := by
  rw [show pos + 4 = (pos + 3) + 1 from rfl,
    rangeSum_succ A B j lo (pos + 3) x e4 (by omega) h4,
    show pos + 3 = (pos + 2) + 1 from rfl,
    rangeSum_succ A B j lo (pos + 2) x e3 (by omega) h3,
    show pos + 2 = (pos + 1) + 1 from rfl,
    rangeSum_succ A B j lo (pos + 1) x e2 (by omega) h2,
    rangeSum_succ A B j lo pos x e1 hlo h1]
  ring

/-- The unrolled loop of the optimized kernels over `kpos` entries (a multiple of four)
from the cursor `lo`: on a column with strictly increasing indices no assertion fails,
the cursor ends at `lo + kpos`, and the sum over the entries read has been added to
(`w = 1`) or subtracted from (`w = -1`) every cell of the row group. -/
theorem unrolledLoop_spec (op : Int → Int → Int) (w : Int)
    (hop : ∀ c t, op c t = c + w * t)
    (A : DenseMatrix) (B : SparseMatrix) (i r j lo kpos fuel : Nat) (C : DenseMatrix)
    (hsorted : (B.column j).Pairwise (fun a b => a.index < b.index))
    (hk : kpos % 4 = 0) (hhi : lo + kpos ≤ (B.column j).length) (hfuel : kpos < fuel) :
    ∃ s, whileLoop (fun s : UnrolledState => decide (s.k < kpos))
        (unrolledStep B j (fun e1 e2 e3 e4 D =>
          updateRows (fun x c => op c
            (A.elem x e1.index * e1.value + A.elem x e2.index * e2.value +
              A.elem x e3.index * e3.value + A.elem x e4.index * e4.value)) i r j D))
        fuel ⟨0, lo, C⟩ = .ok s ∧ s.element = lo + kpos ∧
      Acts (fun x _ c => c + w * rangeSum A B j lo (lo + kpos) x)
        (fun x y => y = j ∧ i ≤ x ∧ x < i + r) C s.C := by
  have hpw := List.pairwise_iff_getElem.1 hsorted
  obtain ⟨s', hrun, hI, hc⟩ := whileLoop_spec
    (fun s : UnrolledState => decide (s.k < kpos))
    (unrolledStep B j (fun e1 e2 e3 e4 D =>
      updateRows (fun x c => op c
        (A.elem x e1.index * e1.value + A.elem x e2.index * e2.value +
          A.elem x e3.index * e3.value + A.elem x e4.index * e4.value)) i r j D))
    (fun s => s.element = lo + s.k ∧ s.k % 4 = 0 ∧ s.k ≤ kpos ∧
      Acts (fun x _ c => c + w * rangeSum A B j lo (lo + s.k) x)
        (fun x y => y = j ∧ i ≤ x ∧ x < i + r) C s.C)
    (fun s => kpos - s.k)
    (by
      rintro ⟨k, el, D⟩ ⟨h1, h2, h3, h4⟩ hc
      have h1 : el = lo + k := h1
      have h2 : k % 4 = 0 := h2
      have h3 : k ≤ kpos := h3
      have hlt : k < kpos := by simpa using hc
      subst h1
      have l1 : lo + k < (B.column j).length := by omega
      have l2 : lo + k + 1 < (B.column j).length := by omega
      have l3 : lo + k + 2 < (B.column j).length := by omega
      have l4 : lo + k + 3 < (B.column j).length := by omega
      have d1 := deref_of_lt B j _ l1
      have d2 := deref_of_lt B j _ l2
      have d3 := deref_of_lt B j _ l3
      have d4 := deref_of_lt B j _ l4
      have o12 := hpw (lo + k) (lo + k + 1) l1 l2 (by omega)
      have o23 := hpw (lo + k + 1) (lo + k + 2) l2 l3 (by omega)
      have o34 := hpw (lo + k + 2) (lo + k + 3) l3 l4 (by omega)
      refine ⟨⟨k + 4, lo + k + 4, updateRows (fun x c => op c
        (A.elem x ((B.column j)[lo + k]).index * ((B.column j)[lo + k]).value +
          A.elem x ((B.column j)[lo + k + 1]).index * ((B.column j)[lo + k + 1]).value +
          A.elem x ((B.column j)[lo + k + 2]).index * ((B.column j)[lo + k + 2]).value +
          A.elem x ((B.column j)[lo + k + 3]).index * ((B.column j)[lo + k + 3]).value))
        i r j D⟩, ?_, ⟨?_, ?_, ?_, ?_⟩, ?_⟩
      · unfold unrolledStep
        simp only [d1, d2, d3, d4, internalAssert, o12, o23, o34, decide_True, Bool.and_self,
          if_true]
      · show lo + k + 4 = lo + (k + 4)
        omega
      · show (k + 4) % 4 = 0
        omega
      · show k + 4 ≤ kpos
        omega
      · show Acts (fun x _ c => c + w * rangeSum A B j lo (lo + (k + 4)) x)
          (fun x y => y = j ∧ i ≤ x ∧ x < i + r) C (updateRows _ i r j D)
        refine (Acts.seq h4 (updateRows_acts _ i r j D)).congr ?_
        intro x y c _
        show op (c + w * rangeSum A B j lo (lo + k) x) _ =
          c + w * rangeSum A B j lo (lo + (k + 4)) x
        rw [hop, show lo + (k + 4) = lo + k + 4 from rfl,
          rangeSum_four A B j lo (lo + k) x _ _ _ _ (by omega) d1 d2 d3 d4]
        ring
      · show kpos - (k + 4) < kpos - k
        omega)
    fuel ⟨0, lo, C⟩
    ⟨rfl, rfl, Nat.zero_le _, by
      constructor
      · intro x y _
        show C.elem x y = C.elem x y + w * rangeSum A B j lo (lo + 0) x
        rw [Nat.add_zero, rangeSum_self]; ring
      · intro x y _; rfl⟩
    (by show kpos - 0 < fuel; omega)
  have hge : ¬ s'.k < kpos := by simpa using hc
  have hk' : s'.k = kpos := by have := hI.2.2.1; omega
  refine ⟨s', hrun, ?_, ?_⟩
  · rw [hI.1, hk']
  · have := hI.2.2.2
    rw [hk'] at this
    exact this

/-- The optimized kernels on one row group and one column: on a column with strictly
increasing indices and fewer than `2^64` entries neither assertion fails, and the sum
over the cursor range is added to (`w = 1`) or subtracted from (`w = -1`) every cell of
the group. -/
theorem optimizedGroup_spec (op : Int → Int → Int) (w : Int)
    (hop : ∀ c t, op c t = c + w * t) (fuel : Nat) (A : DenseMatrix) (B : SparseMatrix)
    (i r iend j : Nat) (C : DenseMatrix)
    (hsorted : (B.column j).Pairwise (fun a b => a.index < b.index))
    (hsize : (B.column j).length < sizeT)
    (hlo : cursorBegin A B i j ≤ cursorEnd A B iend j)
    (hhi : cursorEnd A B iend j ≤ (B.column j).length)
    (hfuel : (B.column j).length < fuel) :
    ∃ D, optimizedGroup op fuel A B i r iend j C = .ok D ∧
      Acts (fun x _ c =>
          c + w * rangeSum A B j (cursorBegin A B i j) (cursorEnd A B iend j) x)
        (fun x y => y = j ∧ i ≤ x ∧ x < i + r) C D := by
  have hnz : (cursorEnd A B iend j + sizeT - cursorBegin A B i j) % sizeT =
      cursorEnd A B iend j - cursorBegin A B i j := by
    have h1 : cursorEnd A B iend j + sizeT - cursorBegin A B i j =
        (cursorEnd A B iend j - cursorBegin A B i j) + sizeT := by omega
    rw [h1, Nat.add_mod_right]
    exact Nat.mod_eq_of_lt (by omega)
  have hmask := land_mask (cursorEnd A B iend j - cursorBegin A B i j) (by omega)
  obtain ⟨s, hrun, hel, hact⟩ := unrolledLoop_spec op w hop A B i r j
    (cursorBegin A B i j)
    (cursorEnd A B iend j - cursorBegin A B i j -
      (cursorEnd A B iend j - cursorBegin A B i j) % 4) fuel C hsorted
    (by omega) (by omega) (by omega)
  obtain ⟨D, hrun2, hact2⟩ := elementLoop_spec op w hop A B i r j s.element
    (cursorEnd A B iend j) fuel s.C (by omega) hhi (by omega)
  refine ⟨D, ?_, ?_⟩
  · unfold optimizedGroup
    simp only [hnz, hmask, internalAssert, decide_True, if_true, hrun, hrun2]
  · refine (Acts.seq hact hact2).congr ?_
    intro x y c _
    show c + w * rangeSum A B j _ _ x + w * rangeSum A B j s.element _ x = _
    rw [hel, rangeSum_append A B j (cursorBegin A B i j)
      (cursorBegin A B i j + (cursorEnd A B iend j - cursorBegin A B i j -
        (cursorEnd A B iend j - cursorBegin A B i j) % 4)) (cursorEnd A B iend j) x
      (by omega) (by omega)]
    ring

theorem isRowGroup_of_mem {m i r iend x : Nat} (h : IsRowGroup m i r iend)
    (h1 : i ≤ x) (h2 : x < i + r) : rowGroupStart m x = i ∧ rowGroupEnd m x = iend := by
  unfold rowGroupStart rowGroupEnd
  rcases h with ⟨rfl, rfl, h3, h4⟩ | ⟨rfl, rfl, h3, h4⟩ | ⟨rfl, rfl, h3, h4⟩
  · have hx : x < 4 * (m / 4) := by omega
    rw [if_pos hx, if_pos hx]
    omega
  · have hx : ¬ x < 4 * (m / 4) := by omega
    have hx2 : x < 2 * (m / 2) := by omega
    rw [if_neg hx, if_neg hx, if_pos hx2, if_pos hx2]
    omega
  · have hx : ¬ x < 4 * (m / 4) := by omega
    have hx2 : ¬ x < 2 * (m / 2) := by omega
    rw [if_neg hx, if_neg hx, if_neg hx2, if_neg hx2]
    omega

theorem isRowGroup_le {m i r iend : Nat} (h : IsRowGroup m i r iend) : i ≤ iend := by
  rcases h with ⟨_, h, _⟩ | ⟨_, h, _⟩ | ⟨_, h, _⟩ <;> omega

theorem cursorEnd_le_length (A : DenseMatrix) (B : SparseMatrix) (iend j : Nat) :
    cursorEnd A B iend j ≤ (B.column j).length := by
  unfold cursorEnd SparseMatrix.lowerBound SparseMatrix.upperBound SparseMatrix.end_
  split
  · split <;> exact List.findIdx_le_length _
  · exact Nat.le_refl _

theorem findIdx_mono {α : Type} (p q : α → Bool) (h : ∀ a, q a = true → p a = true)
    (l : List α) : l.findIdx p ≤ l.findIdx q := by
  induction l with
  | nil => simp
  | cons a t ih =>
    rw [List.findIdx_cons, List.findIdx_cons]
    by_cases hq : q a = true
    · simp [hq, h a hq]
    · by_cases hp : p a = true
      · simp [hp]
      · simp [hp, hq, ih]

/-- Unless the left operand is flagged strictly upper and strictly lower at once, the
cursor range of every row group is well formed, whatever the sparse operand stores. -/
theorem cursorsOrdered_of_flags (A : DenseMatrix) (B : SparseMatrix)
    (h : ¬ A.StrictlyUpperAndLower) : CursorsOrdered A B := by
  intro i r iend j hg _
  have hle := isRowGroup_le hg
  have hend := cursorEnd_le_length A B iend j
  unfold DenseMatrix.StrictlyUpperAndLower at h
  unfold cursorBegin cursorEnd SparseMatrix.lowerBound SparseMatrix.upperBound
    SparseMatrix.begin_ SparseMatrix.end_ at *
  by_cases hU : A.traits.isUpper = true
  · by_cases hL : A.traits.isLower = true
    · by_cases hSU : A.traits.isStrictlyUpper = true
      · by_cases hSL : A.traits.isStrictlyLower = true
        · exact absurd ⟨hU, hSU, hL, hSL⟩ h
        · simp only [hU, hL, hSU, hSL, if_true, if_false]
          apply findIdx_mono
          intro a ha
          simp only [decide_eq_true_eq] at ha ⊢
          omega
      · by_cases hSL : A.traits.isStrictlyLower = true
        · simp only [hU, hL, hSU, hSL, if_true, if_false]
          apply findIdx_mono
          intro a ha
          simp only [decide_eq_true_eq] at ha ⊢
          omega
        · simp only [hU, hL, hSU, hSL, if_true, if_false]
          apply findIdx_mono
          intro a ha
          simp only [decide_eq_true_eq] at ha ⊢
          omega
    · simp only [hU, hL, if_true, if_false]
      split <;> exact List.findIdx_le_length _
  · simp only [hU, if_false]
    exact Nat.zero_le _

theorem groupSpec_of_rangeSum
    (group : Nat → Nat → Nat → Nat → DenseMatrix → Except Fault DenseMatrix)
    (f : Int → Int → Int) (A : DenseMatrix) (B : SparseMatrix)
    (h : ∀ i r iend j, IsRowGroup A.rows i r iend → j < B.columns → ∀ C : DenseMatrix,
      ∃ D, group i r iend j C = .ok D ∧
        Acts (fun x _ c =>
            f c (rangeSum A B j (cursorBegin A B i j) (cursorEnd A B iend j) x))
          (fun x y => y = j ∧ i ≤ x ∧ x < i + r) C D) :
    GroupSpec group (fun x y c => f c (kernelSum A B x y)) A.rows B.columns := by
  intro i r iend j hg hj C
  obtain ⟨D, hD, hact⟩ := h i r iend j hg hj C
  refine ⟨D, hD, hact.congr ?_⟩
  intro x y c hP
  obtain ⟨hy, h1, h2⟩ := hP
  obtain ⟨hs, he⟩ := isRowGroup_of_mem hg h1 h2
  show f c _ = f c (kernelSum A B x y)
  unfold kernelSum
  rw [hs, he, hy]

/-- The default overwrite kernel ends without fault and leaves in every cell `(x,y)`
with `x < A.rows()`, `y < B.columns()` the sum over the cursor range of the row group of
`x`; every other cell keeps its value. -/
theorem selectAssignKernelDefault_spec (fuel : Nat) (C A : DenseMatrix) (B : SparseMatrix)
    (hord : CursorsOrdered A B) (hfuel : EnoughFuel fuel A B) :
    ∃ D, selectAssignKernelDefault fuel C A B = .ok D ∧
      Acts (fun x y _ => kernelSum A B x y) (fun x y => x < A.rows ∧ y < B.columns) C D :=
  kernelLoops_spec (assignGroup fuel A B) (fun x y _ => kernelSum A B x y) fuel C A B
    (groupSpec_of_rangeSum (assignGroup fuel A B) (fun _ t => t) A B
      (fun i r iend j hg hj C => assignGroup_spec fuel A B i r iend j C (hord i r iend j hg hj)
        (cursorEnd_le_length A B iend j) (hfuel.2.2 j hj)))
    hfuel.1 hfuel.2.1

/-- The default addition kernel ends without fault and adds to every cell `(x,y)` with
`x < A.rows()`, `y < B.columns()` the sum over the cursor range of the row group of `x`;
every other cell keeps its value. -/
theorem selectAddAssignKernelDefault_spec (fuel : Nat) (C A : DenseMatrix)
    (B : SparseMatrix) (hord : CursorsOrdered A B) (hfuel : EnoughFuel fuel A B) :
    ∃ D, selectAddAssignKernelDefault fuel C A B = .ok D ∧
      Acts (fun x y c => c + kernelSum A B x y)
        (fun x y => x < A.rows ∧ y < B.columns) C D :=
  kernelLoops_spec (addAssignGroup fuel A B) (fun x y c => c + kernelSum A B x y) fuel C A B
    (groupSpec_of_rangeSum (addAssignGroup fuel A B) (fun c t => c + t) A B
      (fun i r iend j hg hj C => addAssignGroup_spec fuel A B i r iend j C
        (hord i r iend j hg hj) (cursorEnd_le_length A B iend j) (hfuel.2.2 j hj)))
    hfuel.1 hfuel.2.1

/-- The default subtraction kernel ends without fault and subtracts from every cell
`(x,y)` with `x < A.rows()`, `y < B.columns()` the sum over the cursor range of the row
group of `x`; every other cell keeps its value. -/
theorem selectSubAssignKernelDefault_spec (fuel : Nat) (C A : DenseMatrix)
    (B : SparseMatrix) (hord : CursorsOrdered A B) (hfuel : EnoughFuel fuel A B) :
    ∃ D, selectSubAssignKernelDefault fuel C A B = .ok D ∧
      Acts (fun x y c => c - kernelSum A B x y)
        (fun x y => x < A.rows ∧ y < B.columns) C D :=
  kernelLoops_spec (subAssignGroup fuel A B) (fun x y c => c - kernelSum A B x y) fuel C A B
    (groupSpec_of_rangeSum (subAssignGroup fuel A B) (fun c t => c - t) A B
      (fun i r iend j hg hj C => subAssignGroup_spec fuel A B i r iend j C
        (hord i r iend j hg hj) (cursorEnd_le_length A B iend j) (hfuel.2.2 j hj)))
    hfuel.1 hfuel.2.1

theorem optimizedKernel_spec (op : Int → Int → Int) (w : Int)
    (hop : ∀ c t, op c t = c + w * t) (fuel : Nat) (C A : DenseMatrix) (B : SparseMatrix)
    (hsorted : B.SortedColumns) (hord : CursorsOrdered A B) (hfuel : EnoughFuel fuel A B) :
    ∃ D, kernelLoops (optimizedGroup op fuel A B) fuel C A B = .ok D ∧
      Acts (fun x y c => c + w * kernelSum A B x y)
        (fun x y => x < A.rows ∧ y < B.columns) C D :=
  kernelLoops_spec (optimizedGroup op fuel A B) (fun x y c => c + w * kernelSum A B x y)
    fuel C A B
    (groupSpec_of_rangeSum (optimizedGroup op fuel A B) (fun c t => c + w * t) A B
      (fun i r iend j hg hj C => optimizedGroup_spec op w hop fuel A B i r iend j C
        (hsorted j hj).1 (hsorted j hj).2 (hord i r iend j hg hj)
        (cursorEnd_le_length A B iend j) (hfuel.2.2 j hj)))
    hfuel.1 hfuel.2.1

/-- The optimized addition kernel: as the default one, for a sparse operand with
sorted columns. -/
theorem selectAddAssignKernelOptimized_spec (fuel : Nat) (C A : DenseMatrix)
    (B : SparseMatrix) (hsorted : B.SortedColumns) (hord : CursorsOrdered A B)
    (hfuel : EnoughFuel fuel A B) :
    ∃ D, selectAddAssignKernelOptimized fuel C A B = .ok D ∧
      Acts (fun x y c => c + kernelSum A B x y)
        (fun x y => x < A.rows ∧ y < B.columns) C D := by
  obtain ⟨D, hD, hact⟩ := optimizedKernel_spec (fun c t => c + t) 1 (by intro c t; ring)
    fuel C A B hsorted hord hfuel
  refine ⟨D, hD, hact.congr ?_⟩
  intro x y c _
  show c + 1 * _ = c + _
  ring

/-- The optimized subtraction kernel: as the default one, for a sparse operand with
sorted columns. -/
theorem selectSubAssignKernelOptimized_spec (fuel : Nat) (C A : DenseMatrix)
    (B : SparseMatrix) (hsorted : B.SortedColumns) (hord : CursorsOrdered A B)
    (hfuel : EnoughFuel fuel A B) :
    ∃ D, selectSubAssignKernelOptimized fuel C A B = .ok D ∧
      Acts (fun x y c => c - kernelSum A B x y)
        (fun x y => x < A.rows ∧ y < B.columns) C D := by
  obtain ⟨D, hD, hact⟩ := optimizedKernel_spec (fun c t => c - t) (-1) (by intro c t; ring)
    fuel C A B hsorted hord hfuel
  refine ⟨D, hD, hact.congr ?_⟩
  intro x y c _
  show c + (-1) * _ = c - _
  ring

/-- The optimized overwrite kernel: as the default one, for a sparse operand with
sorted columns and a target of the shape of the product. -/
theorem selectAssignKernelOptimized_spec (fuel : Nat) (C A : DenseMatrix)
    (B : SparseMatrix) (hrows : C.rows = A.rows) (hcols : C.columns = B.columns)
    (hsorted : B.SortedColumns) (hord : CursorsOrdered A B)
    (hfuel : EnoughFuel fuel A B) :
    ∃ D, selectAssignKernelOptimized fuel C A B = .ok D ∧
      Acts (fun x y _ => kernelSum A B x y)
        (fun x y => x < A.rows ∧ y < B.columns) C D := by
  obtain ⟨D, hD, hact⟩ := optimizedKernel_spec (fun c t => c + t) 1 (by intro c t; ring)
    fuel (reset C) A B hsorted hord hfuel
  refine ⟨D, hD, ?_, ?_⟩
  · intro x y hP
    have hP' : x < C.rows ∧ y < C.columns := by rw [hrows, hcols]; exact hP
    rw [hact.1 x y hP]
    show (if x < C.rows ∧ y < C.columns then (0 : Int) else C.elem x y) + 1 * _ = _
    rw [if_pos hP']
    ring
  · intro x y hP
    have hP' : ¬ (x < C.rows ∧ y < C.columns) := by rw [hrows, hcols]; exact hP
    rw [hact.2 x y hP]
    show (if x < C.rows ∧ y < C.columns then (0 : Int) else C.elem x y) = _
    rw [if_neg hP']

theorem get_cons (a : SparseElement) (t : List SparseElement) (p : Nat) :
    (match (a :: t).find? (fun e => e.index == p) with
      | some e => e.value
      | none => 0) =
    if a.index = p then a.value else
      (match t.find? (fun e => e.index == p) with
        | some e => e.value
        | none => 0) := by
  rw [List.find?_cons]
  by_cases h : a.index = p
  · have hb : (a.index == p) = true := by simpa using h
    simp [hb, h]
  · have hb : (a.index == p) = false := by simpa using h
    simp [hb, h]

theorem get_eq_zero (t : List SparseElement) (p : Nat) (h : ∀ e ∈ t, e.index ≠ p) :
    (match t.find? (fun e => e.index == p) with
      | some e => e.value
      | none => (0 : Int)) = 0 := by
  have hnone : t.find? (fun e => e.index == p) = none := by
    rw [List.find?_eq_none]
    intro e he
    simpa using h e he
  rw [hnone]

/-- Summing `f index * value` over a column with strictly increasing indices below `k`
is summing `f p * B(p,j)` over all `p < k`. -/
theorem sum_column_eq (f : Nat → Int) (k : Nat) :
    ∀ (l : List SparseElement), l.Pairwise (fun a b => a.index < b.index) →
      (∀ e ∈ l, e.index < k) →
      (l.map (fun e => f e.index * e.value)).sum =
        ∑ p in Finset.range k, f p *
          (match l.find? (fun e => e.index == p) with
            | some e => e.value
            | none => 0) := by
  intro l
  induction l with
  | nil => intro _ _; simp
  | cons a t ih =>
    intro hs hb
    rw [List.pairwise_cons] at hs
    have hz := get_eq_zero t a.index (fun e he => by have := hs.1 e he; omega)
    have ha : a.index < k := hb a (List.mem_cons_self _ _)
    rw [List.map_cons, List.sum_cons, ih hs.2 (fun e he => hb e (List.mem_cons_of_mem _ he))]
    have hfun : ∀ p ∈ Finset.range k,
        f p * (match (a :: t).find? (fun e => e.index == p) with
          | some e => e.value
          | none => 0) =
        f p * (match t.find? (fun e => e.index == p) with
          | some e => e.value
          | none => 0) + (if a.index = p then f a.index * a.value else 0) := by
      intro p _
      rw [get_cons]
      by_cases h : a.index = p
      · subst h
        rw [if_pos rfl, if_pos rfl, hz]
        ring
      · rw [if_neg h, if_neg h]
        ring
    rw [Finset.sum_congr rfl hfun, Finset.sum_add_distrib, Finset.sum_ite_eq]
    simp [ha]
    ring

/-- A column with strictly increasing indices below `k` stores at most `k` entries. -/
theorem length_le_of_sorted (l : List SparseElement) :
    l.Pairwise (fun a b => a.index < b.index) → ∀ lo k,
      (∀ e ∈ l, lo ≤ e.index ∧ e.index < k) → lo ≤ k → l.length + lo ≤ k := by
  induction l with
  | nil => intro _ lo k _ h; simpa using h
  | cons a t ih =>
    intro hs lo k hb hle
    rw [List.pairwise_cons] at hs
    have ha := hb a (List.mem_cons_self _ _)
    have := ih hs.2 (a.index + 1) k
      (fun e he => ⟨by have := hs.1 e he; omega, (hb e (List.mem_cons_of_mem _ he)).2⟩)
      (by omega)
    simp only [List.length_cons]
    omega

theorem WellFormed.length_le {B : SparseMatrix} (h : B.WellFormed) {j : Nat}
    (hj : j < B.columns) : (B.column j).length ≤ B.rows := by
  have := length_le_of_sorted (B.column j) (h j hj).1 0 B.rows
    (fun e he => ⟨Nat.zero_le _, (h j hj).2 e he⟩) (Nat.zero_le _)
  omega

theorem WellFormed.sortedColumns {B : SparseMatrix} (h : B.WellFormed)
    (hsize : B.rows < sizeT) : B.SortedColumns := by
  intro j hj
  exact ⟨(h j hj).1, lt_of_le_of_lt (WellFormed.length_le h hj) hsize⟩

theorem rangeSum_full (A : DenseMatrix) (B : SparseMatrix) (hwf : B.WellFormed)
    (hshape : A.columns = B.rows) (x j : Nat) (hj : j < B.columns) :
    rangeSum A B j 0 (B.column j).length x = refProduct A B x j := by
  unfold rangeSum cursorRange refProduct SparseMatrix.get
  rw [List.drop_zero, Nat.sub_zero, List.take_length, hshape]
  exact sum_column_eq (fun p => A.elem x p) B.rows (B.column j) (hwf j hj).1 (hwf j hj).2

theorem rangeSum_eq_zero (A : DenseMatrix) (B : SparseMatrix) (j lo x : Nat)
    (n : Nat) (hlen : lo + n ≤ (B.column j).length)
    (hz : ∀ p (hp : p < (B.column j).length), lo ≤ p → p < lo + n →
      A.elem x ((B.column j)[p]).index = 0) :
    rangeSum A B j lo (lo + n) x = 0 := by
  induction n with
  | zero => exact rangeSum_self A B j lo x
  | succ n ih =>
    have hp : lo + n < (B.column j).length := by omega
    rw [show lo + (n + 1) = (lo + n) + 1 from rfl,
      rangeSum_succ A B j lo (lo + n) x _ (by omega) (deref_of_lt B j _ hp),
      ih (by omega) (fun p hp h1 h2 => hz p hp h1 (by omega)),
      hz (lo + n) hp (by omega) (by omega)]
    ring

/-- In a column with strictly increasing indices every entry at or after the first one
with index `≥ b` (or `> b`) has such an index. -/
theorem findIdx_sorted (l : List SparseElement)
    (hs : l.Pairwise (fun a b => a.index < b.index)) (q : SparseElement → Bool)
    (hq : ∀ a b : SparseElement, q a = true → a.index ≤ b.index → q b = true)
    (p : Nat) (hp : p < l.length) (hge : l.findIdx q ≤ p) : q (l[p]) = true := by
  have hlt : l.findIdx q < l.length := lt_of_le_of_lt hge hp
  have h0 : q (l[l.findIdx q]) = true := List.findIdx_getElem
  by_cases heq : l.findIdx q = p
  · simp only [heq] at h0
    exact h0
  · have := (List.pairwise_iff_getElem.1 hs) (l.findIdx q) p hlt hp (by omega)
    exact hq _ _ h0 (Nat.le_of_lt this)

theorem rowGroup_exists (m x : Nat) (hx : x < m) :
    ∃ r, IsRowGroup m (rowGroupStart m x) r (rowGroupEnd m x) ∧
      rowGroupStart m x ≤ x ∧ x < rowGroupStart m x + r := by
  unfold rowGroupStart rowGroupEnd
  by_cases h1 : x < 4 * (m / 4)
  · rw [if_pos h1, if_pos h1]
    exact ⟨4, Or.inl ⟨rfl, rfl, by omega, by omega⟩, by omega, by omega⟩
  · rw [if_neg h1, if_neg h1]
    by_cases h2 : x < 2 * (m / 2)
    · rw [if_pos h2, if_pos h2]
      exact ⟨2, Or.inr (Or.inl ⟨rfl, rfl, rfl, by omega⟩), by omega, by omega⟩
    · rw [if_neg h2, if_neg h2]
      exact ⟨1, Or.inr (Or.inr ⟨rfl, rfl, by omega, hx⟩), by omega, by omega⟩

theorem zero_before_cursorBegin (A : DenseMatrix) (B : SparseMatrix) (hwf : B.WellFormed)
    (hshape : A.columns = B.rows) (hsound : A.TraitsSound) (i x j : Nat)
    (hx : x < A.rows) (hj : j < B.columns) (hix : i ≤ x)
    (p : Nat) (hp : p < (B.column j).length) (hlt : p < cursorBegin A B i j) :
    A.elem x ((B.column j)[p]).index = 0 := by
  have hidx : ((B.column j)[p]).index < A.columns := by
    rw [hshape]; exact (hwf j hj).2 _ (List.getElem_mem _)
  unfold cursorBegin SparseMatrix.lowerBound SparseMatrix.upperBound SparseMatrix.begin_ at hlt
  by_cases hU : A.traits.isUpper = true
  · rw [if_pos hU] at hlt
    by_cases hSU : A.traits.isStrictlyUpper = true
    · rw [if_pos hSU] at hlt
      have h := List.not_of_lt_findIdx hlt
      have h' : ((B.column j)[p]).index ≤ i := by simpa using h
      by_cases heq : ((B.column j)[p]).index = x
      · rw [heq]
        exact hsound.2.1 hU hSU x hx (by omega)
      · exact hsound.1 hU x _ hx hidx (by omega)
    · rw [if_neg hSU] at hlt
      have h := List.not_of_lt_findIdx hlt
      have h' : ((B.column j)[p]).index < i := by simpa using h
      exact hsound.1 hU x _ hx hidx (by omega)
  · rw [if_neg hU] at hlt
    omega

theorem zero_after_cursorEnd (A : DenseMatrix) (B : SparseMatrix) (hwf : B.WellFormed)
    (hshape : A.columns = B.rows) (hsound : A.TraitsSound) (iend x j : Nat)
    (hx : x < A.rows) (hj : j < B.columns) (hix : x ≤ iend)
    (p : Nat) (hp : p < (B.column j).length) (hge : cursorEnd A B iend j ≤ p) :
    A.elem x ((B.column j)[p]).index = 0 := by
  have hidx : ((B.column j)[p]).index < A.columns := by
    rw [hshape]; exact (hwf j hj).2 _ (List.getElem_mem _)
  unfold cursorEnd SparseMatrix.lowerBound SparseMatrix.upperBound SparseMatrix.end_ at hge
  by_cases hL : A.traits.isLower = true
  · rw [if_pos hL] at hge
    by_cases hSL : A.traits.isStrictlyLower = true
    · rw [if_pos hSL] at hge
      have h := findIdx_sorted (B.column j) (hwf j hj).1
        (fun e => decide (iend ≤ e.index))
        (by intro a b ha hab; simp only [decide_eq_true_eq] at ha ⊢; omega) p hp hge
      have h' : iend ≤ ((B.column j)[p]).index := by simpa using h
      by_cases heq : ((B.column j)[p]).index = x
      · rw [heq]
        exact hsound.2.2.2 hL hSL x hx (by omega)
      · exact hsound.2.2.1 hL x _ hx hidx (by omega)
    · rw [if_neg hSL] at hge
      have h := findIdx_sorted (B.column j) (hwf j hj).1
        (fun e => decide (iend < e.index))
        (by intro a b ha hab; simp only [decide_eq_true_eq] at ha ⊢; omega) p hp hge
      have h' : iend < ((B.column j)[p]).index := by simpa using h
      exact hsound.2.2.1 hL x _ hx hidx (by omega)
  · rw [if_neg hL] at hge
    omega

/-- For a left operand whose entries agree with its flags and a well-formed sparse
operand, the sum a kernel accumulates over the restricted cursor range of a cell is the
reference product of that cell. -/
theorem kernelSum_eq_refProduct (A : DenseMatrix) (B : SparseMatrix) (hwf : B.WellFormed)
    (hshape : A.columns = B.rows) (hsound : A.TraitsSound)
    (hflags : ¬ A.StrictlyUpperAndLower) (x j : Nat) (hx : x < A.rows)
    (hj : j < B.columns) : kernelSum A B x j = refProduct A B x j := by
  obtain ⟨r, hg, h1, h2⟩ := rowGroup_exists A.rows x hx
  have hle := cursorsOrdered_of_flags A B hflags _ _ _ _ hg hj
  have hhi := cursorEnd_le_length A B (rowGroupEnd A.rows x) j
  have hxe : x ≤ rowGroupEnd A.rows x := by
    rcases hg with ⟨hr, he, _⟩ | ⟨hr, he, _⟩ | ⟨hr, he, _⟩ <;> omega
  rw [← rangeSum_full A B hwf hshape x j hj]
  unfold kernelSum
  rw [rangeSum_append A B j 0 (cursorBegin A B (rowGroupStart A.rows x) j)
      (B.column j).length x (Nat.zero_le _) (by omega),
    rangeSum_append A B j (cursorBegin A B (rowGroupStart A.rows x) j)
      (cursorEnd A B (rowGroupEnd A.rows x) j) (B.column j).length x hle hhi]
  have hz1 : rangeSum A B j 0 (cursorBegin A B (rowGroupStart A.rows x) j) x = 0 := by
    have := rangeSum_eq_zero A B j 0 x (cursorBegin A B (rowGroupStart A.rows x) j)
      (by omega)
      (fun p hp _ hlt => zero_before_cursorBegin A B hwf hshape hsound _ x j hx hj h1 p hp
        (by omega))
    rw [Nat.zero_add] at this
    exact this
  have hz2 : rangeSum A B j (cursorEnd A B (rowGroupEnd A.rows x) j)
      (B.column j).length x = 0 := by
    have := rangeSum_eq_zero A B j (cursorEnd A B (rowGroupEnd A.rows x) j) x
      ((B.column j).length - cursorEnd A B (rowGroupEnd A.rows x) j) (by omega)
      (fun p hp hge _ => zero_after_cursorEnd A B hwf hshape hsound _ x j hx hj hxe p hp hge)
    rw [Nat.add_sub_cancel' hhi] at this
    exact this
  rw [hz1, hz2]
  ring

theorem traitsSound_of_unflagged (A : DenseMatrix) (hU : A.traits.isUpper = false)
    (hL : A.traits.isLower = false) : A.TraitsSound := by
  unfold DenseMatrix.TraitsSound
  rw [hU, hL]
  simp

theorem not_strictlyUpperAndLower_of_unflagged (A : DenseMatrix)
    (hU : A.traits.isUpper = false) : ¬ A.StrictlyUpperAndLower := by
  intro h
  rw [h.1] at hU
  exact Bool.noConfusion hU

theorem WellFormed.enoughFuel {B : SparseMatrix} (hwf : B.WellFormed) (A : DenseMatrix)
    (fuel : Nat) (h1 : A.rows < fuel) (h2 : B.columns < fuel) (h3 : B.rows < fuel) :
    EnoughFuel fuel A B :=
  ⟨h1, h2, fun _ hj => lt_of_le_of_lt (WellFormed.length_le hwf hj) h3⟩

theorem scenarioRight_wellFormed : scenarioRight.WellFormed := by
  intro j hj
  have hj' : j < 2 := hj
  interval_cases j <;> simp [scenarioRight]

theorem scenario_enoughFuel (fuel : Nat) (h : 3 < fuel) :
    EnoughFuel fuel scenarioLeft scenarioRight :=
  WellFormed.enoughFuel scenarioRight_wellFormed scenarioLeft fuel
    (by show 2 < fuel; omega) (by show 2 < fuel; omega) (by show 3 < fuel; omega)

theorem scenario_cursorsOrdered : CursorsOrdered scenarioLeft scenarioRight :=
  cursorsOrdered_of_flags _ _ (not_strictlyUpperAndLower_of_unflagged _ rfl)

theorem scenario_sortedColumns : scenarioRight.SortedColumns :=
  WellFormed.sortedColumns scenarioRight_wellFormed (by decide)

/-- The kernels run on the worked scenario: with four units of fuel the default and
the optimized overwrite kernel put `22` into cell `(1,0)` of a target of sevens, the
optimized subtraction kernel turns the `1` of cell `(0,0)` into `-9`, and with two units
of fuel the run ends without a result. -/
theorem scenario_evaluation :
    cellOf (selectAssignKernelDefault 4 (constantTarget 7 true) scenarioLeft
      scenarioRight) 1 0 = some 22 ∧
    cellOf (selectAssignKernelOptimized 4 (constantTarget 7 false) scenarioLeft
      scenarioRight) 1 0 = some 22 ∧
    cellOf (selectSubAssignKernelOptimized 4 (constantTarget 1 true) scenarioLeft
      scenarioRight) 0 0 = some (-9) ∧
    cellOf (selectAssignKernelDefault 2 (constantTarget 7 true) scenarioLeft
      scenarioRight) 1 0 = none := by
  decide

theorem refProduct_empty_column (A : DenseMatrix) (B : SparseMatrix) (i j : Nat)
    (h : B.column j = []) : refProduct A B i j = 0 := by
  unfold refProduct SparseMatrix.get
  rw [h]
  simp

theorem kernelSum_empty_column (A : DenseMatrix) (B : SparseMatrix) (x j : Nat)
    (h : B.column j = []) : kernelSum A B x j = 0 := by
  unfold kernelSum rangeSum cursorRange
  rw [h]
  simp

/-! ## The kernels: claims -/

/-- C1: for a left operand without upper or lower flag and a well-formed sparse right
operand with `A.columns() == B.rows()`, the default overwrite kernel ends without fault
whatever the target held, for every number of rows and both storage orders of the
target, and leaves in every cell `(i,j)` of the product shape the reference sum over
all `p` of `A(i,p) * B(p,j)`. -/
theorem C1_default_overwrite_is_reference_product (fuel : Nat) (C A : DenseMatrix)
    (B : SparseMatrix) (hwf : B.WellFormed) (hshape : A.columns = B.rows)
    (hU : A.traits.isUpper = false) (hL : A.traits.isLower = false)
    (hfuel : EnoughFuel fuel A B) :
    ∃ D, selectAssignKernelDefault fuel C A B = .ok D ∧
      ∀ i j, i < A.rows → j < B.columns → D.elem i j = refProduct A B i j := by
  have hflags := not_strictlyUpperAndLower_of_unflagged A hU
  obtain ⟨D, hD, hact⟩ := selectAssignKernelDefault_spec fuel C A B
    (cursorsOrdered_of_flags A B hflags) hfuel
  refine ⟨D, hD, ?_⟩
  intro i j hi hj
  rw [hact.1 i j ⟨hi, hj⟩]
  exact kernelSum_eq_refProduct A B hwf hshape (traitsSound_of_unflagged A hU hL) hflags
    i j hi hj

/-- Witness of C1 on the worked scenario, with a target filled with sevens. -/
theorem C1_witness :
    ∃ D, selectAssignKernelDefault 4 (constantTarget 7 true) scenarioLeft scenarioRight =
        .ok D ∧
      ∀ i j, i < scenarioLeft.rows → j < scenarioRight.columns →
        D.elem i j = refProduct scenarioLeft scenarioRight i j :=
  C1_default_overwrite_is_reference_product 4 (constantTarget 7 true) scenarioLeft
    scenarioRight scenarioRight_wellFormed rfl rfl rfl (scenario_enoughFuel 4 (by decide))

/-- C2: for a well-formed sparse operand and a target of the shape of the product, the
optimized and the default overwrite kernel both end without fault with the same value
in every cell, and so do the optimized and default addition kernels and the optimized
and default subtraction kernels (for every left operand not flagged strictly upper and
strictly lower at once). -/
theorem C2_optimized_kernels_agree_with_default (fuel : Nat) (C A : DenseMatrix)
    (B : SparseMatrix) (hwf : B.WellFormed) (hsize : B.rows < sizeT)
    (hrows : C.rows = A.rows) (hcols : C.columns = B.columns)
    (hflags : ¬ A.StrictlyUpperAndLower) (hfuel : EnoughFuel fuel A B) :
    (∃ D E, selectAssignKernelDefault fuel C A B = .ok D ∧
      selectAssignKernelOptimized fuel C A B = .ok E ∧ ∀ i j, D.elem i j = E.elem i j) ∧
    (∃ D E, selectAddAssignKernelDefault fuel C A B = .ok D ∧
      selectAddAssignKernelOptimized fuel C A B = .ok E ∧ ∀ i j, D.elem i j = E.elem i j) ∧
    (∃ D E, selectSubAssignKernelDefault fuel C A B = .ok D ∧
      selectSubAssignKernelOptimized fuel C A B = .ok E ∧ ∀ i j, D.elem i j = E.elem i j) := by
  have hord := cursorsOrdered_of_flags A B hflags
  have hsorted := WellFormed.sortedColumns hwf hsize
  have key : ∀ (g : Nat → Nat → Int → Int) (D E : DenseMatrix),
      Acts g (fun x y => x < A.rows ∧ y < B.columns) C D →
      Acts g (fun x y => x < A.rows ∧ y < B.columns) C E →
      ∀ i j, D.elem i j = E.elem i j := by
    intro g D E hD hE i j
    by_cases hP : i < A.rows ∧ j < B.columns
    · rw [hD.1 i j hP, hE.1 i j hP]
    · rw [hD.2 i j hP, hE.2 i j hP]
  refine ⟨?_, ?_, ?_⟩
  · obtain ⟨D, hD, hactD⟩ := selectAssignKernelDefault_spec fuel C A B hord hfuel
    obtain ⟨E, hE, hactE⟩ := selectAssignKernelOptimized_spec fuel C A B hrows hcols
      hsorted hord hfuel
    exact ⟨D, E, hD, hE, key _ D E hactD hactE⟩
  · obtain ⟨D, hD, hactD⟩ := selectAddAssignKernelDefault_spec fuel C A B hord hfuel
    obtain ⟨E, hE, hactE⟩ := selectAddAssignKernelOptimized_spec fuel C A B
      hsorted hord hfuel
    exact ⟨D, E, hD, hE, key _ D E hactD hactE⟩
  · obtain ⟨D, hD, hactD⟩ := selectSubAssignKernelDefault_spec fuel C A B hord hfuel
    obtain ⟨E, hE, hactE⟩ := selectSubAssignKernelOptimized_spec fuel C A B
      hsorted hord hfuel
    exact ⟨D, E, hD, hE, key _ D E hactD hactE⟩

/-- Witness of C2 on the worked scenario, with a column-major target filled with
sevens. -/
theorem C2_witness :
    (∃ D E, selectAssignKernelDefault 4 (constantTarget 7 false) scenarioLeft
        scenarioRight = .ok D ∧
      selectAssignKernelOptimized 4 (constantTarget 7 false) scenarioLeft
        scenarioRight = .ok E ∧ ∀ i j, D.elem i j = E.elem i j) ∧
    (∃ D E, selectAddAssignKernelDefault 4 (constantTarget 7 false) scenarioLeft
        scenarioRight = .ok D ∧
      selectAddAssignKernelOptimized 4 (constantTarget 7 false) scenarioLeft
        scenarioRight = .ok E ∧ ∀ i j, D.elem i j = E.elem i j) ∧
    (∃ D E, selectSubAssignKernelDefault 4 (constantTarget 7 false) scenarioLeft
        scenarioRight = .ok D ∧
      selectSubAssignKernelOptimized 4 (constantTarget 7 false) scenarioLeft
        scenarioRight = .ok E ∧ ∀ i j, D.elem i j = E.elem i j) :=
  C2_optimized_kernels_agree_with_default 4 (constantTarget 7 false) scenarioLeft
    scenarioRight scenarioRight_wellFormed (by decide) rfl rfl
    (not_strictlyUpperAndLower_of_unflagged _ rfl) (scenario_enoughFuel 4 (by decide))

/-- C3: for a well-formed sparse operand with `A.columns() == B.rows()` and a left
operand whose entries agree with its flags, the addition kernel (default and optimized)
ends without fault with `C'(i,j) = C(i,j) + sum over p of A(i,p) * B(p,j)` in every cell
of the product shape, `C` being the target before the call; a column of `B` without
stored entries leaves that column of the target unchanged. -/
theorem C3_add_assign_adds_reference_product (fuel : Nat) (C A : DenseMatrix)
    (B : SparseMatrix) (hwf : B.WellFormed) (hsize : B.rows < sizeT)
    (hshape : A.columns = B.rows) (hsound : A.TraitsSound)
    (hflags : ¬ A.StrictlyUpperAndLower) (hfuel : EnoughFuel fuel A B) :
    (∃ D, selectAddAssignKernelDefault fuel C A B = .ok D ∧
      (∀ i j, i < A.rows → j < B.columns →
        D.elem i j = C.elem i j + refProduct A B i j) ∧
      (∀ j, j < B.columns → B.column j = [] → ∀ i, D.elem i j = C.elem i j)) ∧
    (∃ D, selectAddAssignKernelOptimized fuel C A B = .ok D ∧
      (∀ i j, i < A.rows → j < B.columns →
        D.elem i j = C.elem i j + refProduct A B i j) ∧
      (∀ j, j < B.columns → B.column j = [] → ∀ i, D.elem i j = C.elem i j)) := by
  have hord := cursorsOrdered_of_flags A B hflags
  have key : ∀ D : DenseMatrix,
      Acts (fun x y c => c + kernelSum A B x y) (fun x y => x < A.rows ∧ y < B.columns) C D →
      (∀ i j, i < A.rows → j < B.columns →
        D.elem i j = C.elem i j + refProduct A B i j) ∧
      (∀ j, j < B.columns → B.column j = [] → ∀ i, D.elem i j = C.elem i j) := by
    intro D hact
    constructor
    · intro i j hi hj
      rw [hact.1 i j ⟨hi, hj⟩]
      beta_reduce
      rw [kernelSum_eq_refProduct A B hwf hshape hsound hflags i j hi hj]
    · intro j hj hempty i
      by_cases hi : i < A.rows
      · rw [hact.1 i j ⟨hi, hj⟩]
        beta_reduce
        rw [kernelSum_empty_column A B i j hempty]
        ring
      · exact hact.2 i j (fun h => hi h.1)
  constructor
  · obtain ⟨D, hD, hact⟩ := selectAddAssignKernelDefault_spec fuel C A B hord hfuel
    exact ⟨D, hD, key D hact⟩
  · obtain ⟨D, hD, hact⟩ := selectAddAssignKernelOptimized_spec fuel C A B
      (WellFormed.sortedColumns hwf hsize) hord hfuel
    exact ⟨D, hD, key D hact⟩

/-- Witness of C3 on the worked scenario, with a target filled with ones. -/
theorem C3_witness :
    (∃ D, selectAddAssignKernelDefault 4 (constantTarget 1 true) scenarioLeft
        scenarioRight = .ok D ∧
      (∀ i j, i < scenarioLeft.rows → j < scenarioRight.columns →
        D.elem i j = (constantTarget 1 true).elem i j +
          refProduct scenarioLeft scenarioRight i j) ∧
      (∀ j, j < scenarioRight.columns → scenarioRight.column j = [] →
        ∀ i, D.elem i j = (constantTarget 1 true).elem i j)) ∧
    (∃ D, selectAddAssignKernelOptimized 4 (constantTarget 1 true) scenarioLeft
        scenarioRight = .ok D ∧
      (∀ i j, i < scenarioLeft.rows → j < scenarioRight.columns →
        D.elem i j = (constantTarget 1 true).elem i j +
          refProduct scenarioLeft scenarioRight i j) ∧
      (∀ j, j < scenarioRight.columns → scenarioRight.column j = [] →
        ∀ i, D.elem i j = (constantTarget 1 true).elem i j)) :=
  C3_add_assign_adds_reference_product 4 (constantTarget 1 true) scenarioLeft scenarioRight
    scenarioRight_wellFormed (by decide) rfl (traitsSound_of_unflagged _ rfl rfl)
    (not_strictlyUpperAndLower_of_unflagged _ rfl) (scenario_enoughFuel 4 (by decide))

/-- C4: for a well-formed sparse operand with `A.columns() == B.rows()` and a left
operand whose entries agree with its flags, the subtraction kernel (default and
optimized) ends without fault with `C'(i,j) = C(i,j) - sum over p of A(i,p) * B(p,j)` in
every cell of the product shape, `C` being the target before the call. -/
theorem C4_sub_assign_subtracts_reference_product (fuel : Nat) (C A : DenseMatrix)
    (B : SparseMatrix) (hwf : B.WellFormed) (hsize : B.rows < sizeT)
    (hshape : A.columns = B.rows) (hsound : A.TraitsSound)
    (hflags : ¬ A.StrictlyUpperAndLower) (hfuel : EnoughFuel fuel A B) :
    (∃ D, selectSubAssignKernelDefault fuel C A B = .ok D ∧
      ∀ i j, i < A.rows → j < B.columns →
        D.elem i j = C.elem i j - refProduct A B i j) ∧
    (∃ D, selectSubAssignKernelOptimized fuel C A B = .ok D ∧
      ∀ i j, i < A.rows → j < B.columns →
        D.elem i j = C.elem i j - refProduct A B i j) := by
  have hord := cursorsOrdered_of_flags A B hflags
  constructor
  · obtain ⟨D, hD, hact⟩ := selectSubAssignKernelDefault_spec fuel C A B hord hfuel
    refine ⟨D, hD, ?_⟩
    intro i j hi hj
    rw [hact.1 i j ⟨hi, hj⟩]
    beta_reduce
    rw [kernelSum_eq_refProduct A B hwf hshape hsound hflags i j hi hj]
  · obtain ⟨D, hD, hact⟩ := selectSubAssignKernelOptimized_spec fuel C A B
      (WellFormed.sortedColumns hwf hsize) hord hfuel
    refine ⟨D, hD, ?_⟩
    intro i j hi hj
    rw [hact.1 i j ⟨hi, hj⟩]
    beta_reduce
    rw [kernelSum_eq_refProduct A B hwf hshape hsound hflags i j hi hj]

/-- Witness of C4 on the worked scenario, with a target filled with ones. -/
theorem C4_witness :
    (∃ D, selectSubAssignKernelDefault 4 (constantTarget 1 true) scenarioLeft
        scenarioRight = .ok D ∧
      ∀ i j, i < scenarioLeft.rows → j < scenarioRight.columns →
        D.elem i j = (constantTarget 1 true).elem i j -
          refProduct scenarioLeft scenarioRight i j) ∧
    (∃ D, selectSubAssignKernelOptimized 4 (constantTarget 1 true) scenarioLeft
        scenarioRight = .ok D ∧
      ∀ i j, i < scenarioLeft.rows → j < scenarioRight.columns →
        D.elem i j = (constantTarget 1 true).elem i j -
          refProduct scenarioLeft scenarioRight i j) :=
  C4_sub_assign_subtracts_reference_product 4 (constantTarget 1 true) scenarioLeft
    scenarioRight scenarioRight_wellFormed (by decide) rfl
    (traitsSound_of_unflagged _ rfl rfl) (not_strictlyUpperAndLower_of_unflagged _ rfl)
    (scenario_enoughFuel 4 (by decide))

/-- C5: the addition kernel followed by the subtraction kernel with the same operands
returns every cell of the target to its original value, in the default and in the
optimized kernel family: both runs end without fault and the final target equals the
initial one cell by cell. -/
theorem C5_sub_assign_undoes_add_assign (fuel : Nat) (C A : DenseMatrix)
    (B : SparseMatrix) (hwf : B.WellFormed) (hsize : B.rows < sizeT)
    (hflags : ¬ A.StrictlyUpperAndLower) (hfuel : EnoughFuel fuel A B) :
    (∃ D E, selectAddAssignKernelDefault fuel C A B = .ok D ∧
      selectSubAssignKernelDefault fuel D A B = .ok E ∧ ∀ i j, E.elem i j = C.elem i j) ∧
    (∃ D E, selectAddAssignKernelOptimized fuel C A B = .ok D ∧
      selectSubAssignKernelOptimized fuel D A B = .ok E ∧
      ∀ i j, E.elem i j = C.elem i j) := by
  have hord := cursorsOrdered_of_flags A B hflags
  have hsorted := WellFormed.sortedColumns hwf hsize
  have key : ∀ D E : DenseMatrix,
      Acts (fun x y c => c + kernelSum A B x y) (fun x y => x < A.rows ∧ y < B.columns) C D →
      Acts (fun x y c => c - kernelSum A B x y) (fun x y => x < A.rows ∧ y < B.columns) D E →
      ∀ i j, E.elem i j = C.elem i j := by
    intro D E hD hE i j
    by_cases hP : i < A.rows ∧ j < B.columns
    · rw [hE.1 i j hP, hD.1 i j hP]
      ring
    · rw [hE.2 i j hP, hD.2 i j hP]
  constructor
  · obtain ⟨D, hD, hactD⟩ := selectAddAssignKernelDefault_spec fuel C A B hord hfuel
    obtain ⟨E, hE, hactE⟩ := selectSubAssignKernelDefault_spec fuel D A B hord hfuel
    exact ⟨D, E, hD, hE, key D E hactD hactE⟩
  · obtain ⟨D, hD, hactD⟩ := selectAddAssignKernelOptimized_spec fuel C A B
      hsorted hord hfuel
    obtain ⟨E, hE, hactE⟩ := selectSubAssignKernelOptimized_spec fuel D A B
      hsorted hord hfuel
    exact ⟨D, E, hD, hE, key D E hactD hactE⟩

/-- Witness of C5 on the worked scenario, with a column-major target filled with
threes. -/
theorem C5_witness :
    (∃ D E, selectAddAssignKernelDefault 4 (constantTarget 3 false) scenarioLeft
        scenarioRight = .ok D ∧
      selectSubAssignKernelDefault 4 D scenarioLeft scenarioRight = .ok E ∧
      ∀ i j, E.elem i j = (constantTarget 3 false).elem i j) ∧
    (∃ D E, selectAddAssignKernelOptimized 4 (constantTarget 3 false) scenarioLeft
        scenarioRight = .ok D ∧
      selectSubAssignKernelOptimized 4 D scenarioLeft scenarioRight = .ok E ∧
      ∀ i j, E.elem i j = (constantTarget 3 false).elem i j) :=
  C5_sub_assign_undoes_add_assign 4 (constantTarget 3 false) scenarioLeft scenarioRight
    scenarioRight_wellFormed (by decide) (not_strictlyUpperAndLower_of_unflagged _ rfl)
    (scenario_enoughFuel 4 (by decide))

/-- C6: in the worked scenario, left `[[1,2,3],[4,5,6]]` and right the sparse
`[[1,0],[0,2],[3,0]]`, overwrite assignment into a zero-initialized 2x2 target of either
storage order yields exactly `[[10,4],[22,10]]`, with the default and with the optimized
overwrite kernel. -/
theorem C6_scenario_overwrite (fuel : Nat) (rowMajor : Bool) (hfuel : 3 < fuel) :
    (∃ D, selectAssignKernelDefault fuel (constantTarget 0 rowMajor) scenarioLeft
        scenarioRight = .ok D ∧
      D.elem 0 0 = 10 ∧ D.elem 0 1 = 4 ∧ D.elem 1 0 = 22 ∧ D.elem 1 1 = 10) ∧
    (∃ D, selectAssignKernelOptimized fuel (constantTarget 0 rowMajor) scenarioLeft
        scenarioRight = .ok D ∧
      D.elem 0 0 = 10 ∧ D.elem 0 1 = 4 ∧ D.elem 1 0 = 22 ∧ D.elem 1 1 = 10) := by
  constructor
  · obtain ⟨D, hD, hact⟩ := selectAssignKernelDefault_spec fuel (constantTarget 0 rowMajor)
      scenarioLeft scenarioRight scenario_cursorsOrdered (scenario_enoughFuel fuel hfuel)
    exact ⟨D, hD, (hact.1 0 0 ⟨by decide, by decide⟩).trans
        (by decide : kernelSum scenarioLeft scenarioRight 0 0 = 10),
      (hact.1 0 1 ⟨by decide, by decide⟩).trans
        (by decide : kernelSum scenarioLeft scenarioRight 0 1 = 4),
      (hact.1 1 0 ⟨by decide, by decide⟩).trans
        (by decide : kernelSum scenarioLeft scenarioRight 1 0 = 22),
      (hact.1 1 1 ⟨by decide, by decide⟩).trans
        (by decide : kernelSum scenarioLeft scenarioRight 1 1 = 10)⟩
  · obtain ⟨D, hD, hact⟩ := selectAssignKernelOptimized_spec fuel
      (constantTarget 0 rowMajor) scenarioLeft scenarioRight rfl rfl
      scenario_sortedColumns scenario_cursorsOrdered (scenario_enoughFuel fuel hfuel)
    exact ⟨D, hD, (hact.1 0 0 ⟨by decide, by decide⟩).trans
        (by decide : kernelSum scenarioLeft scenarioRight 0 0 = 10),
      (hact.1 0 1 ⟨by decide, by decide⟩).trans
        (by decide : kernelSum scenarioLeft scenarioRight 0 1 = 4),
      (hact.1 1 0 ⟨by decide, by decide⟩).trans
        (by decide : kernelSum scenarioLeft scenarioRight 1 0 = 22),
      (hact.1 1 1 ⟨by decide, by decide⟩).trans
        (by decide : kernelSum scenarioLeft scenarioRight 1 1 = 10)⟩

/-- Witness of C6 with four units of fuel and a row-major target. -/
theorem C6_witness :
    (∃ D, selectAssignKernelDefault 4 (constantTarget 0 true) scenarioLeft
        scenarioRight = .ok D ∧
      D.elem 0 0 = 10 ∧ D.elem 0 1 = 4 ∧ D.elem 1 0 = 22 ∧ D.elem 1 1 = 10) ∧
    (∃ D, selectAssignKernelOptimized 4 (constantTarget 0 true) scenarioLeft
        scenarioRight = .ok D ∧
      D.elem 0 0 = 10 ∧ D.elem 0 1 = 4 ∧ D.elem 1 0 = 22 ∧ D.elem 1 1 = 10) :=
  C6_scenario_overwrite 4 true (by decide)

/-- C7: in the worked scenario, addition assignment into a 2x2 target pre-filled with
`[[1,1],[1,1]]`, of either storage order, yields exactly `[[11,5],[23,11]]`, with the
default and with the optimized addition kernel. -/
theorem C7_scenario_add_assign (fuel : Nat) (rowMajor : Bool) (hfuel : 3 < fuel) :
    (∃ D, selectAddAssignKernelDefault fuel (constantTarget 1 rowMajor) scenarioLeft
        scenarioRight = .ok D ∧
      D.elem 0 0 = 11 ∧ D.elem 0 1 = 5 ∧ D.elem 1 0 = 23 ∧ D.elem 1 1 = 11) ∧
    (∃ D, selectAddAssignKernelOptimized fuel (constantTarget 1 rowMajor) scenarioLeft
        scenarioRight = .ok D ∧
      D.elem 0 0 = 11 ∧ D.elem 0 1 = 5 ∧ D.elem 1 0 = 23 ∧ D.elem 1 1 = 11) := by
  constructor
  · obtain ⟨D, hD, hact⟩ := selectAddAssignKernelDefault_spec fuel
      (constantTarget 1 rowMajor) scenarioLeft scenarioRight scenario_cursorsOrdered
      (scenario_enoughFuel fuel hfuel)
    exact ⟨D, hD, (hact.1 0 0 ⟨by decide, by decide⟩).trans
        (by decide : (1 : Int) + kernelSum scenarioLeft scenarioRight 0 0 = 11),
      (hact.1 0 1 ⟨by decide, by decide⟩).trans
        (by decide : (1 : Int) + kernelSum scenarioLeft scenarioRight 0 1 = 5),
      (hact.1 1 0 ⟨by decide, by decide⟩).trans
        (by decide : (1 : Int) + kernelSum scenarioLeft scenarioRight 1 0 = 23),
      (hact.1 1 1 ⟨by decide, by decide⟩).trans
        (by decide : (1 : Int) + kernelSum scenarioLeft scenarioRight 1 1 = 11)⟩
  · obtain ⟨D, hD, hact⟩ := selectAddAssignKernelOptimized_spec fuel
      (constantTarget 1 rowMajor) scenarioLeft scenarioRight
      scenario_sortedColumns scenario_cursorsOrdered (scenario_enoughFuel fuel hfuel)
    exact ⟨D, hD, (hact.1 0 0 ⟨by decide, by decide⟩).trans
        (by decide : (1 : Int) + kernelSum scenarioLeft scenarioRight 0 0 = 11),
      (hact.1 0 1 ⟨by decide, by decide⟩).trans
        (by decide : (1 : Int) + kernelSum scenarioLeft scenarioRight 0 1 = 5),
      (hact.1 1 0 ⟨by decide, by decide⟩).trans
        (by decide : (1 : Int) + kernelSum scenarioLeft scenarioRight 1 0 = 23),
      (hact.1 1 1 ⟨by decide, by decide⟩).trans
        (by decide : (1 : Int) + kernelSum scenarioLeft scenarioRight 1 1 = 11)⟩

/-- Witness of C7 with four units of fuel and a column-major target. -/
theorem C7_witness :
    (∃ D, selectAddAssignKernelDefault 4 (constantTarget 1 false) scenarioLeft
        scenarioRight = .ok D ∧
      D.elem 0 0 = 11 ∧ D.elem 0 1 = 5 ∧ D.elem 1 0 = 23 ∧ D.elem 1 1 = 11) ∧
    (∃ D, selectAddAssignKernelOptimized 4 (constantTarget 1 false) scenarioLeft
        scenarioRight = .ok D ∧
      D.elem 0 0 = 11 ∧ D.elem 0 1 = 5 ∧ D.elem 1 0 = 23 ∧ D.elem 1 1 = 11) :=
  C7_scenario_add_assign 4 false (by decide)

/-- C8: for every column `j` of the sparse operand without stored entries the default
overwrite kernel ends with `C(i,j)` equal to the additive identity for every row
`i < A.rows()`, in the groups of four rows, the group of two and the remainder row
alike, whatever the target held there (for every left operand not flagged strictly upper
and strictly lower at once, and every sparse operand, well formed or not). -/
theorem C8_empty_column_is_reset (fuel : Nat) (C A : DenseMatrix) (B : SparseMatrix)
    (j : Nat) (hj : j < B.columns) (hempty : B.column j = [])
    (hflags : ¬ A.StrictlyUpperAndLower) (hfuel : EnoughFuel fuel A B) :
    ∃ D, selectAssignKernelDefault fuel C A B = .ok D ∧
      ∀ i, i < A.rows → D.elem i j = 0 := by
  obtain ⟨D, hD, hact⟩ := selectAssignKernelDefault_spec fuel C A B
    (cursorsOrdered_of_flags A B hflags) hfuel
  refine ⟨D, hD, ?_⟩
  intro i hi
  rw [hact.1 i j ⟨hi, hj⟩]
  exact kernelSum_empty_column A B i j hempty

/-- Witness of C8: seven rows (a group of four, a group of two, a remainder row), the
empty column 1, and a target filled with sevens. -/
theorem C8_witness :
    ∃ D, selectAssignKernelDefault 8 (constantTarget 7 true) sevenRowLeft
        emptyColumnRight = .ok D ∧
      ∀ i, i < sevenRowLeft.rows → D.elem i 1 = 0 :=
  C8_empty_column_is_reset 8 (constantTarget 7 true) sevenRowLeft emptyColumnRight 1
    (by decide) rfl (not_strictlyUpperAndLower_of_unflagged _ rfl)
    ⟨by decide, by decide, fun j hj => by
      have hj' : j < 2 := hj
      interval_cases j <;> simp [emptyColumnRight]⟩

/-- C9: overwrite assignment does not depend on what the target held: for two targets
of the shape of the product, whatever their contents and storage orders, the default
overwrite kernel ends without fault on both and leaves them equal in every cell of the
product shape, and so does the optimized overwrite kernel. -/
theorem C9_overwrite_ignores_prior_contents (fuel : Nat) (C1 C2 A : DenseMatrix)
    (B : SparseMatrix) (hwf : B.WellFormed) (hsize : B.rows < sizeT)
    (hrows1 : C1.rows = A.rows) (hcols1 : C1.columns = B.columns)
    (hrows2 : C2.rows = A.rows) (hcols2 : C2.columns = B.columns)
    (hflags : ¬ A.StrictlyUpperAndLower) (hfuel : EnoughFuel fuel A B) :
    (∃ D1 D2, selectAssignKernelDefault fuel C1 A B = .ok D1 ∧
      selectAssignKernelDefault fuel C2 A B = .ok D2 ∧
      ∀ i j, i < A.rows → j < B.columns → D1.elem i j = D2.elem i j) ∧
    (∃ D1 D2, selectAssignKernelOptimized fuel C1 A B = .ok D1 ∧
      selectAssignKernelOptimized fuel C2 A B = .ok D2 ∧
      ∀ i j, i < A.rows → j < B.columns → D1.elem i j = D2.elem i j) := by
  have hord := cursorsOrdered_of_flags A B hflags
  have hsorted := WellFormed.sortedColumns hwf hsize
  constructor
  · obtain ⟨D1, hD1, hact1⟩ := selectAssignKernelDefault_spec fuel C1 A B hord hfuel
    obtain ⟨D2, hD2, hact2⟩ := selectAssignKernelDefault_spec fuel C2 A B hord hfuel
    refine ⟨D1, D2, hD1, hD2, ?_⟩
    intro i j hi hj
    rw [hact1.1 i j ⟨hi, hj⟩, hact2.1 i j ⟨hi, hj⟩]
  · obtain ⟨D1, hD1, hact1⟩ := selectAssignKernelOptimized_spec fuel C1 A B hrows1 hcols1
      hsorted hord hfuel
    obtain ⟨D2, hD2, hact2⟩ := selectAssignKernelOptimized_spec fuel C2 A B hrows2 hcols2
      hsorted hord hfuel
    refine ⟨D1, D2, hD1, hD2, ?_⟩
    intro i j hi hj
    rw [hact1.1 i j ⟨hi, hj⟩, hact2.1 i j ⟨hi, hj⟩]

/-- Witness of C9 on the worked scenario: a row-major target of sevens and a
column-major target of zeros. -/
theorem C9_witness :
    (∃ D1 D2, selectAssignKernelDefault 4 (constantTarget 7 true) scenarioLeft
        scenarioRight = .ok D1 ∧
      selectAssignKernelDefault 4 (constantTarget 0 false) scenarioLeft
        scenarioRight = .ok D2 ∧
      ∀ i j, i < scenarioLeft.rows → j < scenarioRight.columns →
        D1.elem i j = D2.elem i j) ∧
    (∃ D1 D2, selectAssignKernelOptimized 4 (constantTarget 7 true) scenarioLeft
        scenarioRight = .ok D1 ∧
      selectAssignKernelOptimized 4 (constantTarget 0 false) scenarioLeft
        scenarioRight = .ok D2 ∧
      ∀ i j, i < scenarioLeft.rows → j < scenarioRight.columns →
        D1.elem i j = D2.elem i j) :=
  C9_overwrite_ignores_prior_contents 4 (constantTarget 7 true) (constantTarget 0 false)
    scenarioLeft scenarioRight scenarioRight_wellFormed (by decide) rfl rfl rfl rfl
    (not_strictlyUpperAndLower_of_unflagged _ rfl) (scenario_enoughFuel 4 (by decide))

/-- C10: the multiplication operator ends in the invalid-argument fault exactly when
`lhs.columns() != rhs.rows()` and in no other fault; otherwise it returns the node over
exactly the two operands, so that every node it returns has
`lhs_.columns() == rhs_.rows()`. -/
theorem C10_operatorMul_checks_inner_dimension (lhs : DenseMatrix) (rhs : SparseMatrix) :
    (operatorMul lhs rhs = .error .invalidArgument ↔ lhs.columns ≠ rhs.rows) ∧
    (∀ err, operatorMul lhs rhs = .error err → err = .invalidArgument) ∧
    (lhs.columns = rhs.rows → operatorMul lhs rhs = .ok ⟨lhs, rhs⟩) ∧
    (∀ node, operatorMul lhs rhs = .ok node →
      node.lhs_.columns = lhs.columns ∧ node.rhs_.rows = rhs.rows ∧
      node.lhs_.columns = node.rhs_.rows) := by
  by_cases h : lhs.columns = rhs.rows
  · have hok : operatorMul lhs rhs = .ok ⟨lhs, rhs⟩ := by
      unfold operatorMul DMatTSMatMultExpr.construct internalAssert
      simp [h]
    refine ⟨?_, ?_, fun _ => hok, ?_⟩
    · rw [hok]
      constructor
      · intro he
        exact Except.noConfusion he
      · intro hne
        exact absurd h hne
    · intro err he
      rw [hok] at he
      exact Except.noConfusion he
    · intro node hn
      rw [hok] at hn
      injection hn with hn
      subst hn
      exact ⟨rfl, rfl, h⟩
  · have herr : operatorMul lhs rhs = .error .invalidArgument := by
      unfold operatorMul
      simp [h]
    refine ⟨?_, ?_, fun heq => absurd heq h, ?_⟩
    · rw [herr]
      exact ⟨fun _ => h, fun _ => rfl⟩
    · intro err he
      rw [herr] at he
      injection he with he
      exact he.symm
    · intro node hn
      rw [herr] at hn
      exact Except.noConfusion hn

/-! ## The expression node: lemmas and claims -/

theorem operatorMul_eq_ok {lhs : DenseMatrix} {rhs : SparseMatrix} {e : DMatTSMatMultExpr}
    (h : operatorMul lhs rhs = .ok e) :
    e.lhs_ = lhs ∧ e.rhs_ = rhs ∧ lhs.columns = rhs.rows := by
  unfold operatorMul at h
  by_cases hc : lhs.columns = rhs.rows
  · have hok : DMatTSMatMultExpr.construct lhs rhs = .ok ⟨lhs, rhs⟩ := by
      unfold DMatTSMatMultExpr.construct internalAssert
      simp [hc]
    rw [if_neg (not_not.2 hc), hok] at h
    injection h with h
    subst h
    exact ⟨rfl, rfl, hc⟩
  · rw [if_pos hc] at h
    exact Except.noConfusion h

/-- For indices inside the shape neither assertion of `operator()` fails and the branch
taken depends on the flags of the operands only. -/
theorem operatorCall_in_range (e : DMatTSMatMultExpr) (i j : Nat)
    (hi : i < e.rows) (hj : j < e.columns) :
    e.operatorCall i j = .ok
      (if e.lhs_.traits.isDiagonal then e.lhs_.elem i i * e.rhs_.get i j
       else if e.rhs_.traits.isDiagonal then e.lhs_.elem i j * e.rhs_.get j j
       else if e.lhs_.traits.isTriangular || e.rhs_.traits.isTriangular then
         (if e.accessBegin i j ≥ e.accessEnd i j then 0
          else subvectorProduct e.lhs_ e.rhs_ i j (e.accessBegin i j)
            (e.accessEnd i j - e.accessBegin i j))
       else rowTimesColumn e.lhs_ e.rhs_ i j) := by
  have hi' : i < e.lhs_.rows := hi
  have hj' : j < e.rhs_.columns := hj
  unfold DMatTSMatMultExpr.operatorCall internalAssert
  simp only [hi', hj', decide_True, if_true]
  split_ifs <;> rfl

/-- C11: the node's `rows()` is the number of rows of its left operand and its
`columns()` the number of columns of its right operand; for a node built by the
multiplication operator from `lhs` and `rhs` these are `lhs.rows()` and
`rhs.columns()`. -/
theorem C11_node_shape (lhs : DenseMatrix) (rhs : SparseMatrix) (e : DMatTSMatMultExpr)
    (h : operatorMul lhs rhs = .ok e) :
    e.rows = lhs.rows ∧ e.columns = rhs.columns ∧
      e.rows = e.lhs_.rows ∧ e.columns = e.rhs_.columns := by
  obtain ⟨h1, h2, _⟩ := operatorMul_eq_ok h
  unfold DMatTSMatMultExpr.rows DMatTSMatMultExpr.columns
  rw [h1, h2]
  exact ⟨rfl, rfl, rfl, rfl⟩

/-- Witness of C11 on the operands of the worked scenario (2x3 times 3x2). -/
theorem C11_witness :
    (⟨scenarioLeft, scenarioRight⟩ : DMatTSMatMultExpr).rows = 2 ∧
      (⟨scenarioLeft, scenarioRight⟩ : DMatTSMatMultExpr).columns = 2 :=
  have h := C11_node_shape scenarioLeft scenarioRight ⟨scenarioLeft, scenarioRight⟩ rfl
  ⟨h.1, h.2.1⟩

/-- C12: `at(i,j)` ends in the out-of-range fault exactly when `i >= rows()` or
`j >= columns()`; for indices inside the shape it is `operator()(i,j)`, which then
returns a value. -/
theorem C12_at_checks_bounds (e : DMatTSMatMultExpr) (i j : Nat) :
    (e.at_ i j = .error .outOfRange ↔ (e.rows ≤ i ∨ e.columns ≤ j)) ∧
    (i < e.rows → j < e.columns →
      e.at_ i j = e.operatorCall i j ∧ ∃ v, e.at_ i j = .ok v) := by
  have hin : i < e.rows → j < e.columns →
      e.at_ i j = e.operatorCall i j ∧ ∃ v, e.at_ i j = .ok v := by
    intro hi hj
    have hi' : ¬ i ≥ e.lhs_.rows := Nat.not_le.2 hi
    have hj' : ¬ j ≥ e.rhs_.columns := Nat.not_le.2 hj
    have hat : e.at_ i j = e.operatorCall i j := by
      unfold DMatTSMatMultExpr.at_
      rw [if_neg hi', if_neg hj']
    exact ⟨hat, _, hat.trans (operatorCall_in_range e i j hi hj)⟩
  refine ⟨⟨?_, ?_⟩, hin⟩
  · intro herr
    by_contra hnot
    have hi : i < e.rows := by omega
    have hj : j < e.columns := by omega
    obtain ⟨_, v, hv⟩ := hin hi hj
    rw [hv] at herr
    exact Except.noConfusion herr
  · intro hout
    unfold DMatTSMatMultExpr.at_
    by_cases hi : i ≥ e.lhs_.rows
    · rw [if_pos hi]
    · rw [if_neg hi]
      have hj : j ≥ e.rhs_.columns := by
        rcases hout with h | h
        · exact absurd h hi
        · exact h
      rw [if_pos hj]

theorem upperLeft_traitsSound : upperLeft.TraitsSound := by
  refine ⟨?_, ?_, ?_, ?_⟩
  · intro _ x p hx hp hlt
    have hx' : x < 2 := hx
    have h1 : x = 1 := by omega
    have h0 : p = 0 := by omega
    subst h1
    subst h0
    rfl
  · intro _ h
    exact Bool.noConfusion h
  · intro h
    exact Bool.noConfusion h
  · intro h
    exact Bool.noConfusion h

theorem lowerRight_traitsSound : lowerRight.TraitsSound := by
  refine ⟨?_, ?_, ?_, ?_⟩
  · intro _ p j hp hj hlt
    have hj' : j < 2 := hj
    have h1 : j = 1 := by omega
    have h0 : p = 0 := by omega
    subst h1
    subst h0
    rfl
  · intro _ h
    exact Bool.noConfusion h
  · intro h
    exact Bool.noConfusion h
  · intro h
    exact Bool.noConfusion h

theorem diagonalLeft_isDiagonalMatrix : diagonalLeft.IsDiagonalMatrix := by
  refine ⟨rfl, ?_⟩
  intro x p hx hp hne
  have hx' : x < 2 := hx
  have hp' : p < 2 := hp
  interval_cases x <;> interval_cases p <;> first | exact absurd rfl hne | rfl

theorem diagonalRight_isDiagonalMatrix : diagonalRight.IsDiagonalMatrix := by
  refine ⟨rfl, ?_⟩
  intro p j hp hj hne
  have hp' : p < 2 := hp
  have hj' : j < 2 := hj
  interval_cases p <;> interval_cases j <;> first | exact absurd rfl hne | rfl

theorem isTriangular_eq_false {t : Traits} (h : t.isTriangular = false) :
    t.isLower = false ∧ t.isUpper = false := by
  unfold Traits.isTriangular at h
  exact Bool.or_eq_false_iff.1 h

/-- C13: for a node whose operands carry no diagonal and no triangular flag and indices
inside the shape, `operator()(i,j)` returns the full dot product, the sum over
`p < lhs_.columns()` of `lhs_(i,p) * rhs_(p,j)`; for a well-formed right operand with
`lhs_.columns() == rhs_.rows()` this is cell `(i,j)` of the matrix the default overwrite
kernel produces. -/
theorem C13_unstructured_access_is_dot_product (fuel : Nat) (C : DenseMatrix)
    (e : DMatTSMatMultExpr) (i j : Nat) (hi : i < e.rows) (hj : j < e.columns)
    (hdl : e.lhs_.traits.isDiagonal = false) (hdr : e.rhs_.traits.isDiagonal = false)
    (htl : e.lhs_.traits.isTriangular = false) (htr : e.rhs_.traits.isTriangular = false)
    (hwf : e.rhs_.WellFormed) (hshape : e.lhs_.columns = e.rhs_.rows)
    (hfuel : EnoughFuel fuel e.lhs_ e.rhs_) :
    e.operatorCall i j =
        .ok (∑ p in Finset.range e.lhs_.columns, e.lhs_.elem i p * e.rhs_.get p j) ∧
      ∃ D, selectAssignKernelDefault fuel C e.lhs_ e.rhs_ = .ok D ∧
        e.operatorCall i j = .ok (D.elem i j) := by
  have hcall : e.operatorCall i j =
      .ok (∑ p in Finset.range e.lhs_.columns, e.lhs_.elem i p * e.rhs_.get p j) := by
    rw [operatorCall_in_range e i j hi hj, hdl, hdr, htl, htr]
    rfl
  obtain ⟨hL, hU⟩ := isTriangular_eq_false htl
  have hflags := not_strictlyUpperAndLower_of_unflagged e.lhs_ hU
  obtain ⟨D, hD, hact⟩ := selectAssignKernelDefault_spec fuel C e.lhs_ e.rhs_
    (cursorsOrdered_of_flags e.lhs_ e.rhs_ hflags) hfuel
  refine ⟨hcall, D, hD, ?_⟩
  rw [hcall, hact.1 i j ⟨hi, hj⟩]
  beta_reduce
  rw [kernelSum_eq_refProduct e.lhs_ e.rhs_ hwf hshape (traitsSound_of_unflagged e.lhs_ hU hL)
    hflags i j hi hj]
  rfl

/-- Witness of C13 on the worked scenario, cell `(1,0)`. -/
theorem C13_witness :
    (⟨scenarioLeft, scenarioRight⟩ : DMatTSMatMultExpr).operatorCall 1 0 =
        .ok (∑ p in Finset.range scenarioLeft.columns,
          scenarioLeft.elem 1 p * scenarioRight.get p 0) ∧
      ∃ D, selectAssignKernelDefault 4 (constantTarget 7 true) scenarioLeft scenarioRight =
          .ok D ∧
        (⟨scenarioLeft, scenarioRight⟩ : DMatTSMatMultExpr).operatorCall 1 0 =
          .ok (D.elem 1 0) :=
  C13_unstructured_access_is_dot_product 4 (constantTarget 7 true)
    ⟨scenarioLeft, scenarioRight⟩ 1 0 (by decide) (by decide) rfl rfl rfl rfl
    scenarioRight_wellFormed rfl (scenario_enoughFuel 4 (by decide))

/-- C14: when the left operand is flagged diagonal, `operator()(i,j)` returns
`lhs_(i,i) * rhs_(i,j)` whatever the other flags of the operands are; when the left
operand is a square matrix with all off-diagonal entries zero this is the full dot
product, the sum over `p` of `lhs_(i,p) * rhs_(p,j)`. -/
theorem C14_left_diagonal_access (e : DMatTSMatMultExpr) (i j : Nat)
    (hi : i < e.rows) (hj : j < e.columns) (hdiag : e.lhs_.traits.isDiagonal = true) :
    e.operatorCall i j = .ok (e.lhs_.elem i i * e.rhs_.get i j) ∧
      (e.lhs_.IsDiagonalMatrix →
        e.lhs_.elem i i * e.rhs_.get i j = refProduct e.lhs_ e.rhs_ i j) := by
  constructor
  · rw [operatorCall_in_range e i j hi hj, hdiag]
    rfl
  · intro hD
    have hi' : i < e.lhs_.rows := hi
    unfold refProduct
    rw [Finset.sum_eq_single i]
    · intro p hp hne
      rw [hD.2 i p hi' (Finset.mem_range.1 hp) (fun h => hne h.symm), zero_mul]
    · intro hni
      exact absurd (Finset.mem_range.2 (by rw [← hD.1]; exact hi')) hni

/-- Witness of C14: the diagonal left operand `[[2,0],[0,3]]` and the right operand
`[[1,2],[3,4]]`, cell `(1,0)`. -/
theorem C14_witness :
    (⟨diagonalLeft, generalRight⟩ : DMatTSMatMultExpr).operatorCall 1 0 =
        .ok (diagonalLeft.elem 1 1 * generalRight.get 1 0) ∧
      diagonalLeft.elem 1 1 * generalRight.get 1 0 =
        refProduct diagonalLeft generalRight 1 0 :=
  have h := C14_left_diagonal_access ⟨diagonalLeft, generalRight⟩ 1 0 (by decide)
    (by decide) rfl
  ⟨h.1, h.2 diagonalLeft_isDiagonalMatrix⟩

/-- C15: when the left operand is not flagged diagonal and the right operand is,
`operator()(i,j)` returns `lhs_(i,j) * rhs_(j,j)`; when the right operand is a square
matrix with all off-diagonal entries zero and `lhs_.columns() == rhs_.rows()` this is
the full dot product, the sum over `p` of `lhs_(i,p) * rhs_(p,j)`. -/
theorem C15_right_diagonal_access (e : DMatTSMatMultExpr) (i j : Nat)
    (hi : i < e.rows) (hj : j < e.columns) (hdl : e.lhs_.traits.isDiagonal = false)
    (hdr : e.rhs_.traits.isDiagonal = true) :
    e.operatorCall i j = .ok (e.lhs_.elem i j * e.rhs_.get j j) ∧
      (e.rhs_.IsDiagonalMatrix → e.lhs_.columns = e.rhs_.rows →
        e.lhs_.elem i j * e.rhs_.get j j = refProduct e.lhs_ e.rhs_ i j) := by
  constructor
  · rw [operatorCall_in_range e i j hi hj, hdl, hdr]
    rfl
  · intro hD hshape
    have hj' : j < e.rhs_.columns := hj
    unfold refProduct
    rw [Finset.sum_eq_single j]
    · intro p hp hne
      have hp' : p < e.rhs_.rows := by rw [← hshape]; exact Finset.mem_range.1 hp
      rw [hD.2 p j hp' hj' hne, mul_zero]
    · intro hnj
      exact absurd (Finset.mem_range.2 (by rw [hshape, hD.1]; exact hj')) hnj

/-- Witness of C15: the left operand `[[1,2],[3,4]]` and the diagonal right operand
`[[5,0],[0,7]]`, cell `(1,0)`. -/
theorem C15_witness :
    (⟨generalLeft, diagonalRight⟩ : DMatTSMatMultExpr).operatorCall 1 0 =
        .ok (generalLeft.elem 1 0 * diagonalRight.get 0 0) ∧
      generalLeft.elem 1 0 * diagonalRight.get 0 0 =
        refProduct generalLeft diagonalRight 1 0 :=
  have h := C15_right_diagonal_access ⟨generalLeft, diagonalRight⟩ 1 0 (by decide)
    (by decide) rfl rfl
  ⟨h.1, h.2 diagonalRight_isDiagonalMatrix rfl⟩

theorem sum_range_restrict (f : Nat → Int) (b e k : Nat) (hbe : b ≤ e) (hek : e ≤ k)
    (hz1 : ∀ p, p < b → f p = 0) (hz2 : ∀ p, e ≤ p → p < k → f p = 0) :
    ∑ p in Finset.range k, f p = ∑ q in Finset.range (e - b), f (b + q) := by
  have hk : ∑ p in Finset.range k, f p = ∑ p in Finset.Ico 0 k, f p := by
    rw [Finset.range_eq_Ico]
  have h1 : ∑ p in Finset.Ico 0 b, f p = 0 :=
    Finset.sum_eq_zero (fun p hp => hz1 p (Finset.mem_Ico.1 hp).2)
  have h2 : ∑ p in Finset.Ico e k, f p = 0 :=
    Finset.sum_eq_zero (fun p hp => hz2 p (Finset.mem_Ico.1 hp).1 (Finset.mem_Ico.1 hp).2)
  rw [hk, ← Finset.sum_Ico_consecutive f (Nat.zero_le b) (hbe.trans hek),
    ← Finset.sum_Ico_consecutive f hbe hek, h1, h2, Finset.sum_Ico_eq_sum_range f b e]
  ring

/-- Below the local `begin` of the triangular branch every term of the dot product
vanishes, for operands whose entries agree with their flags. -/
theorem zero_before_accessBegin (e : DMatTSMatMultExpr) (i j p : Nat)
    (hsoundL : e.lhs_.TraitsSound) (hsoundR : e.rhs_.TraitsSound)
    (hi : i < e.lhs_.rows) (hj : j < e.rhs_.columns) (hshape : e.lhs_.columns = e.rhs_.rows)
    (hp : p < e.lhs_.columns) (h : p < e.accessBegin i j) :
    e.lhs_.elem i p * e.rhs_.get p j = 0 := by
  have hp' : p < e.rhs_.rows := by rw [← hshape]; exact hp
  have left : e.lhs_.traits.isUpper = true →
      p < (if e.lhs_.traits.isStrictlyUpper = true then i + 1 else i) →
      e.lhs_.elem i p * e.rhs_.get p j = 0 := by
    intro hU hlt
    have hz : e.lhs_.elem i p = 0 := by
      by_cases hS : e.lhs_.traits.isStrictlyUpper = true
      · rw [if_pos hS] at hlt
        by_cases heq : p = i
        · rw [heq]
          exact hsoundL.2.1 hU hS i hi (by omega)
        · exact hsoundL.1 hU i p hi hp (by omega)
      · rw [if_neg hS] at hlt
        exact hsoundL.1 hU i p hi hp hlt
    rw [hz, zero_mul]
  have right : e.rhs_.traits.isLower = true →
      p < (if e.rhs_.traits.isStrictlyLower = true then j + 1 else j) →
      e.lhs_.elem i p * e.rhs_.get p j = 0 := by
    intro hL hlt
    have hz : e.rhs_.get p j = 0 := by
      by_cases hS : e.rhs_.traits.isStrictlyLower = true
      · rw [if_pos hS] at hlt
        by_cases heq : p = j
        · rw [heq]
          exact hsoundR.2.1 hL hS j (by omega) hj
        · exact hsoundR.1 hL p j hp' hj (by omega)
      · rw [if_neg hS] at hlt
        exact hsoundR.1 hL p j hp' hj hlt
    rw [hz, mul_zero]
  unfold DMatTSMatMultExpr.accessBegin at h
  by_cases hU : e.lhs_.traits.isUpper = true
  · rw [if_pos hU] at h
    by_cases hL : e.rhs_.traits.isLower = true
    · rw [if_pos hL] at h
      rcases lt_max_iff.1 h with h1 | h2
      · exact left hU h1
      · exact right hL h2
    · rw [if_neg hL] at h
      exact left hU h
  · rw [if_neg hU] at h
    by_cases hL : e.rhs_.traits.isLower = true
    · rw [if_pos hL] at h
      exact right hL h
    · rw [if_neg hL] at h
      omega

/-- From the local `end` of the triangular branch on every term of the dot product
vanishes, for operands whose entries agree with their flags. -/
theorem zero_after_accessEnd (e : DMatTSMatMultExpr) (i j p : Nat)
    (hsoundL : e.lhs_.TraitsSound) (hsoundR : e.rhs_.TraitsSound)
    (hi : i < e.lhs_.rows) (hj : j < e.rhs_.columns) (hshape : e.lhs_.columns = e.rhs_.rows)
    (hp : p < e.lhs_.columns) (h : e.accessEnd i j ≤ p) :
    e.lhs_.elem i p * e.rhs_.get p j = 0 := by
  have hp' : p < e.rhs_.rows := by rw [← hshape]; exact hp
  have left : e.lhs_.traits.isLower = true →
      (if e.lhs_.traits.isStrictlyLower = true then i else i + 1) ≤ p →
      e.lhs_.elem i p * e.rhs_.get p j = 0 := by
    intro hL hle
    have hz : e.lhs_.elem i p = 0 := by
      by_cases hS : e.lhs_.traits.isStrictlyLower = true
      · rw [if_pos hS] at hle
        by_cases heq : p = i
        · rw [heq]
          exact hsoundL.2.2.2 hL hS i hi (by omega)
        · exact hsoundL.2.2.1 hL i p hi hp (by omega)
      · rw [if_neg hS] at hle
        exact hsoundL.2.2.1 hL i p hi hp (by omega)
    rw [hz, zero_mul]
  have right : e.rhs_.traits.isUpper = true →
      (if e.rhs_.traits.isStrictlyUpper = true then j else j + 1) ≤ p →
      e.lhs_.elem i p * e.rhs_.get p j = 0 := by
    intro hU hle
    have hz : e.rhs_.get p j = 0 := by
      by_cases hS : e.rhs_.traits.isStrictlyUpper = true
      · rw [if_pos hS] at hle
        by_cases heq : p = j
        · rw [heq]
          exact hsoundR.2.2.2 hU hS j (by omega) hj
        · exact hsoundR.2.2.1 hU p j hp' hj (by omega)
      · rw [if_neg hS] at hle
        exact hsoundR.2.2.1 hU p j hp' hj (by omega)
    rw [hz, mul_zero]
  unfold DMatTSMatMultExpr.accessEnd at h
  by_cases hL : e.lhs_.traits.isLower = true
  · rw [if_pos hL] at h
    by_cases hU : e.rhs_.traits.isUpper = true
    · rw [if_pos hU] at h
      rcases min_le_iff.1 h with h1 | h2
      · exact left hL h1
      · exact right hU h2
    · rw [if_neg hU] at h
      exact left hL h
  · rw [if_neg hL] at h
    by_cases hU : e.rhs_.traits.isUpper = true
    · rw [if_pos hU] at h
      exact right hU h
    · rw [if_neg hU] at h
      omega

/-- The local `end` of the triangular branch does not exceed `lhs_.columns()` when a
lower left operand and an upper right operand are square. -/
theorem accessEnd_le_columns (e : DMatTSMatMultExpr) (i j : Nat)
    (hi : i < e.lhs_.rows) (hj : j < e.rhs_.columns) (hshape : e.lhs_.columns = e.rhs_.rows)
    (hsqL : e.lhs_.traits.isLower = true → e.lhs_.rows = e.lhs_.columns)
    (hsqR : e.rhs_.traits.isUpper = true → e.rhs_.rows = e.rhs_.columns) :
    e.accessEnd i j ≤ e.lhs_.columns := by
  unfold DMatTSMatMultExpr.accessEnd
  by_cases hL : e.lhs_.traits.isLower = true
  · have := hsqL hL
    rw [if_pos hL]
    by_cases hU : e.rhs_.traits.isUpper = true
    · rw [if_pos hU]
      refine le_trans (min_le_left _ _) ?_
      split <;> omega
    · rw [if_neg hU]
      split <;> omega
  · rw [if_neg hL]
    by_cases hU : e.rhs_.traits.isUpper = true
    · have := hsqR hU
      rw [if_pos hU]
      split <;> omega
    · rw [if_neg hU]

/-- C16: for a node with neither operand flagged diagonal and at least one flagged
triangular, whatever the combination of upper, strictly upper, lower and strictly lower
flags, operands whose entries agree with their flags (a lower left operand and an upper
right operand being square) and indices inside the shape, `operator()(i,j)` returns the
full dot product, the sum over `p < lhs_.columns()` of `lhs_(i,p) * rhs_(p,j)`: for
`begin < end` it is the dot product restricted to `[begin, end)`, and for `begin >= end`
it is the additive identity, which is then the value of the full dot product. -/
theorem C16_triangular_access_is_dot_product (e : DMatTSMatMultExpr) (i j : Nat)
    (hi : i < e.rows) (hj : j < e.columns)
    (hdl : e.lhs_.traits.isDiagonal = false) (hdr : e.rhs_.traits.isDiagonal = false)
    (htri : (e.lhs_.traits.isTriangular || e.rhs_.traits.isTriangular) = true)
    (hshape : e.lhs_.columns = e.rhs_.rows)
    (hsoundL : e.lhs_.TraitsSound) (hsoundR : e.rhs_.TraitsSound)
    (hsqL : e.lhs_.traits.isLower = true → e.lhs_.rows = e.lhs_.columns)
    (hsqR : e.rhs_.traits.isUpper = true → e.rhs_.rows = e.rhs_.columns) :
    e.operatorCall i j = .ok (refProduct e.lhs_ e.rhs_ i j) ∧
    (e.accessBegin i j < e.accessEnd i j →
      e.operatorCall i j = .ok (subvectorProduct e.lhs_ e.rhs_ i j (e.accessBegin i j)
        (e.accessEnd i j - e.accessBegin i j))) ∧
    (e.accessEnd i j ≤ e.accessBegin i j →
      e.operatorCall i j = .ok 0 ∧ refProduct e.lhs_ e.rhs_ i j = 0) := by
  have hi' : i < e.lhs_.rows := hi
  have hj' : j < e.rhs_.columns := hj
  have hcall : e.operatorCall i j = .ok
      (if e.accessBegin i j ≥ e.accessEnd i j then 0
       else subvectorProduct e.lhs_ e.rhs_ i j (e.accessBegin i j)
         (e.accessEnd i j - e.accessBegin i j)) := by
    rw [operatorCall_in_range e i j hi hj, hdl, hdr, htri]
    rfl
  have hempty : e.accessEnd i j ≤ e.accessBegin i j → refProduct e.lhs_ e.rhs_ i j = 0 := by
    intro hle
    unfold refProduct
    refine Finset.sum_eq_zero ?_
    intro p hp
    have hp' : p < e.lhs_.columns := Finset.mem_range.1 hp
    by_cases hlt : p < e.accessBegin i j
    · exact zero_before_accessBegin e i j p hsoundL hsoundR hi' hj' hshape hp' hlt
    · exact zero_after_accessEnd e i j p hsoundL hsoundR hi' hj' hshape hp' (by omega)
  have hrange : e.accessBegin i j < e.accessEnd i j →
      subvectorProduct e.lhs_ e.rhs_ i j (e.accessBegin i j)
        (e.accessEnd i j - e.accessBegin i j) = refProduct e.lhs_ e.rhs_ i j := by
    intro hlt
    unfold refProduct subvectorProduct
    exact (sum_range_restrict (fun p => e.lhs_.elem i p * e.rhs_.get p j)
      (e.accessBegin i j) (e.accessEnd i j) e.lhs_.columns (Nat.le_of_lt hlt)
      (accessEnd_le_columns e i j hi' hj' hshape hsqL hsqR)
      (fun p hp => zero_before_accessBegin e i j p hsoundL hsoundR hi' hj' hshape
        (by have := accessEnd_le_columns e i j hi' hj' hshape hsqL hsqR; omega) hp)
      (fun p hge hp => zero_after_accessEnd e i j p hsoundL hsoundR hi' hj' hshape hp
        hge)).symm
  refine ⟨?_, ?_, ?_⟩
  · rw [hcall]
    by_cases hge : e.accessBegin i j ≥ e.accessEnd i j
    · rw [if_pos hge, hempty hge]
    · rw [if_neg hge, hrange (by omega)]
  · intro hlt
    rw [hcall, if_neg (by omega)]
  · intro hle
    refine ⟨?_, hempty hle⟩
    rw [hcall, if_pos hle]

/-- Witness of C16: the upper left operand `[[1,2],[0,3]]` and the lower right operand
`[[1,0],[4,5]]`, cell `(1,0)`, whose range `[1, 2)` holds the single term `3 * 4`. -/
theorem C16_witness :
    (⟨upperLeft, lowerRight⟩ : DMatTSMatMultExpr).operatorCall 1 0 =
      .ok (refProduct upperLeft lowerRight 1 0) ∧
    refProduct upperLeft lowerRight 1 0 = 12 :=
  ⟨(C16_triangular_access_is_dot_product ⟨upperLeft, lowerRight⟩ 1 0 (by decide)
    (by decide) rfl rfl rfl rfl upperLeft_traitsSound lowerRight_traitsSound
    (fun h => Bool.noConfusion h) (fun h => Bool.noConfusion h)).1, by decide⟩

/-- C17, as the code has it: for every node, whatever its operands and their flags,
`canSMPAssign()` returns true exactly when `rows()` exceeds the threshold, and two nodes
with the same number of rows give the same answer; it is the conjunction with the
compilation flag `smpAssignable` that holds exactly when both operands are
SMP-assignable, evaluation is required for neither and `rows()` exceeds the
threshold. -/
theorem C17_canSMPAssign_with_static_flag (e : DMatTSMatMultExpr) (threshold : Nat) :
    (∀ t, e.canSMPAssign t = true ↔ t < e.rows) ∧
    (∀ e2 : DMatTSMatMultExpr, e2.rows = e.rows →
      e2.canSMPAssign threshold = e.canSMPAssign threshold) ∧
    ((e.smpAssignable = true ∧ e.canSMPAssign threshold = true) ↔
      (e.lhs_.traits.smpAssignable = true ∧ e.rhs_.traits.smpAssignable = true ∧
        e.evaluateLeft = false ∧ e.evaluateRight = false ∧ threshold < e.rows)) := by
  have hiff : ∀ t, e.canSMPAssign t = true ↔ t < e.rows := by
    intro t
    unfold DMatTSMatMultExpr.canSMPAssign
    exact decide_eq_true_iff
  refine ⟨hiff, ?_, ?_⟩
  · intro e2 h
    unfold DMatTSMatMultExpr.canSMPAssign
    rw [h]
  · rw [hiff threshold]
    unfold DMatTSMatMultExpr.smpAssignable
    simp only [Bool.and_eq_true, Bool.not_eq_true']
    constructor
    · rintro ⟨⟨⟨⟨h1, h2⟩, h3⟩, h4⟩, h5⟩
      exact ⟨h2, h4, h1, h3, h5⟩
    · rintro ⟨h2, h4, h1, h3, h5⟩
      exact ⟨⟨⟨⟨h1, h2⟩, h3⟩, h4⟩, h5⟩

/-- Witness of C17 on the node of the worked scenario with threshold one, where the
flag and `canSMPAssign()` both hold. -/
theorem C17_witness :
    ((∀ t, (⟨scenarioLeft, scenarioRight⟩ : DMatTSMatMultExpr).canSMPAssign t = true ↔
      t < (⟨scenarioLeft, scenarioRight⟩ : DMatTSMatMultExpr).rows) ∧
    (∀ e2 : DMatTSMatMultExpr,
      e2.rows = (⟨scenarioLeft, scenarioRight⟩ : DMatTSMatMultExpr).rows →
      e2.canSMPAssign 1 =
        (⟨scenarioLeft, scenarioRight⟩ : DMatTSMatMultExpr).canSMPAssign 1) ∧
    (((⟨scenarioLeft, scenarioRight⟩ : DMatTSMatMultExpr).smpAssignable = true ∧
      (⟨scenarioLeft, scenarioRight⟩ : DMatTSMatMultExpr).canSMPAssign 1 = true) ↔
      (scenarioLeft.traits.smpAssignable = true ∧
        scenarioRight.traits.smpAssignable = true ∧
        (⟨scenarioLeft, scenarioRight⟩ : DMatTSMatMultExpr).evaluateLeft = false ∧
        (⟨scenarioLeft, scenarioRight⟩ : DMatTSMatMultExpr).evaluateRight = false ∧
        1 < (⟨scenarioLeft, scenarioRight⟩ : DMatTSMatMultExpr).rows))) ∧
    (⟨scenarioLeft, scenarioRight⟩ : DMatTSMatMultExpr).smpAssignable = true ∧
    (⟨scenarioLeft, scenarioRight⟩ : DMatTSMatMultExpr).canSMPAssign 1 = true :=
  ⟨C17_canSMPAssign_with_static_flag ⟨scenarioLeft, scenarioRight⟩ 1, rfl, rfl⟩

/-- Counterexample to C17 as stated: for a node with two rows whose left operand is a
pending computation that is not SMP-assignable, `canSMPAssign()` is true with threshold
one although evaluation is required and the left operand is not parallel-safe. -/
theorem C17_counterexample :
    ¬ (computationLeftNode.canSMPAssign 1 = true →
      (computationLeftNode.lhs_.traits.smpAssignable = true ∧
        computationLeftNode.rhs_.traits.smpAssignable = true ∧
        computationLeftNode.evaluateLeft = false ∧
        computationLeftNode.evaluateRight = false ∧
        1 < computationLeftNode.rows)) := by
  decide

/-- C18: for every node and every alias identity, `canAlias` and `isAliased` each
return true exactly when the left or the right operand is aliased with it; the two
members agree on every identity. -/
theorem C18_alias_queries (e : DMatTSMatMultExpr) (address : Nat) :
    (e.canAlias address = true ↔
      (e.lhs_.isAliased address = true ∨ e.rhs_.isAliased address = true)) ∧
    (e.isAliased address = true ↔
      (e.lhs_.isAliased address = true ∨ e.rhs_.isAliased address = true)) ∧
    e.canAlias address = e.isAliased address := by
  unfold DMatTSMatMultExpr.canAlias DMatTSMatMultExpr.isAliased
  exact ⟨Bool.or_eq_true _ _ ▸ Iff.rfl, Bool.or_eq_true _ _ ▸ Iff.rfl, rfl⟩

/-- C19, as the code has it: for `assign`, `addAssign` and `subAssign` to a dense
target the restructuring overload, which evaluates `trans( lhs_ ) * rhs_`, is selected
exactly when the left operand is flagged symmetric, and the kernel overload exactly when
it is not; the flags of the right operand and of the target play no part. -/
theorem C19_restructuring_selected_by_left_symmetry (e : DMatTSMatMultExpr)
    (target : Traits) :
    (e.assignPath target = .restructuring ↔ e.lhs_.traits.isSymmetric = true) ∧
    (e.assignPath target = .kernel ↔ e.lhs_.traits.isSymmetric = false) := by
  unfold DMatTSMatMultExpr.assignPath DMatTSMatMultExpr.canExploitSymmetry CanExploitSymmetry
  cases h : e.lhs_.traits.isSymmetric <;> simp

/-- Counterexample to C19 as stated: with the symmetric identity as right operand and a
left operand that is not symmetric the kernel overload is selected, and with a symmetric
left operand and a right operand that is not symmetric the restructuring overload is. -/
theorem C19_counterexample :
    (identityRight.traits.isSymmetric = true ∧
      (⟨shiftLeft, identityRight⟩ : DMatTSMatMultExpr).assignPath {} = .kernel) ∧
    (generalRight.traits.isSymmetric = false ∧
      (⟨symmetricLeft, generalRight⟩ : DMatTSMatMultExpr).assignPath {} =
        .restructuring) := by
  decide

/-- The transpose of a symmetric left operand gives the same reference product. -/
theorem refProduct_trans_of_symmetric (A : DenseMatrix) (B : SparseMatrix)
    (hsym : A.IsSymmetricMatrix) (i j : Nat) (hi : i < A.rows) :
    refProduct (trans A) B i j = refProduct A B i j := by
  unfold refProduct
  show ∑ p in Finset.range A.rows, A.elem p i * B.get p j =
    ∑ p in Finset.range A.columns, A.elem i p * B.get p j
  rw [hsym.1]
  refine Finset.sum_congr rfl ?_
  intro p hp
  rw [hsym.2 i p hi (Finset.mem_range.1 hp)]

theorem generalRight_wellFormed : generalRight.WellFormed := by
  intro j hj
  have hj' : j < 2 := hj
  interval_cases j <;> simp [generalRight]

theorem symmetricLeft_isSymmetricMatrix : symmetricLeft.IsSymmetricMatrix := by
  refine ⟨rfl, ?_⟩
  intro x p hx hp
  have hx' : x < 2 := hx
  have hp' : p < 2 := hp
  interval_cases x <;> interval_cases p <;> rfl

/-- C20, as the code has it: for a node whose left operand is symmetric (square and
equal to its transpose) the product `trans( lhs_ ) * rhs_` assigned by the restructuring
overload has the shape of `lhs_ * rhs_` and in every cell the value that the kernel
path, here the default overwrite kernel, computes for `lhs_ * rhs_`. -/
theorem C20_rewrite_preserves_product_for_symmetric_left (fuel : Nat) (C : DenseMatrix)
    (e : DMatTSMatMultExpr) (hsym : e.lhs_.IsSymmetricMatrix) (hwf : e.rhs_.WellFormed)
    (hshape : e.lhs_.columns = e.rhs_.rows) (hsound : e.lhs_.TraitsSound)
    (hflags : ¬ e.lhs_.StrictlyUpperAndLower) (hfuel : EnoughFuel fuel e.lhs_ e.rhs_) :
    (trans e.lhs_).rows = e.rows ∧ (trans e.lhs_).columns = e.rhs_.rows ∧
    ∃ D, selectAssignKernelDefault fuel C e.lhs_ e.rhs_ = .ok D ∧
      ∀ i j, i < e.rows → j < e.columns → restructuredProduct e i j = D.elem i j := by
  obtain ⟨D, hD, hact⟩ := selectAssignKernelDefault_spec fuel C e.lhs_ e.rhs_
    (cursorsOrdered_of_flags e.lhs_ e.rhs_ hflags) hfuel
  refine ⟨hsym.1.symm, ?_, D, hD, ?_⟩
  · show e.lhs_.rows = e.rhs_.rows
    rw [hsym.1, hshape]
  · intro i j hi hj
    rw [hact.1 i j ⟨hi, hj⟩]
    beta_reduce
    rw [kernelSum_eq_refProduct e.lhs_ e.rhs_ hwf hshape hsound hflags i j hi hj]
    exact refProduct_trans_of_symmetric e.lhs_ e.rhs_ hsym i j hi

/-- Witness of C20: the symmetric left operand `[[1,2],[2,1]]` and the right operand
`[[1,2],[3,4]]`. -/
theorem C20_witness :
    (trans symmetricLeft).rows = (⟨symmetricLeft, generalRight⟩ : DMatTSMatMultExpr).rows ∧
    (trans symmetricLeft).columns = generalRight.rows ∧
    ∃ D, selectAssignKernelDefault 4 (constantTarget 7 true) symmetricLeft generalRight =
        .ok D ∧
      ∀ i j, i < (⟨symmetricLeft, generalRight⟩ : DMatTSMatMultExpr).rows →
        j < (⟨symmetricLeft, generalRight⟩ : DMatTSMatMultExpr).columns →
        restructuredProduct ⟨symmetricLeft, generalRight⟩ i j = D.elem i j :=
  C20_rewrite_preserves_product_for_symmetric_left 4 (constantTarget 7 true)
    ⟨symmetricLeft, generalRight⟩ symmetricLeft_isSymmetricMatrix generalRight_wellFormed
    rfl (traitsSound_of_unflagged _ rfl rfl) (not_strictlyUpperAndLower_of_unflagged _ rfl)
    (WellFormed.enoughFuel generalRight_wellFormed symmetricLeft 4 (by decide) (by decide)
      (by decide))

/-- Counterexample to C20 as stated: the right operand is the identity, flagged
symmetric and equal to its transpose, the left operand is `[[0,1],[0,0]]`; cell `(0,1)`
of `trans( lhs_ ) * rhs_` is `0`, while the kernel path computes `1` for `lhs_ * rhs_`. -/
theorem C20_counterexample :
    identityRight.traits.isSymmetric = true ∧
    (identityRight.rows = identityRight.columns ∧
      ∀ p, p < 2 → ∀ j, j < 2 → identityRight.get p j = identityRight.get j p) ∧
    restructuredProduct ⟨shiftLeft, identityRight⟩ 0 1 = 0 ∧
    refProduct shiftLeft identityRight 0 1 = 1 ∧
    cellOf (selectAssignKernelDefault 4 (constantTarget 0 true) shiftLeft identityRight)
      0 1 = some 1 := by
  decide

/-! ## Selection of overloads and kernels: claims -/

/-- C21: for every node, every target type and each of `assign`, `addAssign` and
`subAssign` to a dense target exactly one of the two overloads is enabled: the
restructuring one exactly when `CanExploitSymmetry` holds and the kernel one exactly
when it does not; never both and never neither. -/
theorem C21_exactly_one_overload_enabled (e : DMatTSMatMultExpr) (op : AssignOp)
    (target : Traits) :
    (e.restructuringOverloadEnabled op target = true ↔ e.canExploitSymmetry target = true) ∧
    (e.kernelOverloadEnabled op target = true ↔ e.canExploitSymmetry target = false) ∧
    ¬ (e.restructuringOverloadEnabled op target = true ∧
      e.kernelOverloadEnabled op target = true) ∧
    (e.restructuringOverloadEnabled op target = true ∨
      e.kernelOverloadEnabled op target = true) := by
  unfold DMatTSMatMultExpr.restructuringOverloadEnabled
    DMatTSMatMultExpr.kernelOverloadEnabled DMatTSMatMultExpr.canExploitSymmetry
  cases op <;> cases CanExploitSymmetry target e.lhs_.traits e.rhs_.traits <;> simp

/-- C22, as the code has it: the optimized kernel is selected exactly when
`useOptimizedKernels` is on, the left operand is not diagonal and neither the element
type of the target nor that of the right operand is resizable; otherwise the default
kernel is selected. This holds for the overwrite, the addition and the subtraction
kernel alike. -/
theorem C22_optimized_kernel_selection (useOptimizedKernels : Bool) (fuel : Nat)
    (C A : DenseMatrix) (B : SparseMatrix) :
    (UseOptimizedKernel useOptimizedKernels C A B = true ↔
      useOptimizedKernels = true ∧ A.traits.isDiagonal = false ∧
        C.traits.isResizableElement = false ∧ B.traits.isResizableElement = false) ∧
    (UseOptimizedKernel useOptimizedKernels C A B = true →
      selectAssignKernel useOptimizedKernels fuel C A B =
        selectAssignKernelOptimized fuel C A B ∧
      selectAddAssignKernel useOptimizedKernels fuel C A B =
        selectAddAssignKernelOptimized fuel C A B ∧
      selectSubAssignKernel useOptimizedKernels fuel C A B =
        selectSubAssignKernelOptimized fuel C A B) ∧
    (UseOptimizedKernel useOptimizedKernels C A B = false →
      selectAssignKernel useOptimizedKernels fuel C A B =
        selectAssignKernelDefault fuel C A B ∧
      selectAddAssignKernel useOptimizedKernels fuel C A B =
        selectAddAssignKernelDefault fuel C A B ∧
      selectSubAssignKernel useOptimizedKernels fuel C A B =
        selectSubAssignKernelDefault fuel C A B) := by
  refine ⟨?_, ?_, ?_⟩
  · unfold UseOptimizedKernel
    cases useOptimizedKernels <;> cases A.traits.isDiagonal <;>
      cases C.traits.isResizableElement <;> cases B.traits.isResizableElement <;> simp
  · intro h
    unfold selectAssignKernel selectAddAssignKernel selectSubAssignKernel
    rw [h]
    exact ⟨rfl, rfl, rfl⟩
  · intro h
    unfold selectAssignKernel selectAddAssignKernel selectSubAssignKernel
    rw [h]
    exact ⟨rfl, rfl, rfl⟩

/-- Counterexample to C22 as stated: with `useOptimizedKernels` on, a right operand that
is not diagonal and no resizable element type, the left operand being diagonal, the
condition of the claim holds and yet the default kernel is selected. -/
theorem C22_counterexample :
    (generalRight.traits.isDiagonal = false ∧
      diagonalLeft.traits.isResizableElement = false ∧
      generalRight.traits.isResizableElement = false) ∧
    UseOptimizedKernel true (constantTarget 0 true) diagonalLeft generalRight = false ∧
    selectAssignKernel true 4 (constantTarget 0 true) diagonalLeft generalRight =
      selectAssignKernelDefault 4 (constantTarget 0 true) diagonalLeft generalRight :=
  ⟨⟨rfl, rfl, rfl⟩, rfl, rfl⟩

/-- C23: the left operand is evaluated into an owned temporary (`LT` is its result
type) exactly when its type is a computation or requires evaluation, the right operand
likewise (`RT`), and neither switch depends on the other operand. -/
theorem C23_evaluation_switches (e : DMatTSMatMultExpr) :
    (e.evaluateLeft = true ↔
      e.lhs_.traits.isComputation = true ∨ e.lhs_.traits.requiresEvaluation = true) ∧
    (e.evaluateRight = true ↔
      e.rhs_.traits.isComputation = true ∨ e.rhs_.traits.requiresEvaluation = true) ∧
    (e.LT = OperandStorage.resultType ↔ e.evaluateLeft = true) ∧
    (e.RT = OperandStorage.resultType ↔ e.evaluateRight = true) ∧
    (∀ rhs : SparseMatrix,
      (⟨e.lhs_, rhs⟩ : DMatTSMatMultExpr).evaluateLeft = e.evaluateLeft) ∧
    (∀ lhs : DenseMatrix,
      (⟨lhs, e.rhs_⟩ : DMatTSMatMultExpr).evaluateRight = e.evaluateRight) := by
  refine ⟨?_, ?_, ?_, ?_, fun _ => rfl, fun _ => rfl⟩
  · unfold DMatTSMatMultExpr.evaluateLeft
    simp
  · unfold DMatTSMatMultExpr.evaluateRight
    simp
  · unfold DMatTSMatMultExpr.LT
    cases e.evaluateLeft <;> simp
  · unfold DMatTSMatMultExpr.RT
    cases e.evaluateRight <;> simp

/-- C27: `canSMPAssign()` compares strictly: it is false when `rows()` equals the
threshold, true when `rows()` is the threshold plus one, and two nodes with the same
number of rows give the same answer. -/
theorem C27_canSMPAssign_is_strict (e : DMatTSMatMultExpr) (threshold : Nat) :
    (e.rows = threshold → e.canSMPAssign threshold = false) ∧
    (e.rows = threshold + 1 → e.canSMPAssign threshold = true) ∧
    (e.canSMPAssign threshold = true ↔ threshold < e.rows) ∧
    (∀ e2 : DMatTSMatMultExpr, e2.rows = e.rows →
      e2.canSMPAssign threshold = e.canSMPAssign threshold) := by
  unfold DMatTSMatMultExpr.canSMPAssign
  refine ⟨?_, ?_, ?_, ?_⟩
  · intro h
    simp [h]
  · intro h
    simp [h]
  · simp
  · intro e2 h
    rw [h]

/-- C28: the flag `smpAssignable` of the node is true exactly when neither operand is
evaluated into a temporary (neither type is a computation nor requires evaluation) and
the types of both operands are SMP-assignable. -/
theorem C28_smpAssignable_flag (e : DMatTSMatMultExpr) :
    (e.smpAssignable = true ↔
      e.evaluateLeft = false ∧ e.evaluateRight = false ∧
        e.lhs_.traits.smpAssignable = true ∧ e.rhs_.traits.smpAssignable = true) ∧
    (e.smpAssignable = true ↔
      (e.lhs_.traits.isComputation = false ∧ e.lhs_.traits.requiresEvaluation = false) ∧
      (e.rhs_.traits.isComputation = false ∧ e.rhs_.traits.requiresEvaluation = false) ∧
        e.lhs_.traits.smpAssignable = true ∧ e.rhs_.traits.smpAssignable = true) := by
  unfold DMatTSMatMultExpr.smpAssignable DMatTSMatMultExpr.evaluateLeft
    DMatTSMatMultExpr.evaluateRight
  constructor
  · cases e.lhs_.traits.isComputation <;> cases e.lhs_.traits.requiresEvaluation <;>
      cases e.rhs_.traits.isComputation <;> cases e.rhs_.traits.requiresEvaluation <;>
      cases e.lhs_.traits.smpAssignable <;> cases e.rhs_.traits.smpAssignable <;> simp
  · cases e.lhs_.traits.isComputation <;> cases e.lhs_.traits.requiresEvaluation <;>
      cases e.rhs_.traits.isComputation <;> cases e.rhs_.traits.requiresEvaluation <;>
      cases e.lhs_.traits.smpAssignable <;> cases e.rhs_.traits.smpAssignable <;> simp

/-- C29: `IsEvaluationRequired` is `(evaluateLeft or evaluateRight) and not
CanExploitSymmetry`; the evaluating SMP overloads of the three operations are enabled
exactly when it holds; it is never true together with `CanExploitSymmetry`, and when
`CanExploitSymmetry` holds the restructuring SMP overload is the enabled one whatever
the evaluation switches are. -/
theorem C29_evaluating_smp_overloads (e : DMatTSMatMultExpr) (op : AssignOp)
    (target : Traits) :
    (e.isEvaluationRequired target = true ↔
      (e.evaluateLeft = true ∨ e.evaluateRight = true) ∧
        e.canExploitSymmetry target = false) ∧
    (e.smpEvaluatingOverloadEnabled op target = true ↔
      e.isEvaluationRequired target = true) ∧
    ¬ (e.isEvaluationRequired target = true ∧ e.canExploitSymmetry target = true) ∧
    (e.canExploitSymmetry target = true →
      e.smpEvaluatingOverloadEnabled op target = false ∧
        e.smpRestructuringOverloadEnabled op target = true) := by
  unfold DMatTSMatMultExpr.smpEvaluatingOverloadEnabled
    DMatTSMatMultExpr.smpRestructuringOverloadEnabled
    DMatTSMatMultExpr.isEvaluationRequired DMatTSMatMultExpr.canExploitSymmetry
  cases op <;> cases CanExploitSymmetry target e.lhs_.traits e.rhs_.traits <;>
    cases e.evaluateLeft <;> cases e.evaluateRight <;> simp

/-- C30: the optimized overwrite kernel is the optimized addition kernel run on the
reset target; for a well-formed sparse operand both end without fault, and the result
agrees cell for cell of the target with the optimized addition kernel run on the target
whose every cell is the additive identity. -/
theorem C30_optimized_overwrite_is_reset_then_add (fuel : Nat) (C A : DenseMatrix)
    (B : SparseMatrix) (hwf : B.WellFormed) (hsize : B.rows < sizeT)
    (hflags : ¬ A.StrictlyUpperAndLower) (hfuel : EnoughFuel fuel A B) :
    selectAssignKernelOptimized fuel C A B =
      selectAddAssignKernelOptimized fuel (reset C) A B ∧
    ∃ D E, selectAssignKernelOptimized fuel C A B = .ok D ∧
      resetThenAddAssignOptimized fuel C A B = .ok E ∧
      ∀ i j, i < C.rows → j < C.columns → D.elem i j = E.elem i j := by
  refine ⟨rfl, ?_⟩
  have hsorted := WellFormed.sortedColumns hwf hsize
  have hord := cursorsOrdered_of_flags A B hflags
  obtain ⟨D, hD, hactD⟩ :=
    selectAddAssignKernelOptimized_spec fuel (reset C) A B hsorted hord hfuel
  obtain ⟨E, hE, hactE⟩ :=
    selectAddAssignKernelOptimized_spec fuel (zeroTarget C) A B hsorted hord hfuel
  refine ⟨D, E, hD, hE, ?_⟩
  intro i j hi hj
  have hr : (reset C).elem i j = 0 := by
    show (if i < C.rows ∧ j < C.columns then (0 : Int) else C.elem i j) = 0
    rw [if_pos ⟨hi, hj⟩]
  have hz : (zeroTarget C).elem i j = 0 := rfl
  by_cases hP : i < A.rows ∧ j < B.columns
  · rw [hactD.1 i j hP, hactE.1 i j hP]
    beta_reduce
    rw [hr, hz]
  · rw [hactD.2 i j hP, hactE.2 i j hP, hr, hz]

/-- Witness of C30 on the worked scenario, with a row-major target filled with
fives. -/
theorem C30_witness :
    selectAssignKernelOptimized 4 (constantTarget 5 true) scenarioLeft scenarioRight =
      selectAddAssignKernelOptimized 4 (reset (constantTarget 5 true)) scenarioLeft
        scenarioRight ∧
    ∃ D E, selectAssignKernelOptimized 4 (constantTarget 5 true) scenarioLeft
        scenarioRight = .ok D ∧
      resetThenAddAssignOptimized 4 (constantTarget 5 true) scenarioLeft
        scenarioRight = .ok E ∧
      ∀ i j, i < (constantTarget 5 true).rows → j < (constantTarget 5 true).columns →
        D.elem i j = E.elem i j :=
  C30_optimized_overwrite_is_reset_then_add 4 (constantTarget 5 true) scenarioLeft
    scenarioRight scenarioRight_wellFormed (by decide)
    (not_strictlyUpperAndLower_of_unflagged _ rfl) (scenario_enoughFuel 4 (by decide))

theorem lowerSix_traitsSound : lowerSix.TraitsSound := by
  refine ⟨?_, ?_, ?_, ?_⟩
  · intro h
    exact Bool.noConfusion h
  · intro h
    exact Bool.noConfusion h
  · intro _ x p _ _ hlt
    show (if p ≤ x then (x : Int) + (p : Int) + 1 else 0) = 0
    rw [if_neg (by omega)]
  · intro _ h
    exact Bool.noConfusion h

theorem sixRight_wellFormed : sixRight.WellFormed := by
  intro j hj
  have hj' : j < 2 := hj
  interval_cases j <;> simp [sixRight]

/-- C26: for a left operand whose entries agree with its flags (upper, strictly upper,
lower, strictly lower, or none) the default overwrite kernel, which walks only the
restricted cursor range of each row group, ends without fault and leaves the reference
product in every cell of the product shape; every stored entry of column `j` outside
the cursor range of a row group multiplies a zero of `A` in every row of that group. -/
theorem C26_restricted_range_is_reference_product (fuel : Nat) (C A : DenseMatrix)
    (B : SparseMatrix) (hwf : B.WellFormed) (hshape : A.columns = B.rows)
    (hsound : A.TraitsSound) (hflags : ¬ A.StrictlyUpperAndLower)
    (hfuel : EnoughFuel fuel A B) :
    (∃ D, selectAssignKernelDefault fuel C A B = .ok D ∧
      ∀ i j, i < A.rows → j < B.columns → D.elem i j = refProduct A B i j) ∧
    (∀ i r iend j x, IsRowGroup A.rows i r iend → j < B.columns → i ≤ x → x < i + r →
      ∀ p (hp : p < (B.column j).length),
        p < cursorBegin A B i j ∨ cursorEnd A B iend j ≤ p →
          A.elem x ((B.column j).get ⟨p, hp⟩).index = 0) := by
  constructor
  · obtain ⟨D, hD, hact⟩ := selectAssignKernelDefault_spec fuel C A B
      (cursorsOrdered_of_flags A B hflags) hfuel
    refine ⟨D, hD, ?_⟩
    intro i j hi hj
    rw [hact.1 i j ⟨hi, hj⟩]
    exact kernelSum_eq_refProduct A B hwf hshape hsound hflags i j hi hj
  · intro i r iend j x hg hj h1 h2 p hp hout
    have hx : x < A.rows := by
      rcases hg with ⟨hr, _, _, h⟩ | ⟨hr, _, _, h⟩ | ⟨hr, _, _, h⟩ <;> omega
    have hxe : x ≤ iend := by
      rcases hg with ⟨hr, he, _⟩ | ⟨hr, he, _⟩ | ⟨hr, he, _⟩ <;> omega
    rcases hout with hlt | hge
    · exact zero_before_cursorBegin A B hwf hshape hsound i x j hx hj h1 p hp hlt
    · exact zero_after_cursorEnd A B hwf hshape hsound iend x j hx hj hxe p hp hge

/-- Witness of C26 on a lower triangular 6x6 operand; for the group of the rows 0 to 3
the cursor range of column 0 ends before the entry of row 5. -/
theorem C26_witness :
    ((∃ D, selectAssignKernelDefault 7 (constantTarget 7 true) lowerSix sixRight = .ok D ∧
      ∀ i j, i < lowerSix.rows → j < sixRight.columns →
        D.elem i j = refProduct lowerSix sixRight i j) ∧
    (∀ i r iend j x, IsRowGroup lowerSix.rows i r iend → j < sixRight.columns → i ≤ x →
      x < i + r → ∀ p (hp : p < (sixRight.column j).length),
        p < cursorBegin lowerSix sixRight i j ∨ cursorEnd lowerSix sixRight iend j ≤ p →
          lowerSix.elem x ((sixRight.column j).get ⟨p, hp⟩).index = 0)) ∧
    cursorEnd lowerSix sixRight 4 0 = 2 ∧ (sixRight.column 0).length = 3 :=
  ⟨C26_restricted_range_is_reference_product 7 (constantTarget 7 true) lowerSix sixRight
    sixRight_wellFormed rfl lowerSix_traitsSound
    (fun h => Bool.noConfusion h.2.1)
    (WellFormed.enoughFuel sixRight_wellFormed lowerSix 7 (by decide) (by decide)
      (by decide)), by decide, by decide⟩

/-! ## The loop counters of the traversal: lemmas and claims -/

/-- A loop whose condition and increment depend on the counter alone runs its body once
for every recorded counter value, in order. -/
theorem whileLoop_trace {σ : Type} (cond : Nat → Bool) (step : Nat)
    (f : Nat → σ → Except Fault σ) (body : Nat × σ → Except Fault (Nat × σ))
    (hbody : ∀ t, body t = (f t.1 t.2).map (fun d2 => (t.1 + step, d2))) :
    ∀ (fuel k : Nat) (acc : List Nat) (s : Nat × List Nat) (d : σ),
      whileLoop (fun s : Nat × List Nat => cond s.1)
        (fun s => .ok (s.1 + step, s.2 ++ [s.1])) fuel (k, acc) = .ok s →
      ∃ new, s.2 = acc ++ new ∧
        whileLoop (fun t : Nat × σ => cond t.1) body fuel (k, d) =
          (new.foldlM (fun d k => f k d) d).map (fun d2 => (s.1, d2)) := by
  intro fuel
  induction fuel with
  | zero =>
    intro k acc s d h
    simp [whileLoop] at h
  | succ fuel ih =>
    intro k acc s d h
    unfold whileLoop at h ⊢
    by_cases hc : cond k = true
    · simp only [hc, if_true] at h ⊢
      rw [hbody (k, d)]
      cases hf : f k d with
      | error e =>
        obtain ⟨new, hnew, _⟩ := ih (k + step) (acc ++ [k]) s d h
        refine ⟨k :: new, by simp [hnew], ?_⟩
        rw [List.foldlM_cons, hf]
        rfl
      | ok d2 =>
        obtain ⟨new, hnew, hrun⟩ := ih (k + step) (acc ++ [k]) s d2 h
        refine ⟨k :: new, by simp [hnew], ?_⟩
        rw [List.foldlM_cons, hf]
        exact hrun
    · simp only [hc, Bool.false_eq_true, if_false] at h ⊢
      have hs : s = (k, acc) := by
        injection h with h
        exact h.symm
      subst hs
      exact ⟨[], by simp, rfl⟩

/-- The block loop records starts below `n` that are `block` apart and whose blocks
cover every column; with `n ≤ block` it records at most one start. -/
theorem traceLoop_block (block n fuel : Nat) (hb : n ≠ 0 → 0 < block) (hfuel : n < fuel) :
    ∃ s, traceLoop (fun jj => decide (jj < n)) block fuel 0 = .ok s ∧
      (∀ k ∈ s.2, k < n) ∧ s.2.Pairwise (fun a b => a + block ≤ b) ∧
      (∀ j, j < n → ∃ k ∈ s.2, k ≤ j ∧ j < k + block) ∧
      (n ≤ block → s.2.length ≤ 1) := by
  obtain ⟨s, hrun, hI, hc⟩ := whileLoop_spec
    (fun s : Nat × List Nat => decide (s.1 < n))
    (fun s => .ok (s.1 + block, s.2 ++ [s.1]))
    (fun s => (∀ k ∈ s.2, k < n ∧ k + block ≤ s.1) ∧
      s.2.Pairwise (fun a b => a + block ≤ b) ∧
      (∀ j, j < s.1 → j < n → ∃ k ∈ s.2, k ≤ j ∧ j < k + block) ∧
      (n ≤ block → (s.1 = 0 ∧ s.2 = []) ∨ (n ≤ s.1 ∧ s.2.length = 1)))
    (fun s => n - s.1)
    (by
      rintro ⟨jj, acc⟩ ⟨h1, h2, h3, h4⟩ hc
      have hjj : jj < n := by simpa using hc
      have hpos : 0 < block := hb (by omega)
      refine ⟨(jj + block, acc ++ [jj]), rfl, ⟨?_, ?_, ?_, ?_⟩, ?_⟩
      · intro k hk
        rcases List.mem_append.1 hk with hk | hk
        · have := h1 k hk
          show k < n ∧ k + block ≤ jj + block
          omega
        · have hk2 : k = jj := by simpa using hk
          subst hk2
          exact ⟨hjj, Nat.le_refl _⟩
      · show (acc ++ [jj]).Pairwise (fun a b => a + block ≤ b)
        rw [List.pairwise_append]
        refine ⟨h2, List.pairwise_singleton _ _, ?_⟩
        intro a ha b hb2
        have hb3 : b = jj := by simpa using hb2
        subst hb3
        exact (h1 a ha).2
      · intro j hj hjn
        show ∃ k ∈ acc ++ [jj], k ≤ j ∧ j < k + block
        have hj2 : j < jj + block := hj
        by_cases hlt : j < jj
        · obtain ⟨k, hk, hk1, hk2⟩ := h3 j hlt hjn
          exact ⟨k, List.mem_append.2 (Or.inl hk), hk1, hk2⟩
        · exact ⟨jj, List.mem_append.2 (Or.inr (List.mem_singleton.2 rfl)), by omega, hj2⟩
      · intro hnb
        rcases h4 hnb with ⟨h0, hnil⟩ | ⟨hge, _⟩
        · right
          have h0' : jj = 0 := h0
          have hnil' : acc = [] := hnil
          subst hnil'
          exact ⟨by show n ≤ jj + block; omega, rfl⟩
        · have hge' : n ≤ jj := hge
          omega
      · show n - (jj + block) < n - jj
        omega)
    fuel (0, []) ⟨by simp, List.Pairwise.nil, by
      intro j hj
      exact absurd hj (Nat.not_lt_zero _), fun _ => Or.inl ⟨rfl, rfl⟩⟩
    (by show n - 0 < fuel; omega)
  have hexit : n ≤ s.1 := by simpa using hc
  refine ⟨s, hrun, fun k hk => (hI.1 k hk).1, hI.2.1, ?_, ?_⟩
  · intro j hj
    exact hI.2.2.1 j (by omega) hj
  · intro hnb
    rcases hI.2.2.2 hnb with ⟨_, hnil⟩ | ⟨_, hlen⟩
    · rw [hnil]
      exact Nat.zero_le _
    · exact Nat.le_of_eq hlen

/-- The loop over groups of four rows records the multiples of four below
`4 * (m / 4)`. -/
theorem traceLoop_four (m fuel : Nat) (hfuel : m < fuel) :
    traceLoop (fun i => decide (i + 4 ≤ m)) 4 fuel 0 =
      .ok (4 * (m / 4), (List.range (m / 4)).map (fun q => 4 * q)) := by
  obtain ⟨s, hrun, hI, hc⟩ := whileLoop_spec
    (fun s : Nat × List Nat => decide (s.1 + 4 ≤ m))
    (fun s => .ok (s.1 + 4, s.2 ++ [s.1]))
    (fun s => s.1 % 4 = 0 ∧ s.1 ≤ m ∧ s.2 = (List.range (s.1 / 4)).map (fun q => 4 * q))
    (fun s => m - s.1)
    (by
      rintro ⟨i, acc⟩ ⟨h1, h2, h3⟩ hc
      have hi : i + 4 ≤ m := by simpa using hc
      have h1' : i % 4 = 0 := h1
      have h3' : acc = (List.range (i / 4)).map (fun q => 4 * q) := h3
      refine ⟨(i + 4, acc ++ [i]), rfl, ⟨?_, hi, ?_⟩, ?_⟩
      · show (i + 4) % 4 = 0
        omega
      · show acc ++ [i] = (List.range ((i + 4) / 4)).map (fun q => 4 * q)
        have hq : (i + 4) / 4 = i / 4 + 1 := by omega
        have hi4 : 4 * (i / 4) = i := by omega
        rw [hq, List.range_succ, List.map_append, ← h3', List.map_singleton, hi4]
      · show m - (i + 4) < m - i
        omega)
    fuel (0, []) ⟨rfl, Nat.zero_le _, rfl⟩ (by show m - 0 < fuel; omega)
  have hexit : ¬ s.1 + 4 ≤ m := by simpa using hc
  have h1 : s.1 = 4 * (m / 4) := by
    have := hI.1
    have := hI.2.1
    omega
  have h2 : s.1 / 4 = m / 4 := by omega
  unfold traceLoop
  rw [hrun]
  congr 1
  apply Prod.ext
  · exact h1
  · rw [hI.2.2, h2]

/-- The loop over groups of two rows records the start `4 * (m / 4)` exactly when
`m % 4 ≥ 2`. -/
theorem traceLoop_two (m fuel : Nat) (hfuel : m < fuel) :
    traceLoop (fun i => decide (i + 2 ≤ m)) 2 fuel (4 * (m / 4)) =
      .ok (2 * (m / 2), if 2 ≤ m % 4 then [4 * (m / 4)] else []) := by
  obtain ⟨s, hrun, hI, hc⟩ := whileLoop_spec
    (fun s : Nat × List Nat => decide (s.1 + 2 ≤ m))
    (fun s => .ok (s.1 + 2, s.2 ++ [s.1]))
    (fun s => (s.1 = 4 * (m / 4) ∧ s.2 = []) ∨
      (s.1 = 4 * (m / 4) + 2 ∧ 2 ≤ m % 4 ∧ s.2 = [4 * (m / 4)]))
    (fun s => m - s.1)
    (by
      rintro ⟨i, acc⟩ hI hc
      have hi : i + 2 ≤ m := by simpa using hc
      rcases hI with ⟨h1, h2⟩ | ⟨h1, _, _⟩
      · have h1' : i = 4 * (m / 4) := h1
        have h2' : acc = [] := h2
        subst h2'
        refine ⟨(i + 2, [] ++ [i]), rfl, Or.inr ⟨?_, ?_, ?_⟩, ?_⟩
        · show i + 2 = 4 * (m / 4) + 2
          omega
        · omega
        · show [] ++ [i] = [4 * (m / 4)]
          rw [h1']
          rfl
        · show m - (i + 2) < m - i
          omega
      · have h1' : i = 4 * (m / 4) + 2 := h1
        omega)
    fuel (4 * (m / 4), []) (Or.inl ⟨rfl, rfl⟩) (by show m - 4 * (m / 4) < fuel; omega)
  have hexit : ¬ s.1 + 2 ≤ m := by simpa using hc
  unfold traceLoop
  rw [hrun]
  congr 1
  rcases hI with ⟨h1, h2⟩ | ⟨h1, h3, h2⟩
  · have hlt : ¬ 2 ≤ m % 4 := by omega
    rw [if_neg hlt]
    apply Prod.ext
    · show s.1 = 2 * (m / 2)
      omega
    · exact h2
  · rw [if_pos h3]
    apply Prod.ext
    · show s.1 = 2 * (m / 2)
      omega
    · exact h2

/-- The loop over single rows records the row `m - 1` exactly when `m` is odd. -/
theorem traceLoop_one (m fuel : Nat) (hfuel : m < fuel) :
    traceLoop (fun i => decide (i < m)) 1 fuel (2 * (m / 2)) =
      .ok (m, if m % 2 = 1 then [m - 1] else []) := by
  obtain ⟨s, hrun, hI, hc⟩ := whileLoop_spec
    (fun s : Nat × List Nat => decide (s.1 < m))
    (fun s => .ok (s.1 + 1, s.2 ++ [s.1]))
    (fun s => (s.1 = 2 * (m / 2) ∧ s.2 = []) ∨
      (s.1 = m ∧ m % 2 = 1 ∧ s.2 = [m - 1]))
    (fun s => m - s.1)
    (by
      rintro ⟨i, acc⟩ hI hc
      have hi : i < m := by simpa using hc
      rcases hI with ⟨h1, h2⟩ | ⟨h1, _, _⟩
      · have h1' : i = 2 * (m / 2) := h1
        have h2' : acc = [] := h2
        subst h2'
        refine ⟨(i + 1, [] ++ [i]), rfl, Or.inr ⟨?_, ?_, ?_⟩, ?_⟩
        · show i + 1 = m
          omega
        · omega
        · show [] ++ [i] = [m - 1]
          have : i = m - 1 := by omega
          rw [this]
          rfl
        · show m - (i + 1) < m - i
          omega
      · have h1' : i = m := h1
        omega)
    fuel (2 * (m / 2), []) (Or.inl ⟨rfl, rfl⟩) (by show m - 2 * (m / 2) < fuel; omega)
  have hexit : ¬ s.1 < m := by simpa using hc
  unfold traceLoop
  rw [hrun]
  congr 1
  rcases hI with ⟨h1, h2⟩ | ⟨h1, h3, h2⟩
  · have hlt : ¬ m % 2 = 1 := by omega
    rw [if_neg hlt]
    apply Prod.ext
    · show s.1 = m
      omega
    · exact h2
  · rw [if_pos h3]
    apply Prod.ext
    · exact h1
    · exact h2

/-- The row groups for `m` rows: the groups of four at the multiples of four, the group
of two exactly when `m % 4 ≥ 2`, the single row exactly when `m` is odd. -/
theorem rowGroups_eq (m fuel : Nat) (hfuel : m < fuel) :
    rowGroups fuel m = .ok
      ((List.range (m / 4)).map (fun q => (4 * q, 4, 4 * q + 4)) ++
        (if 2 ≤ m % 4 then [(4 * (m / 4), 2, 4 * (m / 4) + 2)] else []) ++
        (if m % 2 = 1 then [(m - 1, 1, m - 1)] else [])) := by
  unfold rowGroups
  rw [traceLoop_four m fuel hfuel]
  simp only []
  rw [traceLoop_two m fuel hfuel]
  simp only []
  rw [traceLoop_one m fuel hfuel]
  simp only [List.map_map]
  congr 2
  · congr 1
    by_cases h : 2 ≤ m % 4
    · rw [if_pos h, if_pos h]
      rfl
    · rw [if_neg h, if_neg h]
      rfl
  · by_cases h : m % 2 = 1
    · rw [if_pos h, if_pos h]
      rfl
    · rw [if_neg h, if_neg h]
      rfl

/-- One of the three row loops runs the column loop once for every recorded start. -/
theorem rowLoop_eq_fold (cond : Nat → Bool) (r : Nat)
    (group : Nat → Nat → DenseMatrix → Except Fault DenseMatrix)
    (jj jend fuel i0 : Nat) (s : Nat × List Nat) (D : DenseMatrix)
    (h : traceLoop cond r fuel i0 = .ok s) :
    rowLoop cond r group jj jend fuel (i0, D) =
      (s.2.foldlM (fun D i => columnLoop (group i) jj jend fuel D) D).map
        (fun E => (s.1, E)) := by
  obtain ⟨new, hnew, hrun⟩ := whileLoop_trace cond r
    (fun i D => columnLoop (group i) jj jend fuel D)
    (fun t => match columnLoop (group t.1) jj jend fuel t.2 with
      | .ok D => .ok (t.1 + r, D)
      | .error err => .error err)
    (by
      intro t
      beta_reduce
      cases columnLoop (group t.1) jj jend fuel t.2 with
      | error e => rfl
      | ok E => rfl)
    fuel i0 [] s D h
  rw [List.nil_append] at hnew
  rw [hnew]
  exact hrun

/-- The body of the block loop runs the column loop once for every row group, in
order. -/
theorem blockBody_eq_fold
    (group : Nat → Nat → Nat → Nat → DenseMatrix → Except Fault DenseMatrix)
    (fuel : Nat) (A : DenseMatrix) (B : SparseMatrix) (block jj : Nat) (D : DenseMatrix)
    (gs : List (Nat × Nat × Nat)) (h : rowGroups fuel A.rows = .ok gs) :
    blockBody group fuel A B block (jj, D) =
      (gs.foldlM (fun D g => columnLoop (group g.1 g.2.1 g.2.2) jj
        (min (jj + block) B.columns) fuel D) D).map (fun E => (jj + block, E)) := by
  unfold rowGroups at h
  cases h4 : traceLoop (fun i => decide (i + 4 ≤ A.rows)) 4 fuel 0 with
  | error e => rw [h4] at h; exact Except.noConfusion h
  | ok s4 =>
    rw [h4] at h
    simp only [] at h
    cases h2 : traceLoop (fun i => decide (i + 2 ≤ A.rows)) 2 fuel s4.1 with
    | error e => rw [h2] at h; exact Except.noConfusion h
    | ok s2 =>
      rw [h2] at h
      simp only [] at h
      cases h1 : traceLoop (fun i => decide (i < A.rows)) 1 fuel s2.1 with
      | error e => rw [h1] at h; exact Except.noConfusion h
      | ok s1 =>
        rw [h1] at h
        simp only [] at h
        have hgs : gs = s4.2.map (fun i => (i, 4, i + 4)) ++
            s2.2.map (fun i => (i, 2, i + 2)) ++ s1.2.map (fun i => (i, 1, i)) := by
          injection h with h
          exact h.symm
        subst hgs
        have e4 := fun D0 => rowLoop_eq_fold (fun i => decide (i + 4 ≤ A.rows)) 4
          (fun i j => group i 4 (i + 4) j) jj (min (jj + block) B.columns) fuel 0 s4 D0 h4
        have e2 := fun D0 => rowLoop_eq_fold (fun i => decide (i + 2 ≤ A.rows)) 2
          (fun i j => group i 2 (i + 2) j) jj (min (jj + block) B.columns) fuel s4.1 s2 D0 h2
        have e1 := fun D0 => rowLoop_eq_fold (fun i => decide (i < A.rows)) 1
          (fun i j => group i 1 i j) jj (min (jj + block) B.columns) fuel s2.1 s1 D0 h1
        have hR : (s4.2.map (fun i => (i, 4, i + 4)) ++ s2.2.map (fun i => (i, 2, i + 2)) ++
              s1.2.map (fun i => (i, 1, i))).foldlM
            (fun D (g : Nat × Nat × Nat) => columnLoop (group g.1 g.2.1 g.2.2) jj
              (min (jj + block) B.columns) fuel D) D =
            (do
              let init ← (do
                let init ← s4.2.foldlM (fun D i => columnLoop
                  ((fun i j => group i 4 (i + 4) j) i) jj
                  (min (jj + block) B.columns) fuel D) D
                s2.2.foldlM (fun D i => columnLoop ((fun i j => group i 2 (i + 2) j) i) jj
                  (min (jj + block) B.columns) fuel D) init)
              s1.2.foldlM (fun D i => columnLoop ((fun i j => group i 1 i j) i) jj
                (min (jj + block) B.columns) fuel D) init) := by
          simp only [List.foldlM_append, List.foldlM_map]
        unfold blockBody
        simp only []
        rw [e4 D, hR]
        cases s4.2.foldlM (fun D i => columnLoop ((fun i j => group i 4 (i + 4) j) i) jj
            (min (jj + block) B.columns) fuel D) D with
        | error e => rfl
        | ok E4 =>
          show (match rowLoop (fun i => decide (i + 2 ≤ A.rows)) 2
              (fun i j => group i 2 (i + 2) j) jj (min (jj + block) B.columns) fuel
              (s4.1, E4) with
            | .error err => .error err
            | .ok s2 =>
              match rowLoop (fun i => decide (i < A.rows)) 1 (fun i j => group i 1 i j) jj
                  (min (jj + block) B.columns) fuel s2 with
              | .error err => .error err
              | .ok s1 => .ok (jj + block, s1.2)) =
            Except.map (fun E => (jj + block, E)) (do
              let init ← s2.2.foldlM (fun D i => columnLoop
                ((fun i j => group i 2 (i + 2) j) i) jj
                (min (jj + block) B.columns) fuel D) E4
              s1.2.foldlM (fun D i => columnLoop ((fun i j => group i 1 i j) i) jj
                (min (jj + block) B.columns) fuel D) init)
          rw [e2 E4]
          cases s2.2.foldlM (fun D i => columnLoop ((fun i j => group i 2 (i + 2) j) i) jj
              (min (jj + block) B.columns) fuel D) E4 with
          | error e => rfl
          | ok E2 =>
            show (match rowLoop (fun i => decide (i < A.rows)) 1 (fun i j => group i 1 i j)
                jj (min (jj + block) B.columns) fuel (s2.1, E2) with
              | .error err => .error err
              | .ok s1 => .ok (jj + block, s1.2)) =
              Except.map (fun E => (jj + block, E))
                (s1.2.foldlM (fun D i => columnLoop ((fun i j => group i 1 i j) i) jj
                  (min (jj + block) B.columns) fuel D) E2)
            rw [e1 E2]
            cases s1.2.foldlM (fun D i => columnLoop ((fun i j => group i 1 i j) i) jj
                (min (jj + block) B.columns) fuel D) E2 with
            | error e => rfl
            | ok E1 => rfl

/-- The traversal runs the body of the block loop once for every column range, in
order. -/
theorem kernelLoops_eq_fold
    (group : Nat → Nat → Nat → Nat → DenseMatrix → Except Fault DenseMatrix)
    (fuel : Nat) (C A : DenseMatrix) (B : SparseMatrix) (l : List (Nat × Nat))
    (h : blockRanges fuel C.rowMajor B.columns = .ok l) :
    kernelLoops group fuel C A B =
      l.foldlM (fun D r => (blockBody group fuel A B
        (if C.rowMajor then B.columns else 256) (r.1, D)).map Prod.snd) C := by
  unfold blockRanges at h
  simp only [] at h
  cases ht : traceLoop (fun jj => decide (jj < B.columns))
      (if C.rowMajor then B.columns else 256) fuel 0 with
  | error e => rw [ht] at h; exact Except.noConfusion h
  | ok s =>
    rw [ht] at h
    simp only [] at h
    have hl : l = s.2.map (fun jj => (jj, min (jj + (if C.rowMajor then B.columns else 256))
        B.columns)) := by
      injection h with h
      exact h.symm
    subst hl
    obtain ⟨new, hnew, hrun⟩ := whileLoop_trace (fun jj => decide (jj < B.columns))
      (if C.rowMajor then B.columns else 256)
      (fun jj D => (blockBody group fuel A B
        (if C.rowMajor then B.columns else 256) (jj, D)).map Prod.snd)
      (blockBody group fuel A B (if C.rowMajor then B.columns else 256))
      (by
        intro t
        unfold blockBody
        simp only []
        cases rowLoop (fun i => decide (i + 4 ≤ A.rows)) 4 (fun i j => group i 4 (i + 4) j)
            t.1 (min (t.1 + (if C.rowMajor then B.columns else 256)) B.columns) fuel
            (0, t.2) with
        | error e => rfl
        | ok s4 =>
          simp only []
          cases rowLoop (fun i => decide (i + 2 ≤ A.rows)) 2
              (fun i j => group i 2 (i + 2) j) t.1
              (min (t.1 + (if C.rowMajor then B.columns else 256)) B.columns) fuel s4 with
          | error e => rfl
          | ok s2 =>
            simp only []
            cases rowLoop (fun i => decide (i < A.rows)) 1 (fun i j => group i 1 i j) t.1
                (min (t.1 + (if C.rowMajor then B.columns else 256)) B.columns) fuel s2 with
            | error e => rfl
            | ok s1 => rfl)
      fuel 0 [] s C ht
    rw [List.nil_append] at hnew
    rw [← hnew] at hrun
    unfold kernelLoops
    simp only []
    rw [hrun, List.foldlM_map]
    cases s.2.foldlM (fun D jj => (blockBody group fuel A B
        (if C.rowMajor then B.columns else 256) (jj, D)).map Prod.snd) C with
    | error e => rfl
    | ok E => rfl

/-- The counting statements act on every visited row group as the increment by one. -/
theorem visitGroup_spec (m n : Nat) : GroupSpec visitGroup (fun _ _ c => c + 1) m n :=
  fun i r _ j _ _ C => ⟨_, rfl, updateRows_acts (fun _ c => c + 1) i r j C⟩

/-- In a list of groups ordered one after the other a row lies in at most one group. -/
theorem group_unique {gs : List (Nat × Nat × Nat)}
    (hpw : gs.Pairwise (fun a b => a.1 + a.2.1 ≤ b.1)) {a b : Nat × Nat × Nat}
    (ha : a ∈ gs) (hb : b ∈ gs) (x : Nat) (ha1 : a.1 ≤ x) (ha2 : x < a.1 + a.2.1)
    (hb1 : b.1 ≤ x) (hb2 : x < b.1 + b.2.1) : a = b := by
  by_contra hne
  have hsymm : Symmetric (fun a b : Nat × Nat × Nat =>
      a.1 + a.2.1 ≤ b.1 ∨ b.1 + b.2.1 ≤ a.1) := fun _ _ h => h.symm
  have := List.Pairwise.forall hsymm (hpw.imp (fun h => Or.inl h)) ha hb hne
  omega

/-- C24: the column ranges `[jj, min(jj+block, B.columns()))` of the block loop, with
`block = B.columns()` for a row-major target and 256 for a column-major one, are not
empty, lie one after the other without overlap and cover exactly the columns below
`B.columns()`; a row-major target has the single range `[0, B.columns())`. Every kernel
runs the body of the block loop once for each of these ranges, in order, and so visits
every cell of the product shape exactly once. -/
theorem C24_column_blocks_partition (fuel : Nat) (C A : DenseMatrix) (B : SparseMatrix)
    (hm : A.rows < fuel) (hn : B.columns < fuel) :
    ∃ l, blockRanges fuel C.rowMajor B.columns = .ok l ∧
      (∀ r ∈ l, r.1 < r.2 ∧
        r.2 = min (r.1 + (if C.rowMajor then B.columns else 256)) B.columns) ∧
      l.Pairwise (fun a b => a.2 ≤ b.1) ∧
      (∀ j, j < B.columns ↔ ∃ r ∈ l, r.1 ≤ j ∧ j < r.2) ∧
      (C.rowMajor = true → l = if B.columns = 0 then [] else [(0, B.columns)]) ∧
      (∀ group, kernelLoops group fuel C A B =
        l.foldlM (fun D r => (blockBody group fuel A B
          (if C.rowMajor then B.columns else 256) (r.1, D)).map Prod.snd) C) ∧
      ∃ D, kernelLoops visitGroup fuel C A B = .ok D ∧
        ∀ x y, D.elem x y =
          if x < A.rows ∧ y < B.columns then C.elem x y + 1 else C.elem x y := by
  have hb : B.columns ≠ 0 → 0 < (if C.rowMajor then B.columns else 256) := by
    intro h
    by_cases hr : C.rowMajor = true
    · rw [if_pos hr]
      omega
    · rw [if_neg hr]
      omega
  obtain ⟨s, hrun, hlt, hpw, hcov, hlen⟩ := traceLoop_block
    (if C.rowMajor then B.columns else 256) B.columns fuel hb hn
  have hl : blockRanges fuel C.rowMajor B.columns = .ok (s.2.map (fun jj =>
      (jj, min (jj + (if C.rowMajor then B.columns else 256)) B.columns))) := by
    unfold blockRanges
    simp only []
    rw [hrun]
  refine ⟨_, hl, ?_, ?_, ?_, ?_, ?_, ?_⟩
  · intro r hr
    obtain ⟨k, hk, rfl⟩ := List.mem_map.1 hr
    have h1 := hlt k hk
    have h2 := hb (by omega)
    refine ⟨?_, rfl⟩
    show k < min (k + (if C.rowMajor then B.columns else 256)) B.columns
    rw [Nat.lt_min]
    omega
  · rw [List.pairwise_map]
    refine hpw.imp ?_
    intro a b hab
    exact Nat.le_trans (Nat.min_le_left _ _) hab
  · intro j
    constructor
    · intro hj
      obtain ⟨k, hk, hk1, hk2⟩ := hcov j hj
      refine ⟨_, List.mem_map.2 ⟨k, hk, rfl⟩, hk1, ?_⟩
      show j < min (k + (if C.rowMajor then B.columns else 256)) B.columns
      rw [Nat.lt_min]
      exact ⟨hk2, hj⟩
    · rintro ⟨r, hr, _, hr2⟩
      obtain ⟨k, _, rfl⟩ := List.mem_map.1 hr
      have hr3 : j < min (k + (if C.rowMajor then B.columns else 256)) B.columns := hr2
      rw [Nat.lt_min] at hr3
      exact hr3.2
  · intro hrm
    rw [if_pos hrm] at hlen hcov
    have hlen2 := hlen (Nat.le_refl _)
    by_cases h0 : B.columns = 0
    · rw [if_pos h0]
      match hs : s.2 with
      | [] => rfl
      | a :: t =>
        have := hlt a (by rw [hs]; exact List.mem_cons_self _ _)
        omega
    · rw [if_neg h0]
      obtain ⟨k, hk, hk1, _⟩ := hcov 0 (by omega)
      have hk0 : k = 0 := by omega
      subst hk0
      match hs : s.2 with
      | [] =>
        rw [hs] at hk
        exact absurd hk (List.not_mem_nil _)
      | [a] =>
        rw [hs] at hk
        have ha : a = 0 := (List.mem_singleton.1 hk).symm
        subst ha
        show [(0, min (0 + (if C.rowMajor then B.columns else 256)) B.columns)] = _
        rw [if_pos hrm, Nat.zero_add, Nat.min_self]
      | a :: b :: t =>
        rw [hs] at hlen2
        simp at hlen2
  · intro group
    exact kernelLoops_eq_fold group fuel C A B _ hl
  · obtain ⟨D, hD, hact⟩ := kernelLoops_spec visitGroup (fun _ _ c => c + 1) fuel C A B
      (visitGroup_spec A.rows B.columns) hm hn
    refine ⟨D, hD, ?_⟩
    intro x y
    by_cases hP : x < A.rows ∧ y < B.columns
    · rw [if_pos hP, hact.1 x y hP]
    · rw [if_neg hP, hact.2 x y hP]

/-- Witness of C24 on a column-major target and a right operand of 600 columns, which
are visited in the three ranges `[0,256)`, `[256,512)` and `[512,600)`. -/
theorem C24_witness :
    (∃ l, blockRanges 601 (constantTarget 0 false).rowMajor wideRight.columns = .ok l ∧
      (∀ r ∈ l, r.1 < r.2 ∧
        r.2 = min (r.1 + (if (constantTarget 0 false).rowMajor then wideRight.columns
          else 256)) wideRight.columns) ∧
      l.Pairwise (fun a b => a.2 ≤ b.1) ∧
      (∀ j, j < wideRight.columns ↔ ∃ r ∈ l, r.1 ≤ j ∧ j < r.2) ∧
      ((constantTarget 0 false).rowMajor = true →
        l = if wideRight.columns = 0 then [] else [(0, wideRight.columns)]) ∧
      (∀ group, kernelLoops group 601 (constantTarget 0 false) scenarioLeft wideRight =
        l.foldlM (fun D r => (blockBody group 601 scenarioLeft wideRight
          (if (constantTarget 0 false).rowMajor then wideRight.columns else 256)
          (r.1, D)).map Prod.snd) (constantTarget 0 false)) ∧
      ∃ D, kernelLoops visitGroup 601 (constantTarget 0 false) scenarioLeft wideRight =
          .ok D ∧
        ∀ x y, D.elem x y =
          if x < scenarioLeft.rows ∧ y < wideRight.columns then
            (constantTarget 0 false).elem x y + 1
          else (constantTarget 0 false).elem x y) ∧
    blockRanges 601 false 600 = .ok [(0, 256), (256, 512), (512, 600)] :=
  ⟨C24_column_blocks_partition 601 (constantTarget 0 false) scenarioLeft wideRight
    (by decide) (by decide), rfl⟩

/-- C25: for every number of rows `m` the three row loops form `m / 4` groups of four
rows at the multiples of four, then the group of two rows exactly when `m % 4 ≥ 2`,
then the single remainder row exactly when `m` is odd; no group reaches beyond row `m`,
the groups lie one after the other, and every row below `m` lies in exactly one of
them. The body of the block loop of every kernel runs the column loop once for each of
these groups, in order. -/
theorem C25_row_groups_partition (fuel : Nat) (A : DenseMatrix) (hm : A.rows < fuel) :
    ∃ gs, rowGroups fuel A.rows = .ok gs ∧
      gs = (List.range (A.rows / 4)).map (fun q => (4 * q, 4, 4 * q + 4)) ++
        (if 2 ≤ A.rows % 4 then [(4 * (A.rows / 4), 2, 4 * (A.rows / 4) + 2)] else []) ++
        (if A.rows % 2 = 1 then [(A.rows - 1, 1, A.rows - 1)] else []) ∧
      (∀ g ∈ gs, g.1 + g.2.1 ≤ A.rows) ∧
      gs.Pairwise (fun a b => a.1 + a.2.1 ≤ b.1) ∧
      (∀ x, x < A.rows → ∃! g, g ∈ gs ∧ g.1 ≤ x ∧ x < g.1 + g.2.1) ∧
      (∀ group (B : SparseMatrix) (block jj : Nat) (D : DenseMatrix),
        blockBody group fuel A B block (jj, D) =
          (gs.foldlM (fun D g => columnLoop (group g.1 g.2.1 g.2.2) jj
            (min (jj + block) B.columns) fuel D) D).map (fun E => (jj + block, E))) := by
  have hgs := rowGroups_eq A.rows fuel hm
  have hmem : ∀ g : Nat × Nat × Nat,
      g ∈ (List.range (A.rows / 4)).map (fun q => (4 * q, 4, 4 * q + 4)) ++
        (if 2 ≤ A.rows % 4 then [(4 * (A.rows / 4), 2, 4 * (A.rows / 4) + 2)] else []) ++
        (if A.rows % 2 = 1 then [(A.rows - 1, 1, A.rows - 1)] else []) →
      (∃ q, q < A.rows / 4 ∧ g = (4 * q, 4, 4 * q + 4)) ∨
      (2 ≤ A.rows % 4 ∧ g = (4 * (A.rows / 4), 2, 4 * (A.rows / 4) + 2)) ∨
      (A.rows % 2 = 1 ∧ g = (A.rows - 1, 1, A.rows - 1)) := by
    intro g hg
    rcases List.mem_append.1 hg with hg | hg
    · rcases List.mem_append.1 hg with hg | hg
      · obtain ⟨q, hq, rfl⟩ := List.mem_map.1 hg
        exact Or.inl ⟨q, List.mem_range.1 hq, rfl⟩
      · by_cases h : 2 ≤ A.rows % 4
        · rw [if_pos h] at hg
          exact Or.inr (Or.inl ⟨h, List.mem_singleton.1 hg⟩)
        · rw [if_neg h] at hg
          exact absurd hg (List.not_mem_nil _)
    · by_cases h : A.rows % 2 = 1
      · rw [if_pos h] at hg
        exact Or.inr (Or.inr ⟨h, List.mem_singleton.1 hg⟩)
      · rw [if_neg h] at hg
        exact absurd hg (List.not_mem_nil _)
  have hpw : List.Pairwise (fun a b : Nat × Nat × Nat => a.1 + a.2.1 ≤ b.1)
      ((List.range (A.rows / 4)).map (fun q => (4 * q, 4, 4 * q + 4)) ++
        (if 2 ≤ A.rows % 4 then [(4 * (A.rows / 4), 2, 4 * (A.rows / 4) + 2)] else []) ++
        (if A.rows % 2 = 1 then [(A.rows - 1, 1, A.rows - 1)] else [])) := by
    rw [List.pairwise_append, List.pairwise_append]
    refine ⟨⟨?_, ?_, ?_⟩, ?_, ?_⟩
    · rw [List.pairwise_map]
      refine (List.pairwise_lt_range _).imp ?_
      intro a b hab
      show 4 * a + 4 ≤ 4 * b
      omega
    · by_cases h : 2 ≤ A.rows % 4
      · rw [if_pos h]
        exact List.pairwise_singleton _ _
      · rw [if_neg h]
        exact List.Pairwise.nil
    · intro a ha b hb
      obtain ⟨q, hq, rfl⟩ := List.mem_map.1 ha
      have hq2 := List.mem_range.1 hq
      by_cases h : 2 ≤ A.rows % 4
      · rw [if_pos h] at hb
        rw [List.mem_singleton.1 hb]
        show 4 * q + 4 ≤ 4 * (A.rows / 4)
        omega
      · rw [if_neg h] at hb
        exact absurd hb (List.not_mem_nil _)
    · by_cases h : A.rows % 2 = 1
      · rw [if_pos h]
        exact List.pairwise_singleton _ _
      · rw [if_neg h]
        exact List.Pairwise.nil
    · intro a ha b hb
      by_cases h : A.rows % 2 = 1
      · rw [if_pos h] at hb
        rw [List.mem_singleton.1 hb]
        rcases List.mem_append.1 ha with ha | ha
        · obtain ⟨q, hq, rfl⟩ := List.mem_map.1 ha
          have hq2 := List.mem_range.1 hq
          show 4 * q + 4 ≤ A.rows - 1
          omega
        · by_cases h2 : 2 ≤ A.rows % 4
          · rw [if_pos h2] at ha
            rw [List.mem_singleton.1 ha]
            show 4 * (A.rows / 4) + 2 ≤ A.rows - 1
            omega
          · rw [if_neg h2] at ha
            exact absurd ha (List.not_mem_nil _)
      · rw [if_neg h] at hb
        exact absurd hb (List.not_mem_nil _)
  refine ⟨_, hgs, rfl, ?_, hpw, ?_, ?_⟩
  · intro g hg
    rcases hmem g hg with ⟨q, hq, rfl⟩ | ⟨h, rfl⟩ | ⟨h, rfl⟩
    · show 4 * q + 4 ≤ A.rows
      omega
    · show 4 * (A.rows / 4) + 2 ≤ A.rows
      omega
    · show A.rows - 1 + 1 ≤ A.rows
      omega
  · intro x hx
    have hex : ∃ g, g ∈ (List.range (A.rows / 4)).map (fun q => (4 * q, 4, 4 * q + 4)) ++
        (if 2 ≤ A.rows % 4 then [(4 * (A.rows / 4), 2, 4 * (A.rows / 4) + 2)] else []) ++
        (if A.rows % 2 = 1 then [(A.rows - 1, 1, A.rows - 1)] else []) ∧
        g.1 ≤ x ∧ x < g.1 + g.2.1 := by
      by_cases h4 : x < 4 * (A.rows / 4)
      · refine ⟨(4 * (x / 4), 4, 4 * (x / 4) + 4), ?_, ?_, ?_⟩
        · apply List.mem_append.2
          left
          apply List.mem_append.2
          left
          exact List.mem_map.2 ⟨x / 4, List.mem_range.2 (by omega), rfl⟩
        · show 4 * (x / 4) ≤ x
          omega
        · show x < 4 * (x / 4) + 4
          omega
      · by_cases h2 : x < 2 * (A.rows / 2)
        · have h : 2 ≤ A.rows % 4 := by omega
          refine ⟨(4 * (A.rows / 4), 2, 4 * (A.rows / 4) + 2), ?_, ?_, ?_⟩
          · apply List.mem_append.2
            left
            apply List.mem_append.2
            right
            rw [if_pos h]
            exact List.mem_singleton.2 rfl
          · show 4 * (A.rows / 4) ≤ x
            omega
          · show x < 4 * (A.rows / 4) + 2
            omega
        · have h : A.rows % 2 = 1 := by omega
          refine ⟨(A.rows - 1, 1, A.rows - 1), ?_, ?_, ?_⟩
          · apply List.mem_append.2
            right
            rw [if_pos h]
            exact List.mem_singleton.2 rfl
          · show A.rows - 1 ≤ x
            omega
          · show x < A.rows - 1 + 1
            omega
    obtain ⟨g, hg, hg1, hg2⟩ := hex
    refine ⟨g, ⟨hg, hg1, hg2⟩, ?_⟩
    rintro g2 ⟨hg3, hg4, hg5⟩
    exact group_unique hpw hg3 hg x hg4 hg5 hg1 hg2
  · intro group B block jj D
    exact blockBody_eq_fold group fuel A B block jj D _ hgs

/-- Witness of C25 on an operand of seven rows: the groups are the rows 0 to 3, the
rows 4 and 5, and the row 6. -/
theorem C25_witness :
    (∃ gs, rowGroups 8 sevenRowLeft.rows = .ok gs ∧
      gs = (List.range (sevenRowLeft.rows / 4)).map (fun q => (4 * q, 4, 4 * q + 4)) ++
        (if 2 ≤ sevenRowLeft.rows % 4 then
          [(4 * (sevenRowLeft.rows / 4), 2, 4 * (sevenRowLeft.rows / 4) + 2)] else []) ++
        (if sevenRowLeft.rows % 2 = 1 then
          [(sevenRowLeft.rows - 1, 1, sevenRowLeft.rows - 1)] else []) ∧
      (∀ g ∈ gs, g.1 + g.2.1 ≤ sevenRowLeft.rows) ∧
      gs.Pairwise (fun a b => a.1 + a.2.1 ≤ b.1) ∧
      (∀ x, x < sevenRowLeft.rows → ∃! g, g ∈ gs ∧ g.1 ≤ x ∧ x < g.1 + g.2.1) ∧
      (∀ group (B : SparseMatrix) (block jj : Nat) (D : DenseMatrix),
        blockBody group 8 sevenRowLeft B block (jj, D) =
          (gs.foldlM (fun D g => columnLoop (group g.1 g.2.1 g.2.2) jj
            (min (jj + block) B.columns) 8 D) D).map (fun E => (jj + block, E)))) ∧
    rowGroups 8 7 = .ok [(0, 4, 4), (4, 2, 6), (6, 1, 6)] :=
  ⟨C25_row_groups_partition 8 sevenRowLeft (by decide), rfl⟩

/-! ## Structural flags of the expression node: lemmas and claims -/

theorem lowerLeft_isLowerMatrix : lowerLeft.IsLowerMatrix := by
  refine ⟨rfl, ?_⟩
  intro x p hx hp hlt
  have hx2 : x < 2 := hx
  have hp2 : p < 2 := hp
  have h0 : x = 0 := by omega
  have h1 : p = 1 := by omega
  subst h0
  subst h1
  rfl

theorem lowerRight_isLowerMatrix : lowerRight.IsLowerMatrix := by
  refine ⟨rfl, ?_⟩
  intro p j hp hj hlt
  have hp2 : p < 2 := hp
  have hj2 : j < 2 := hj
  have h0 : p = 0 := by omega
  have h1 : j = 1 := by omega
  subst h0
  subst h1
  rfl

theorem upperLeft_isUpperMatrix : upperLeft.IsUpperMatrix := by
  refine ⟨rfl, ?_⟩
  intro x p hx hp hlt
  have hx2 : x < 2 := hx
  have hp2 : p < 2 := hp
  have h0 : x = 1 := by omega
  have h1 : p = 0 := by omega
  subst h0
  subst h1
  rfl

theorem strictlyUpperRight_isStrictlyUpperMatrix :
    strictlyUpperRight.IsStrictlyUpperMatrix := by
  refine ⟨⟨rfl, ?_⟩, ?_⟩
  · intro p j hp hj hlt
    have hp2 : p < 2 := hp
    have hj2 : j < 2 := hj
    have h0 : p = 1 := by omega
    have h1 : j = 0 := by omega
    subst h0
    subst h1
    rfl
  · intro j hj
    have hj2 : j < 2 := hj
    interval_cases j <;> rfl

theorem uniLowerLeft_isUniLowerMatrix : uniLowerLeft.IsUniLowerMatrix := by
  refine ⟨⟨rfl, ?_⟩, ?_⟩
  · intro x p hx hp hlt
    have hx2 : x < 2 := hx
    have hp2 : p < 2 := hp
    have h0 : x = 0 := by omega
    have h1 : p = 1 := by omega
    subst h0
    subst h1
    rfl
  · intro x hx
    have hx2 : x < 2 := hx
    interval_cases x <;> rfl

theorem uniLowerRight_isUniLowerMatrix : uniLowerRight.IsUniLowerMatrix := by
  refine ⟨⟨rfl, ?_⟩, ?_⟩
  · intro p j hp hj hlt
    have hp2 : p < 2 := hp
    have hj2 : j < 2 := hj
    have h0 : p = 0 := by omega
    have h1 : j = 1 := by omega
    subst h0
    subst h1
    rfl
  · intro j hj
    have hj2 : j < 2 := hj
    interval_cases j <;> rfl

/-- A reference product all of whose terms vanish is zero. -/
theorem refProduct_eq_zero (A : DenseMatrix) (B : SparseMatrix) (i j : Nat)
    (h : ∀ p, p < A.columns → A.elem i p = 0 ∨ B.get p j = 0) : refProduct A B i j = 0 := by
  unfold refProduct
  refine Finset.sum_eq_zero ?_
  intro p hp
  rcases h p (Finset.mem_range.1 hp) with h0 | h0
  · rw [h0, zero_mul]
  · rw [h0, mul_zero]

/-- C31: `CanExploitSymmetry` is the symmetry flag of its second type argument, which
the restructuring overloads of `assign`, `addAssign`, `subAssign` and of their SMP
counterparts instantiate with the type of the left operand; and for a left operand
that is symmetric (square and equal to its transpose) the product
`trans( lhs_ ) * rhs_` has the shape of `lhs_ * rhs_` and in every cell the value of the
reference product of `lhs_` and `rhs_`. -/
theorem C31_left_symmetry_rewrite_preserves_product (e : DMatTSMatMultExpr)
    (hsym : e.lhs_.IsSymmetricMatrix) :
    (∀ t1 t2 t3 : Traits, CanExploitSymmetry t1 t2 t3 = t2.isSymmetric) ∧
    (∀ (n : DMatTSMatMultExpr) (op : AssignOp) (target : Traits),
      n.restructuringOverloadEnabled op target = n.lhs_.traits.isSymmetric ∧
      n.smpRestructuringOverloadEnabled op target = n.lhs_.traits.isSymmetric) ∧
    (trans e.lhs_).rows = e.rows ∧ (trans e.lhs_).columns = e.lhs_.columns ∧
    ∀ i j, i < e.rows → j < e.columns →
      restructuredProduct e i j = refProduct e.lhs_ e.rhs_ i j := by
  refine ⟨fun _ _ _ => rfl, ?_, hsym.1.symm, hsym.1, ?_⟩
  · intro n op target
    cases op <;> exact ⟨rfl, rfl⟩
  · intro i j hi _
    exact refProduct_trans_of_symmetric e.lhs_ e.rhs_ hsym i j hi

/-- Witness of C31: the symmetric left operand `[[1,2],[2,1]]` and the right operand
`[[1,2],[3,4]]`. -/
theorem C31_witness :
    (∀ t1 t2 t3 : Traits, CanExploitSymmetry t1 t2 t3 = t2.isSymmetric) ∧
    (∀ (n : DMatTSMatMultExpr) (op : AssignOp) (target : Traits),
      n.restructuringOverloadEnabled op target = n.lhs_.traits.isSymmetric ∧
      n.smpRestructuringOverloadEnabled op target = n.lhs_.traits.isSymmetric) ∧
    (trans symmetricLeft).rows = (⟨symmetricLeft, generalRight⟩ : DMatTSMatMultExpr).rows ∧
    (trans symmetricLeft).columns = symmetricLeft.columns ∧
    ∀ i j, i < (⟨symmetricLeft, generalRight⟩ : DMatTSMatMultExpr).rows →
      j < (⟨symmetricLeft, generalRight⟩ : DMatTSMatMultExpr).columns →
      restructuredProduct ⟨symmetricLeft, generalRight⟩ i j =
        refProduct symmetricLeft generalRight i j :=
  C31_left_symmetry_rewrite_preserves_product ⟨symmetricLeft, generalRight⟩
    symmetricLeft_isSymmetricMatrix

/-- C33: in the triangular branch of `operator()`, for indices inside the shape,
conforming operands and a lower left operand and an upper right operand that are
square, `begin < end` implies `end <= lhs_.columns()`: every position of the subvector
of length `end - begin` from `begin` on lies inside row `i` of the left operand and
inside column `j` of the right operand. Without squareness the bound can be exceeded:
for a left operand of three rows and two columns flagged lower, `end` is 3 at
`i = 2`. -/
theorem C33_subvector_within_bounds (e : DMatTSMatMultExpr) (i j : Nat)
    (hi : i < e.rows) (hj : j < e.columns) (hshape : e.lhs_.columns = e.rhs_.rows)
    (hsqL : e.lhs_.traits.isLower = true → e.lhs_.rows = e.lhs_.columns)
    (hsqR : e.rhs_.traits.isUpper = true → e.rhs_.rows = e.rhs_.columns)
    (hlt : e.accessBegin i j < e.accessEnd i j) :
    e.accessEnd i j ≤ e.lhs_.columns ∧
    e.accessBegin i j + (e.accessEnd i j - e.accessBegin i j) ≤ e.lhs_.columns ∧
    (∀ q, q < e.accessEnd i j - e.accessBegin i j →
      e.accessBegin i j + q < e.lhs_.columns ∧ e.accessBegin i j + q < e.rhs_.rows) ∧
    (2 < (⟨tallLowerLeft, generalRight⟩ : DMatTSMatMultExpr).rows ∧
      0 < (⟨tallLowerLeft, generalRight⟩ : DMatTSMatMultExpr).columns ∧
      tallLowerLeft.columns = generalRight.rows ∧
      (⟨tallLowerLeft, generalRight⟩ : DMatTSMatMultExpr).accessBegin 2 0 <
        (⟨tallLowerLeft, generalRight⟩ : DMatTSMatMultExpr).accessEnd 2 0 ∧
      tallLowerLeft.columns <
        (⟨tallLowerLeft, generalRight⟩ : DMatTSMatMultExpr).accessEnd 2 0) := by
  have hend := accessEnd_le_columns e i j hi hj hshape hsqL hsqR
  refine ⟨hend, by omega, ?_, by decide⟩
  intro q hq
  constructor
  · omega
  · rw [← hshape]
    omega

/-- Witness of C33: the lower 2x2 left operand `[[1,0],[2,3]]` and the right operand
`[[1,2],[3,4]]` at `(1,0)`, where `begin = 0` and `end = 2`. -/
theorem C33_witness :
    ((⟨lowerLeft, generalRight⟩ : DMatTSMatMultExpr).accessEnd 1 0 ≤ lowerLeft.columns ∧
    (⟨lowerLeft, generalRight⟩ : DMatTSMatMultExpr).accessBegin 1 0 +
      ((⟨lowerLeft, generalRight⟩ : DMatTSMatMultExpr).accessEnd 1 0 -
        (⟨lowerLeft, generalRight⟩ : DMatTSMatMultExpr).accessBegin 1 0) ≤
      lowerLeft.columns ∧
    (∀ q, q < (⟨lowerLeft, generalRight⟩ : DMatTSMatMultExpr).accessEnd 1 0 -
        (⟨lowerLeft, generalRight⟩ : DMatTSMatMultExpr).accessBegin 1 0 →
      (⟨lowerLeft, generalRight⟩ : DMatTSMatMultExpr).accessBegin 1 0 + q <
        lowerLeft.columns ∧
      (⟨lowerLeft, generalRight⟩ : DMatTSMatMultExpr).accessBegin 1 0 + q <
        generalRight.rows) ∧
    (2 < (⟨tallLowerLeft, generalRight⟩ : DMatTSMatMultExpr).rows ∧
      0 < (⟨tallLowerLeft, generalRight⟩ : DMatTSMatMultExpr).columns ∧
      tallLowerLeft.columns = generalRight.rows ∧
      (⟨tallLowerLeft, generalRight⟩ : DMatTSMatMultExpr).accessBegin 2 0 <
        (⟨tallLowerLeft, generalRight⟩ : DMatTSMatMultExpr).accessEnd 2 0 ∧
      tallLowerLeft.columns <
        (⟨tallLowerLeft, generalRight⟩ : DMatTSMatMultExpr).accessEnd 2 0)) ∧
    (⟨lowerLeft, generalRight⟩ : DMatTSMatMultExpr).accessBegin 1 0 = 0 ∧
    (⟨lowerLeft, generalRight⟩ : DMatTSMatMultExpr).accessEnd 1 0 = 2 :=
  ⟨C33_subvector_within_bounds ⟨lowerLeft, generalRight⟩ 1 0 (by decide) (by decide) rfl
    (fun _ => rfl) (fun _ => rfl) (by decide), by decide, by decide⟩

/-- C34: the node is flagged lower exactly when both operands are, and the flag is
sound: for conforming square operands that are both zero above the diagonal the
reference product is zero above the diagonal. -/
theorem C34_lower_flag (e : DMatTSMatMultExpr) (hL : e.lhs_.IsLowerMatrix)
    (hR : e.rhs_.IsLowerMatrix) (hshape : e.lhs_.columns = e.rhs_.rows) :
    (∀ n : DMatTSMatMultExpr,
      n.isLower = true ↔ n.lhs_.traits.isLower = true ∧ n.rhs_.traits.isLower = true) ∧
    e.rows = e.columns ∧
    ∀ i j, i < e.rows → j < e.columns → i < j → refProduct e.lhs_ e.rhs_ i j = 0 := by
  refine ⟨?_, ?_, ?_⟩
  · intro n
    unfold DMatTSMatMultExpr.isLower
    exact Bool.and_eq_true _ _ ▸ Iff.rfl
  · show e.lhs_.rows = e.rhs_.columns
    rw [hL.1, hshape, hR.1]
  · intro i j hi hj hij
    apply refProduct_eq_zero
    intro p hp
    by_cases hip : i < p
    · exact Or.inl (hL.2 i p hi hp hip)
    · exact Or.inr (hR.2 p j (by rw [← hshape]; exact hp) hj (by omega))

/-- Witness of C34: the lower operands `[[1,0],[2,3]]` and `[[1,0],[4,5]]`. -/
theorem C34_witness :
    (∀ n : DMatTSMatMultExpr,
      n.isLower = true ↔ n.lhs_.traits.isLower = true ∧ n.rhs_.traits.isLower = true) ∧
    (⟨lowerLeft, lowerRight⟩ : DMatTSMatMultExpr).rows =
      (⟨lowerLeft, lowerRight⟩ : DMatTSMatMultExpr).columns ∧
    ∀ i j, i < (⟨lowerLeft, lowerRight⟩ : DMatTSMatMultExpr).rows →
      j < (⟨lowerLeft, lowerRight⟩ : DMatTSMatMultExpr).columns → i < j →
      refProduct lowerLeft lowerRight i j = 0 :=
  C34_lower_flag ⟨lowerLeft, lowerRight⟩ lowerLeft_isLowerMatrix lowerRight_isLowerMatrix rfl

/-- C35: the node is flagged strictly upper exactly when one operand is flagged strictly
upper and the other upper, and the flag is sound: for conforming square operands of
which one is strictly upper triangular and the other upper triangular the reference
product is zero on and below the diagonal. -/
theorem C35_strictly_upper_flag (e : DMatTSMatMultExpr)
    (hU : (e.lhs_.IsStrictlyUpperMatrix ∧ e.rhs_.IsUpperMatrix) ∨
      (e.rhs_.IsStrictlyUpperMatrix ∧ e.lhs_.IsUpperMatrix))
    (hshape : e.lhs_.columns = e.rhs_.rows) :
    (∀ n : DMatTSMatMultExpr, n.isStrictlyUpper = true ↔
      (n.lhs_.traits.isStrictlyUpper = true ∧ n.rhs_.traits.isUpper = true) ∨
      (n.rhs_.traits.isStrictlyUpper = true ∧ n.lhs_.traits.isUpper = true)) ∧
    e.rows = e.columns ∧
    ∀ i j, i < e.rows → j < e.columns → j ≤ i → refProduct e.lhs_ e.rhs_ i j = 0 := by
  refine ⟨?_, ?_, ?_⟩
  · intro n
    unfold DMatTSMatMultExpr.isStrictlyUpper
    rw [Bool.or_eq_true, Bool.and_eq_true, Bool.and_eq_true]
  · show e.lhs_.rows = e.rhs_.columns
    rcases hU with ⟨hA, hB⟩ | ⟨hB, hA⟩
    · rw [hA.1.1, hshape, hB.1]
    · rw [hA.1, hshape, hB.1.1]
  · intro i j hi hj hij
    apply refProduct_eq_zero
    intro p hp
    have hp2 : p < e.rhs_.rows := by rw [← hshape]; exact hp
    rcases hU with ⟨hA, hB⟩ | ⟨hB, hA⟩
    · by_cases hpi : p < i
      · exact Or.inl (hA.1.2 i p hi hp hpi)
      · by_cases heq : p = i
        · subst heq
          exact Or.inl (hA.2 p hi)
        · exact Or.inr (hB.2 p j hp2 hj (by omega))
    · by_cases hpi : p < i
      · exact Or.inl (hA.2 i p hi hp hpi)
      · by_cases heq : p = j
        · subst heq
          exact Or.inr (hB.2 p hj)
        · exact Or.inr (hB.1.2 p j hp2 hj (by omega))

/-- Witness of C35: the upper left operand `[[1,2],[0,3]]` and the strictly upper right
operand `[[0,7],[0,0]]`. -/
theorem C35_witness :
    (∀ n : DMatTSMatMultExpr, n.isStrictlyUpper = true ↔
      (n.lhs_.traits.isStrictlyUpper = true ∧ n.rhs_.traits.isUpper = true) ∨
      (n.rhs_.traits.isStrictlyUpper = true ∧ n.lhs_.traits.isUpper = true)) ∧
    (⟨upperLeft, strictlyUpperRight⟩ : DMatTSMatMultExpr).rows =
      (⟨upperLeft, strictlyUpperRight⟩ : DMatTSMatMultExpr).columns ∧
    ∀ i j, i < (⟨upperLeft, strictlyUpperRight⟩ : DMatTSMatMultExpr).rows →
      j < (⟨upperLeft, strictlyUpperRight⟩ : DMatTSMatMultExpr).columns → j ≤ i →
      refProduct upperLeft strictlyUpperRight i j = 0 :=
  C35_strictly_upper_flag ⟨upperLeft, strictlyUpperRight⟩
    (Or.inr ⟨strictlyUpperRight_isStrictlyUpperMatrix, upperLeft_isUpperMatrix⟩) rfl

/-- C36: the node is flagged uni-lower exactly when both operands are, and the flag is
sound: for conforming square operands that are both lower triangular with unit diagonal
the reference product is zero above the diagonal and one on the diagonal. -/
theorem C36_uni_lower_flag (e : DMatTSMatMultExpr) (hL : e.lhs_.IsUniLowerMatrix)
    (hR : e.rhs_.IsUniLowerMatrix) (hshape : e.lhs_.columns = e.rhs_.rows) :
    (∀ n : DMatTSMatMultExpr, n.isUniLower = true ↔
      n.lhs_.traits.isUniLower = true ∧ n.rhs_.traits.isUniLower = true) ∧
    e.rows = e.columns ∧
    (∀ i j, i < e.rows → j < e.columns → i < j → refProduct e.lhs_ e.rhs_ i j = 0) ∧
    ∀ i, i < e.rows → refProduct e.lhs_ e.rhs_ i i = 1 := by
  have hsq : e.lhs_.rows = e.rhs_.columns := by
    rw [hL.1.1, hshape, hR.1.1]
  refine ⟨?_, hsq, ?_, ?_⟩
  · intro n
    unfold DMatTSMatMultExpr.isUniLower
    exact Bool.and_eq_true _ _ ▸ Iff.rfl
  · intro i j hi hj hij
    apply refProduct_eq_zero
    intro p hp
    by_cases hip : i < p
    · exact Or.inl (hL.1.2 i p hi hp hip)
    · exact Or.inr (hR.1.2 p j (by rw [← hshape]; exact hp) hj (by omega))
  · intro i hi
    have hi2 : i < e.lhs_.rows := hi
    have hic : i < e.lhs_.columns := by rw [← hL.1.1]; exact hi2
    unfold refProduct
    rw [Finset.sum_eq_single i]
    · rw [hL.2 i hi2, hR.2 i (by rw [← hsq]; exact hi2), mul_one]
    · intro p hp hne
      have hp1 : p < e.lhs_.columns := Finset.mem_range.1 hp
      by_cases hip : i < p
      · rw [hL.1.2 i p hi2 hp1 hip, zero_mul]
      · rw [hR.1.2 p i (by rw [← hshape]; exact hp1) (by rw [← hsq]; exact hi2)
          (by omega), mul_zero]
    · intro hnot
      exact absurd (Finset.mem_range.2 hic) hnot

/-- Witness of C36: the uni-lower operands `[[1,0],[2,1]]` and `[[1,0],[3,1]]`. -/
theorem C36_witness :
    (∀ n : DMatTSMatMultExpr, n.isUniLower = true ↔
      n.lhs_.traits.isUniLower = true ∧ n.rhs_.traits.isUniLower = true) ∧
    (⟨uniLowerLeft, uniLowerRight⟩ : DMatTSMatMultExpr).rows =
      (⟨uniLowerLeft, uniLowerRight⟩ : DMatTSMatMultExpr).columns ∧
    (∀ i j, i < (⟨uniLowerLeft, uniLowerRight⟩ : DMatTSMatMultExpr).rows →
      j < (⟨uniLowerLeft, uniLowerRight⟩ : DMatTSMatMultExpr).columns → i < j →
      refProduct uniLowerLeft uniLowerRight i j = 0) ∧
    ∀ i, i < (⟨uniLowerLeft, uniLowerRight⟩ : DMatTSMatMultExpr).rows →
      refProduct uniLowerLeft uniLowerRight i i = 1 :=
  C36_uni_lower_flag ⟨uniLowerLeft, uniLowerRight⟩ uniLowerLeft_isUniLowerMatrix
    uniLowerRight_isUniLowerMatrix rfl

/-! ## Termination and the assertions of the optimized kernels: lemmas and claims -/

/-- A loop whose body never ends in the fault `err`, which is not the lack of fuel, does
not end in it either. -/
theorem whileLoop_ne_error {σ : Type} (cond : σ → Bool) (body : σ → Except Fault σ)
    (err : Fault) (herr : err ≠ Fault.outOfFuel)
    (h : ∀ s, cond s = true → body s ≠ .error err) :
    ∀ (fuel : Nat) (s : σ), whileLoop cond body fuel s ≠ .error err := by
  intro fuel
  induction fuel with
  | zero =>
    intro s hc
    unfold whileLoop at hc
    injection hc with hc
    exact herr hc.symm
  | succ fuel ih =>
    intro s
    unfold whileLoop
    by_cases hc : cond s = true
    · simp only [hc, if_true]
      cases hb : body s with
      | error e2 =>
        intro heq
        injection heq with heq
        exact h s hc (by rw [hb, heq])
      | ok s2 => exact ih s2
    · simp only [hc, Bool.false_eq_true, if_false]
      intro heq
      exact Except.noConfusion heq

theorem columnLoop_ne_error (group : Nat → DenseMatrix → Except Fault DenseMatrix)
    (jj jend fuel : Nat) (C : DenseMatrix) (err : Fault) (herr : err ≠ Fault.outOfFuel)
    (h : ∀ j, j < jend → ∀ D, group j D ≠ .error err) :
    columnLoop group jj jend fuel C ≠ .error err := by
  unfold columnLoop
  split
  · intro heq
    exact Except.noConfusion heq
  · rename_i e2 hw
    intro heq
    injection heq with heq
    subst heq
    refine whileLoop_ne_error _ _ e2 herr ?_ _ _ hw
    intro s hc
    have hlt : s.1 < jend := by simpa using hc
    split
    · intro heq
      exact Except.noConfusion heq
    · rename_i e3 hg
      intro heq
      injection heq with heq
      subst heq
      exact h s.1 hlt s.2 hg

theorem rowLoop_ne_error (cond : Nat → Bool) (r : Nat)
    (group : Nat → Nat → DenseMatrix → Except Fault DenseMatrix)
    (jj jend fuel : Nat) (s : Nat × DenseMatrix) (err : Fault)
    (herr : err ≠ Fault.outOfFuel)
    (h : ∀ i j, j < jend → ∀ D, group i j D ≠ .error err) :
    rowLoop cond r group jj jend fuel s ≠ .error err := by
  unfold rowLoop
  refine whileLoop_ne_error _ _ err herr ?_ _ _
  intro t _
  beta_reduce
  split
  · intro heq
    exact Except.noConfusion heq
  · rename_i e3 hg
    intro heq
    injection heq with heq
    subst heq
    exact columnLoop_ne_error (group t.1) jj jend fuel t.2 e3 herr (h t.1) hg

theorem blockBody_ne_error
    (group : Nat → Nat → Nat → Nat → DenseMatrix → Except Fault DenseMatrix)
    (fuel : Nat) (A : DenseMatrix) (B : SparseMatrix) (block : Nat)
    (s : Nat × DenseMatrix) (err : Fault) (herr : err ≠ Fault.outOfFuel)
    (h : ∀ i r iend j, j < B.columns → ∀ D, group i r iend j D ≠ .error err) :
    blockBody group fuel A B block s ≠ .error err := by
  have hjend : ∀ j, j < min (s.1 + block) B.columns → j < B.columns := by
    intro j hj
    exact Nat.lt_of_lt_of_le hj (Nat.min_le_right _ _)
  unfold blockBody
  simp only []
  split
  · rename_i e4 h4
    intro heq
    injection heq with heq
    subst heq
    exact rowLoop_ne_error _ 4 _ _ _ fuel _ e4 herr
      (fun i j hj D => h i 4 (i + 4) j (hjend j hj) D) h4
  · split
    · rename_i e2 h2
      intro heq
      injection heq with heq
      subst heq
      exact rowLoop_ne_error _ 2 _ _ _ fuel _ e2 herr
        (fun i j hj D => h i 2 (i + 2) j (hjend j hj) D) h2
    · split
      · rename_i e1 h1
        intro heq
        injection heq with heq
        subst heq
        exact rowLoop_ne_error _ 1 _ _ _ fuel _ e1 herr
          (fun i j hj D => h i 1 i j (hjend j hj) D) h1
      · intro heq
        exact Except.noConfusion heq

theorem kernelLoops_ne_error
    (group : Nat → Nat → Nat → Nat → DenseMatrix → Except Fault DenseMatrix)
    (fuel : Nat) (C A : DenseMatrix) (B : SparseMatrix) (err : Fault)
    (herr : err ≠ Fault.outOfFuel)
    (h : ∀ i r iend j, j < B.columns → ∀ D, group i r iend j D ≠ .error err) :
    kernelLoops group fuel C A B ≠ .error err := by
  unfold kernelLoops
  simp only []
  split
  · intro heq
    exact Except.noConfusion heq
  · rename_i e2 hw
    intro heq
    injection heq with heq
    subst heq
    refine whileLoop_ne_error _ _ e2 herr ?_ _ _ hw
    intro s _
    exact blockBody_ne_error group fuel A B _ s e2 herr h

/-- The remainder loop of a kernel contains no assertion. -/
theorem elementLoop_ne_assert (B : SparseMatrix) (j end_ : Nat)
    (stmt : SparseElement → DenseMatrix → DenseMatrix) (fuel element : Nat)
    (C : DenseMatrix) :
    elementLoop B j end_ stmt fuel element C ≠ .error .internalAssert := by
  unfold elementLoop
  refine whileLoop_ne_error _ _ _ (fun h => Fault.noConfusion h) ?_ _ _
  intro s _
  beta_reduce
  split
  · intro heq
    injection heq with heq
    exact Fault.noConfusion heq
  · intro heq
    exact Except.noConfusion heq

/-- On a column with strictly increasing indices the assertion on the four indices read
by one iteration of the unrolled loop holds. -/
theorem unrolledStep_ne_assert (B : SparseMatrix) (j : Nat)
    (hsorted : (B.column j).Pairwise (fun a b => a.index < b.index))
    (stmt : SparseElement → SparseElement → SparseElement → SparseElement →
      DenseMatrix → DenseMatrix)
    (s : UnrolledState) : unrolledStep B j stmt s ≠ .error .internalAssert := by
  have hpw := List.pairwise_iff_getElem.1 hsorted
  unfold unrolledStep
  split
  · rename_i e1 e2 e3 e4 d1 d2 d3 d4
    unfold SparseMatrix.deref at d1 d2 d3 d4
    obtain ⟨l1, g1⟩ := List.getElem?_eq_some.1 d1
    obtain ⟨l2, g2⟩ := List.getElem?_eq_some.1 d2
    obtain ⟨l3, g3⟩ := List.getElem?_eq_some.1 d3
    obtain ⟨l4, g4⟩ := List.getElem?_eq_some.1 d4
    have o12 := hpw s.element (s.element + 1) l1 l2 (by omega)
    have o23 := hpw (s.element + 1) (s.element + 2) l2 l3 (by omega)
    have o34 := hpw (s.element + 2) (s.element + 3) l3 l4 (by omega)
    rw [g1, g2] at o12
    rw [g2, g3] at o23
    rw [g3, g4] at o34
    simp only [internalAssert, o12, o23, o34, decide_True, Bool.and_self, if_true]
    intro heq
    exact Except.noConfusion heq
  · intro heq
    injection heq with heq
    exact Fault.noConfusion heq

/-- The assertion on `kpos` of the optimized kernels holds whatever the cursors are. -/
theorem kpos_assert (A : DenseMatrix) (B : SparseMatrix) (i iend j : Nat) :
    internalAssert (decide (cursorNonzeros A B i iend j - cursorNonzeros A B i iend j % 4 =
      cursorKpos A B i iend j)) = .ok () := by
  have hlt : cursorNonzeros A B i iend j < sizeT := by
    unfold cursorNonzeros
    exact Nat.mod_lt _ (by unfold sizeT; norm_num)
  unfold cursorKpos
  rw [land_mask _ hlt]
  simp [internalAssert]

/-- On a column with strictly increasing indices the statements of the optimized kernels
for one row group end in no assertion failure. -/
theorem optimizedGroup_ne_assert (op : Int → Int → Int) (fuel : Nat) (A : DenseMatrix)
    (B : SparseMatrix) (i r iend j : Nat) (C : DenseMatrix)
    (hsorted : (B.column j).Pairwise (fun a b => a.index < b.index)) :
    optimizedGroup op fuel A B i r iend j C ≠ .error .internalAssert := by
  have hassert := kpos_assert A B i iend j
  unfold cursorKpos cursorNonzeros at hassert
  unfold optimizedGroup
  simp only [hassert]
  split
  · rename_i e2 hw
    intro heq
    injection heq with heq
    subst heq
    refine whileLoop_ne_error _ _ _ (fun h => Fault.noConfusion h) ?_ _ _ hw
    intro s _
    exact unrolledStep_ne_assert B j hsorted _ s
  · split
    · intro heq
      exact Except.noConfusion heq
    · rename_i e3 hel
      intro heq
      injection heq with heq
      subst heq
      exact elementLoop_ne_assert B j _ _ fuel _ _ hel

theorem fullColumnRight_wellFormed : fullColumnRight.WellFormed := by
  intro j hj
  have hj2 : j < 1 := hj
  interval_cases j
  simp [fullColumnRight]

/-- C32: every kernel terminates for every shape. The block loop makes strict progress
whenever its body runs, also for a row-major target, where the step is `B.columns()`;
for `B.columns() = 0` the body never runs and the target is returned as it is; and for
a well-formed sparse operand and any fuel above `A.rows()`, `B.columns()` and
`B.rows()` each of the six kernels ends without fault, so that none of its loops runs
out of fuel (for a left operand not flagged strictly upper and strictly lower at
once). -/
theorem C32_kernels_terminate (fuel : Nat) (C A : DenseMatrix) (B : SparseMatrix)
    (hwf : B.WellFormed) (hsize : B.rows < sizeT) (hflags : ¬ A.StrictlyUpperAndLower)
    (h1 : A.rows < fuel) (h2 : B.columns < fuel) (h3 : B.rows < fuel) :
    (∀ jj, jj < B.columns → jj < jj + (if C.rowMajor then B.columns else 256)) ∧
    (B.columns = 0 → ∀ group, kernelLoops group fuel C A B = .ok C) ∧
    (∃ D, selectAssignKernelDefault fuel C A B = .ok D) ∧
    (∃ D, selectAddAssignKernelDefault fuel C A B = .ok D) ∧
    (∃ D, selectSubAssignKernelDefault fuel C A B = .ok D) ∧
    (∃ D, selectAssignKernelOptimized fuel C A B = .ok D) ∧
    (∃ D, selectAddAssignKernelOptimized fuel C A B = .ok D) ∧
    (∃ D, selectSubAssignKernelOptimized fuel C A B = .ok D) := by
  have hord := cursorsOrdered_of_flags A B hflags
  have hsorted := WellFormed.sortedColumns hwf hsize
  have hfuel := WellFormed.enoughFuel hwf A fuel h1 h2 h3
  refine ⟨?_, ?_, ?_, ?_, ?_, ?_, ?_, ?_⟩
  · intro jj hjj
    by_cases hr : C.rowMajor = true
    · rw [if_pos hr]
      omega
    · rw [if_neg hr]
      omega
  · intro h0 group
    obtain ⟨f, rfl⟩ : ∃ f, fuel = f + 1 := ⟨fuel - 1, by omega⟩
    unfold kernelLoops
    simp only []
    unfold whileLoop
    simp [h0]
  · obtain ⟨D, hD, _⟩ := selectAssignKernelDefault_spec fuel C A B hord hfuel
    exact ⟨D, hD⟩
  · obtain ⟨D, hD, _⟩ := selectAddAssignKernelDefault_spec fuel C A B hord hfuel
    exact ⟨D, hD⟩
  · obtain ⟨D, hD, _⟩ := selectSubAssignKernelDefault_spec fuel C A B hord hfuel
    exact ⟨D, hD⟩
  · obtain ⟨D, hD, _⟩ := selectAddAssignKernelOptimized_spec fuel (reset C) A B hsorted
      hord hfuel
    exact ⟨D, hD⟩
  · obtain ⟨D, hD, _⟩ := selectAddAssignKernelOptimized_spec fuel C A B hsorted hord hfuel
    exact ⟨D, hD⟩
  · obtain ⟨D, hD, _⟩ := selectSubAssignKernelOptimized_spec fuel C A B hsorted hord hfuel
    exact ⟨D, hD⟩

/-- Witness of C32 on the worked scenario, with a row-major target. -/
theorem C32_witness :
    (∀ jj, jj < scenarioRight.columns →
      jj < jj + (if (constantTarget 7 true).rowMajor then scenarioRight.columns else 256)) ∧
    (scenarioRight.columns = 0 → ∀ group,
      kernelLoops group 4 (constantTarget 7 true) scenarioLeft scenarioRight =
        .ok (constantTarget 7 true)) ∧
    (∃ D, selectAssignKernelDefault 4 (constantTarget 7 true) scenarioLeft scenarioRight =
      .ok D) ∧
    (∃ D, selectAddAssignKernelDefault 4 (constantTarget 7 true) scenarioLeft
      scenarioRight = .ok D) ∧
    (∃ D, selectSubAssignKernelDefault 4 (constantTarget 7 true) scenarioLeft
      scenarioRight = .ok D) ∧
    (∃ D, selectAssignKernelOptimized 4 (constantTarget 7 true) scenarioLeft
      scenarioRight = .ok D) ∧
    (∃ D, selectAddAssignKernelOptimized 4 (constantTarget 7 true) scenarioLeft
      scenarioRight = .ok D) ∧
    (∃ D, selectSubAssignKernelOptimized 4 (constantTarget 7 true) scenarioLeft
      scenarioRight = .ok D) :=
  C32_kernels_terminate 4 (constantTarget 7 true) scenarioLeft scenarioRight
    scenarioRight_wellFormed (by decide) (not_strictlyUpperAndLower_of_unflagged _ rfl)
    (by decide) (by decide) (by decide)

/-- C37: for every `size_t` value `n` the mask `n & size_t(-4)` is `n - n mod 4`, hence
at most `n` and a multiple of four, and the assertion of the optimized kernels on `kpos`
holds whatever the cursors are. In a column with strictly increasing indices and fewer
than `2^64` entries, with the initial cursor not behind the final one, `nonzeros` is the
distance of the cursors and the unrolled loop of the addition and overwrite kernels, and
likewise of the subtraction kernel, ends without fault with the cursor at
`element + kpos`, which is not past `end`. -/
theorem C37_unrolled_loop_bound (fuel : Nat) (A : DenseMatrix) (B : SparseMatrix)
    (i r iend j : Nat) (C : DenseMatrix)
    (hsorted : (B.column j).Pairwise (fun a b => a.index < b.index))
    (hsize : (B.column j).length < sizeT)
    (hlo : cursorBegin A B i j ≤ cursorEnd A B iend j)
    (hfuel : (B.column j).length < fuel) :
    (∀ n, n < sizeT → n &&& (sizeT - 4) = n - n % 4 ∧ n &&& (sizeT - 4) ≤ n ∧
      (n &&& (sizeT - 4)) % 4 = 0) ∧
    (∀ (A2 : DenseMatrix) (B2 : SparseMatrix) (i2 iend2 j2 : Nat),
      internalAssert (decide (cursorNonzeros A2 B2 i2 iend2 j2 -
        cursorNonzeros A2 B2 i2 iend2 j2 % 4 = cursorKpos A2 B2 i2 iend2 j2)) = .ok ()) ∧
    cursorNonzeros A B i iend j = cursorEnd A B iend j - cursorBegin A B i j ∧
    cursorKpos A B i iend j ≤ cursorNonzeros A B i iend j ∧
    (∃ s, whileLoop (fun s : UnrolledState => decide (s.k < cursorKpos A B i iend j))
        (unrolledStep B j (fun e1 e2 e3 e4 D =>
          updateRows (fun x c => c +
            (A.elem x e1.index * e1.value + A.elem x e2.index * e2.value +
              A.elem x e3.index * e3.value + A.elem x e4.index * e4.value)) i r j D))
        fuel ⟨0, cursorBegin A B i j, C⟩ = .ok s ∧
      s.element = cursorBegin A B i j + cursorKpos A B i iend j ∧
      s.element ≤ cursorEnd A B iend j) ∧
    (∃ s, whileLoop (fun s : UnrolledState => decide (s.k < cursorKpos A B i iend j))
        (unrolledStep B j (fun e1 e2 e3 e4 D =>
          updateRows (fun x c => c -
            (A.elem x e1.index * e1.value + A.elem x e2.index * e2.value +
              A.elem x e3.index * e3.value + A.elem x e4.index * e4.value)) i r j D))
        fuel ⟨0, cursorBegin A B i j, C⟩ = .ok s ∧
      s.element = cursorBegin A B i j + cursorKpos A B i iend j ∧
      s.element ≤ cursorEnd A B iend j) := by
  have hhi := cursorEnd_le_length A B iend j
  have hnz : cursorNonzeros A B i iend j = cursorEnd A B iend j - cursorBegin A B i j := by
    unfold cursorNonzeros
    have h1 : cursorEnd A B iend j + sizeT - cursorBegin A B i j =
        (cursorEnd A B iend j - cursorBegin A B i j) + sizeT := by omega
    rw [h1, Nat.add_mod_right]
    exact Nat.mod_eq_of_lt (by omega)
  have hkpos : cursorKpos A B i iend j =
      cursorNonzeros A B i iend j - cursorNonzeros A B i iend j % 4 := by
    unfold cursorKpos
    exact land_mask _ (by rw [hnz]; omega)
  refine ⟨?_, kpos_assert, hnz, by rw [hkpos]; omega, ?_, ?_⟩
  · intro n hn
    rw [land_mask n hn]
    omega
  · obtain ⟨s, hrun, hel, _⟩ := unrolledLoop_spec (fun c t => c + t) 1
      (by intro c t; ring) A B i r j (cursorBegin A B i j) (cursorKpos A B i iend j) fuel C
      hsorted (by rw [hkpos]; omega) (by rw [hkpos, hnz]; omega) (by rw [hkpos, hnz]; omega)
    exact ⟨s, hrun, hel, by rw [hel, hkpos, hnz]; omega⟩
  · obtain ⟨s, hrun, hel, _⟩ := unrolledLoop_spec (fun c t => c - t) (-1)
      (by intro c t; ring) A B i r j (cursorBegin A B i j) (cursorKpos A B i iend j) fuel C
      hsorted (by rw [hkpos]; omega) (by rw [hkpos, hnz]; omega) (by rw [hkpos, hnz]; omega)
    exact ⟨s, hrun, hel, by rw [hel, hkpos, hnz]; omega⟩

/-- Witness of C37 on a column of six entries and the group of the rows 0 to 3 of a
lower 6x6 operand: five entries lie in the cursor range, four of which the unrolled
loop reads. -/
theorem C37_witness :
    ((∀ n, n < sizeT → n &&& (sizeT - 4) = n - n % 4 ∧ n &&& (sizeT - 4) ≤ n ∧
      (n &&& (sizeT - 4)) % 4 = 0) ∧
    (∀ (A2 : DenseMatrix) (B2 : SparseMatrix) (i2 iend2 j2 : Nat),
      internalAssert (decide (cursorNonzeros A2 B2 i2 iend2 j2 -
        cursorNonzeros A2 B2 i2 iend2 j2 % 4 = cursorKpos A2 B2 i2 iend2 j2)) = .ok ()) ∧
    cursorNonzeros lowerSix fullColumnRight 0 4 0 =
      cursorEnd lowerSix fullColumnRight 4 0 - cursorBegin lowerSix fullColumnRight 0 0 ∧
    cursorKpos lowerSix fullColumnRight 0 4 0 ≤ cursorNonzeros lowerSix fullColumnRight 0 4 0 ∧
    (∃ s, whileLoop
        (fun s : UnrolledState => decide (s.k < cursorKpos lowerSix fullColumnRight 0 4 0))
        (unrolledStep fullColumnRight 0 (fun e1 e2 e3 e4 D =>
          updateRows (fun x c => c +
            (lowerSix.elem x e1.index * e1.value + lowerSix.elem x e2.index * e2.value +
              lowerSix.elem x e3.index * e3.value + lowerSix.elem x e4.index * e4.value))
            0 4 0 D))
        7 ⟨0, cursorBegin lowerSix fullColumnRight 0 0, constantTarget 0 true⟩ = .ok s ∧
      s.element = cursorBegin lowerSix fullColumnRight 0 0 +
        cursorKpos lowerSix fullColumnRight 0 4 0 ∧
      s.element ≤ cursorEnd lowerSix fullColumnRight 4 0) ∧
    (∃ s, whileLoop
        (fun s : UnrolledState => decide (s.k < cursorKpos lowerSix fullColumnRight 0 4 0))
        (unrolledStep fullColumnRight 0 (fun e1 e2 e3 e4 D =>
          updateRows (fun x c => c -
            (lowerSix.elem x e1.index * e1.value + lowerSix.elem x e2.index * e2.value +
              lowerSix.elem x e3.index * e3.value + lowerSix.elem x e4.index * e4.value))
            0 4 0 D))
        7 ⟨0, cursorBegin lowerSix fullColumnRight 0 0, constantTarget 0 true⟩ = .ok s ∧
      s.element = cursorBegin lowerSix fullColumnRight 0 0 +
        cursorKpos lowerSix fullColumnRight 0 4 0 ∧
      s.element ≤ cursorEnd lowerSix fullColumnRight 4 0)) ∧
    cursorNonzeros lowerSix fullColumnRight 0 4 0 = 5 ∧
    cursorKpos lowerSix fullColumnRight 0 4 0 = 4 :=
  ⟨C37_unrolled_loop_bound 7 lowerSix fullColumnRight 0 4 4 0 (constantTarget 0 true)
    (fullColumnRight_wellFormed 0 (by decide)).1 (by decide) (by decide) (by decide),
    by decide, by decide⟩

/-- C38: for a sparse operand whose columns store their entries in strictly increasing
index order the assertion `j1 < j2 < j3 < j4` of the unrolled loop fails in no iteration,
whatever the cursor and the statements are, and none of the optimized overwrite,
addition and subtraction kernels ends in an assertion failure, whatever the fuel, the
target and the left operand are; with columns of fewer than `2^64` entries, a left
operand not flagged strictly upper and strictly lower at once and enough fuel all three
end without any fault. -/
theorem C38_index_assertion_never_fails (B : SparseMatrix)
    (hsorted : ∀ j, j < B.columns → (B.column j).Pairwise (fun a b => a.index < b.index)) :
    (∀ j, j < B.columns → ∀ stmt s, unrolledStep B j stmt s ≠ .error .internalAssert) ∧
    (∀ (fuel : Nat) (C A : DenseMatrix),
      selectAssignKernelOptimized fuel C A B ≠ .error .internalAssert ∧
      selectAddAssignKernelOptimized fuel C A B ≠ .error .internalAssert ∧
      selectSubAssignKernelOptimized fuel C A B ≠ .error .internalAssert) ∧
    (∀ (fuel : Nat) (C A : DenseMatrix), (∀ j, j < B.columns → (B.column j).length < sizeT) →
      ¬ A.StrictlyUpperAndLower → EnoughFuel fuel A B →
      (∃ D, selectAssignKernelOptimized fuel C A B = .ok D) ∧
      (∃ D, selectAddAssignKernelOptimized fuel C A B = .ok D) ∧
      (∃ D, selectSubAssignKernelOptimized fuel C A B = .ok D)) := by
  refine ⟨?_, ?_, ?_⟩
  · intro j hj stmt s
    exact unrolledStep_ne_assert B j (hsorted j hj) stmt s
  · intro fuel C A
    have key : ∀ (op : Int → Int → Int) (C2 : DenseMatrix),
        kernelLoops (optimizedGroup op fuel A B) fuel C2 A B ≠ .error .internalAssert := by
      intro op C2
      exact kernelLoops_ne_error _ fuel C2 A B _ (fun h => Fault.noConfusion h)
        (fun i r iend j hj D => optimizedGroup_ne_assert op fuel A B i r iend j D
          (hsorted j hj))
    exact ⟨key _ (reset C), key _ C, key _ C⟩
  · intro fuel C A hsize hflags hfuel
    have hord := cursorsOrdered_of_flags A B hflags
    have hs : B.SortedColumns := fun j hj => ⟨hsorted j hj, hsize j hj⟩
    obtain ⟨D1, hD1, _⟩ := selectAddAssignKernelOptimized_spec fuel (reset C) A B hs hord hfuel
    obtain ⟨D2, hD2, _⟩ := selectAddAssignKernelOptimized_spec fuel C A B hs hord hfuel
    obtain ⟨D3, hD3, _⟩ := selectSubAssignKernelOptimized_spec fuel C A B hs hord hfuel
    exact ⟨⟨D1, hD1⟩, ⟨D2, hD2⟩, ⟨D3, hD3⟩⟩

/-- Witness of C38 on a sparse operand whose single column stores six entries. -/
theorem C38_witness :
    (∀ j, j < fullColumnRight.columns → ∀ stmt s,
      unrolledStep fullColumnRight j stmt s ≠ .error .internalAssert) ∧
    (∀ (fuel : Nat) (C A : DenseMatrix),
      selectAssignKernelOptimized fuel C A fullColumnRight ≠ .error .internalAssert ∧
      selectAddAssignKernelOptimized fuel C A fullColumnRight ≠ .error .internalAssert ∧
      selectSubAssignKernelOptimized fuel C A fullColumnRight ≠ .error .internalAssert) ∧
    (∀ (fuel : Nat) (C A : DenseMatrix),
      (∀ j, j < fullColumnRight.columns → (fullColumnRight.column j).length < sizeT) →
      ¬ A.StrictlyUpperAndLower → EnoughFuel fuel A fullColumnRight →
      (∃ D, selectAssignKernelOptimized fuel C A fullColumnRight = .ok D) ∧
      (∃ D, selectAddAssignKernelOptimized fuel C A fullColumnRight = .ok D) ∧
      (∃ D, selectSubAssignKernelOptimized fuel C A fullColumnRight = .ok D)) ∧
    ((∃ D, selectAssignKernelOptimized 7 (constantTarget 0 true) lowerSix
        fullColumnRight = .ok D) ∧
      (∃ D, selectAddAssignKernelOptimized 7 (constantTarget 0 true) lowerSix
        fullColumnRight = .ok D) ∧
      (∃ D, selectSubAssignKernelOptimized 7 (constantTarget 0 true) lowerSix
        fullColumnRight = .ok D)) :=
  ⟨(C38_index_assertion_never_fails fullColumnRight
      (fun j hj => (fullColumnRight_wellFormed j hj).1)).1,
    (C38_index_assertion_never_fails fullColumnRight
      (fun j hj => (fullColumnRight_wellFormed j hj).1)).2.1,
    (C38_index_assertion_never_fails fullColumnRight
      (fun j hj => (fullColumnRight_wellFormed j hj).1)).2.2,
    (C38_index_assertion_never_fails fullColumnRight
      (fun j hj => (fullColumnRight_wellFormed j hj).1)).2.2 7 (constantTarget 0 true)
      lowerSix
      (fun j hj => (WellFormed.sortedColumns fullColumnRight_wellFormed (by decide) j hj).2)
      (fun h => Bool.noConfusion h.2.1)
      (WellFormed.enoughFuel fullColumnRight_wellFormed lowerSix 7 (by decide) (by decide)
        (by decide))⟩

end blaze
